import Mathlib

/-!
# EDPathFinder: route planning

A shallow embedding of the route-planning core of EDPathFinder (`AStarRouter.cpp`,
`TSPWorker.cpp`, `MainWindow::createRoute`) and theorems about it.

Conventions of the embedding:
* single-precision values (`float`, `QVector3D` components) are rationals; an operation on
  them delivers the exact result rounded by `f32` (round to nearest, ties to even, 24-bit
  significand, exponent range not bounded); a division by zero, which yields a NaN or an
  infinity in the source, is guarded where the source divides;
* `int64` values are integers;
* a pointer to a node of a search context is the index of the node in the context, a null
  pointer is `none`;
* functions declared outside the sources (`System::distance`,
  `AStarSystemNode::distanceTo`, `std::sort`, the path-finding and the routing library) are
  parameters of the definitions that call them.
-/

namespace EDPathFinder

/-- A settlement of a planet, with the attributes the filters read. -/
structure Settlement where
  name : String
  flags : Nat
  size : Nat
  threatLevel : Nat
  deriving DecidableEq, Inhabited

/-- A planet of a system and its settlements. -/
structure Planet where
  name : String
  settlements : List Settlement
  deriving DecidableEq, Inhabited

/-- A system (the spec's Location): its name, its planets and its coordinates. -/
structure System where
  name : String
  planets : List Planet
  x : ℚ
  y : ℚ
  z : ℚ
  deriving DecidableEq, Inhabited

/-! ## Single-precision arithmetic -/

/-- The power `2 ^ k` of two for an integer `k`. -/
def pow2 (k : ℤ) : ℚ :=
  if 0 ≤ k then ((2 ^ k.toNat : ℕ) : ℚ) else 1 / ((2 ^ (-k).toNat : ℕ) : ℚ)

/-- The number of times `n` can be halved before it falls below `2`, at most `fuel`
times. -/
def log2Fuel : Nat → Nat → Nat
  | 0, _ => 0
  | fuel + 1, n => if 2 ≤ n then log2Fuel fuel (n / 2) + 1 else 0

/-- The binary logarithm of a natural number, rounded down. -/
def ilog2 (n : Nat) : Nat := log2Fuel n n

/-- The binary exponent of a positive rational `q`: the integer `e` with
`2 ^ e ≤ q < 2 ^ (e + 1)`. -/
def expo (q : ℚ) : ℤ :=
  if pow2 ((ilog2 q.num.natAbs : ℤ) - (ilog2 q.den : ℤ)) ≤ q then
    (ilog2 q.num.natAbs : ℤ) - (ilog2 q.den : ℤ)
  else (ilog2 q.num.natAbs : ℤ) - (ilog2 q.den : ℤ) - 1

/-- Rounding of a rational to the nearest integer, a tie going to the even one. -/
def roundNearestEven (y : ℚ) : ℤ :=
  if y - ⌊y⌋ < 1 / 2 then ⌊y⌋
  else if 1 / 2 < y - ⌊y⌋ then ⌊y⌋ + 1
  else if ⌊y⌋ % 2 = 0 then ⌊y⌋
  else ⌊y⌋ + 1

/-- Rounding of a positive rational to a significand of 24 bits. -/
def f32pos (q : ℚ) : ℚ :=
  (roundNearestEven (q * pow2 (23 - expo q)) : ℚ) * pow2 (expo q - 23)

/-- The single-precision value of a rational: the result that an operation of type `float`
(IEEE 754 binary32, round to nearest, ties to even) delivers when its exact result is `q`.
The exponent range is not bounded: overflow, underflow and subnormal numbers are not
modelled. -/
def f32 (q : ℚ) : ℚ :=
  if 0 < q then f32pos q else if q < 0 then -f32pos (-q) else 0

/-- The bits of the square root of `n`, rounded down, found from bit `k - 1` downwards;
`r` holds the bits found so far. -/
def isqrtBits (n : Nat) : Nat → Nat → Nat
  | 0, r => r
  | k + 1, r =>
    if (r + 2 ^ k) * (r + 2 ^ k) ≤ n then isqrtBits n k (r + 2 ^ k) else isqrtBits n k r

/-- The square root of a natural number, rounded down. -/
def isqrt (n : Nat) : Nat := isqrtBits n (ilog2 n / 2 + 1) 0

/-- The integer nearest to the square root of a non-negative rational, a tie going to the
even one: with `m` the root rounded down, the root is compared with `m + 1/2`. -/
def roundedRoot (y : ℚ) : Nat :=
  if y < (isqrt ⌊y⌋.toNat : ℚ) * isqrt ⌊y⌋.toNat + isqrt ⌊y⌋.toNat + 1 / 4 then
    isqrt ⌊y⌋.toNat
  else if (isqrt ⌊y⌋.toNat : ℚ) * isqrt ⌊y⌋.toNat + isqrt ⌊y⌋.toNat + 1 / 4 < y then
    isqrt ⌊y⌋.toNat + 1
  else if isqrt ⌊y⌋.toNat % 2 = 0 then isqrt ⌊y⌋.toNat
  else isqrt ⌊y⌋.toNat + 1

/-- The single-precision square root of a rational: the root rounded to a significand of 24
bits (round to nearest, ties to even), as `sqrt` on a `float` delivers it. The root of a
number that is not positive is taken as `0`; the exponent range is not bounded. -/
def f32sqrt (q : ℚ) : ℚ :=
  if 0 < q then
    (roundedRoot (q * pow2 (2 * (23 - expo q / 2))) : ℚ) * pow2 (expo q / 2 - 23)
  else 0

/-- The effect of `std::vector::resize(n, v)`: the first `n` elements are kept and the
vector is padded with copies of `v` up to length `n`. -/
def resize {α : Type} (l : List α) (n : Nat) (v : α) : List α :=
  l.take n ++ List.replicate (n - l.length) v

/-- Read of `_distanceMatrix[i][j]`. -/
def getCell (m : List (List Int)) (i j : Nat) : Int :=
  (m.getD i []).getD j 0

/-- Write `_distanceMatrix[i][j] = v`. -/
def setCell (m : List (List Int)) (i j : Nat) (v : Int) : List (List Int) :=
  m.set i ((m.getD i []).set j v)

/-- A dispatched task: the value its future yields, and the pair it was started for
(`FuturePair` in `calculateDistanceMatrix`). -/
abbrev FuturePair := Int × (Nat × Nat)

/-- Body of the inner loop of `calculateDistanceMatrix` for the cell `(frm, dst)`. -/
def dispatchBody (calculateDistance : Nat → Nat → Int) (frm dst : Nat)
    (st : List (List Int) × List FuturePair) : List (List Int) × List FuturePair :=
  if frm ≠ dst then
    if getCell st.1 dst frm = -1 then
      (setCell (setCell st.1 dst frm (-2)) frm dst (-2),
        st.2 ++ [(calculateDistance frm dst, (frm, dst))])
    else st
  else (setCell st.1 frm dst 0, st.2)

/-- The inner loop `for(to = 0; to < sz; to++)` run for its first `t` iterations. -/
def dispatchRow (calculateDistance : Nat → Nat → Int) (frm t : Nat)
    (st : List (List Int) × List FuturePair) : List (List Int) × List FuturePair :=
  (List.range t).foldl (fun s dst => dispatchBody calculateDistance frm dst s) st

/-- The outer loop `for(from = 0; from < sz; from++)` run for its first `f` iterations. -/
def dispatchAll (calculateDistance : Nat → Nat → Int) (sz f : Nat)
    (st : List (List Int) × List FuturePair) : List (List Int) × List FuturePair :=
  (List.range f).foldl (fun s frm => dispatchRow calculateDistance frm sz s) st

/-- The first loop: every row is resized to `sz` cells holding `-1`. -/
def initRows (sz k : Nat) (m : List (List Int)) : List (List Int) :=
  (List.range k).foldl (fun m frm => m.set frm (resize (m.getD frm []) sz (-1))) m

/-- The last loop: each future is waited for and its result stored in both cells of
its pair, `_distanceMatrix[a][b] = _distanceMatrix[b][a] = pair.first.result()`. -/
def collect (futures : List FuturePair) (m : List (List Int)) : List (List Int) :=
  futures.foldl (fun m p => setCell (setCell m p.2.2 p.2.1 p.1) p.2.1 p.2.2 p.1) m

/-- Embedding of `TSPWorker::calculateDistanceMatrix` for `sz` systems; the matrix member
starts out empty. A task started with `QtConcurrent::run` only computes
`calculateDistance from to`, so a future is the value of that call; the cells are written
by the calling thread, in the three loops of the function. -/
def calculateDistanceMatrix (calculateDistance : Nat → Nat → Int) (sz : Nat) :
    List (List Int) :=
  let m0 : List (List Int) := resize [] sz []
  let m1 := initRows sz sz m0
  let st := dispatchAll calculateDistance sz sz (m1, [])
  collect st.2 st.1

/-! ## Point-to-point routing (`AStarRouter.cpp`) -/

/-- A `QVector3D`: its three `float` components, each a rational. -/
structure Vec3 where
  x : ℚ
  y : ℚ
  z : ℚ
  deriving DecidableEq

/-- Embedding of `operator-` of `QVector3D`: the components are subtracted in single precision. -/
def Vec3.sub (a b : Vec3) : Vec3 := ⟨f32 (a.x - b.x), f32 (a.y - b.y), f32 (a.z - b.z)⟩

/-- Embedding of `QVector3D::crossProduct`, every product and difference rounded to single precision. -/
def Vec3.crossProduct (a b : Vec3) : Vec3 :=
  ⟨f32 (f32 (a.y * b.z) - f32 (a.z * b.y)), f32 (f32 (a.z * b.x) - f32 (a.x * b.z)),
    f32 (f32 (a.x * b.y) - f32 (a.y * b.x))⟩

/-- Embedding of `QVector3D::lengthSquared`, the sum `x * x + y * y + z * z` with every product and sum
rounded to single precision. -/
def Vec3.lengthSquared (a : Vec3) : ℚ :=
  f32 (f32 (f32 (a.x * a.x) + f32 (a.y * a.y)) + f32 (a.z * a.z))

/-- Embedding of `System::position`. -/
def System.position (s : System) : Vec3 := ⟨s.x, s.y, s.z⟩

/-- The members of an `AStarCalculator` that `cylinder` and `solve` use. A node
(`AStarSystemNode *`) is named by its index in `nodes`; `start` and `goal` are the members
`_start` and `_end`, `none` for a null pointer. -/
structure AStarCalculator where
  nodes : List System
  start : Option Nat
  goal : Option Nat
  jumpRange : ℚ
  deriving DecidableEq

/-- The value `dist` that `cylinder` computes for a system at position `p`, the quotient of
`numerator` and `denominator` in single precision. -/
def cylinderDist (p vec_from vec_to : Vec3) : ℚ :=
  let numerator := ((p.sub vec_from).crossProduct (p.sub vec_to)).lengthSquared
  let denominator := (vec_to.sub vec_from).lengthSquared
  f32 (numerator / denominator)

/-- The test `dist < bufferSquare` of `cylinder` for a system at position `p`. With a zero
denominator the single-precision quotient is a NaN or an infinity, and the comparison is
false. -/
def inCylinder (p vec_from vec_to : Vec3) (buffer : ℚ) : Bool :=
  let bufferSquare := f32 (buffer * buffer)
  decide ((vec_to.sub vec_from).lengthSquared ≠ 0 ∧
    cylinderDist p vec_from vec_to < bufferSquare)

/-- One iteration of the loop of `AStarCalculator::cylinder`. -/
def cylinderStep (vec_from vec_to : Vec3) (buffer : ℚ) (c : AStarCalculator) (s : System) :
    AStarCalculator :=
  if inCylinder s.position vec_from vec_to buffer then
    let systemNode := c.nodes.length
    let c1 := { c with nodes := c.nodes ++ [s] }
    if s.position = vec_from then { c1 with start := some systemNode }
    else if s.position = vec_to then { c1 with goal := some systemNode }
    else c1
  else c

/-- Embedding of `AStarCalculator::cylinder`. -/
def cylinder (c : AStarCalculator) (stars : List System) (vec_from vec_to : Vec3) (buffer : ℚ) :
    AStarCalculator :=
  stars.foldl (cylinderStep vec_from vec_to buffer) c

/-- Modelled from the spec: the constructor of `AStarCalculator` (declared in
`AStarRouter.h`), "Run the Corridor Culler with a fixed buffer to obtain the candidate node
set". The calculator starts with no node and null `_start` and `_end`, and culls the
catalog around the line from the start system to the end system; the fixed buffer is the
parameter `buffer`. -/
def AStarCalculator.create (buffer : ℚ) (systems : List System) (beginSys endSys : System)
    (jumprange : ℚ) : AStarCalculator :=
  cylinder ⟨[], none, none, jumprange⟩ systems beginSys.position endSys.position buffer

/-- The scan of `AStarSystemNode::getChildren`: every node of the calculator whose distance
from `self` lies strictly between `0` and the jump range is added as a child, with that
distance. `distanceTo` is `AStarSystemNode::distanceTo` (declared in `AStarRouter.h`). -/
def scanChildren (distanceTo : System → System → ℚ) (c : AStarCalculator) (self : System) :
    List (Nat × ℚ) :=
  (List.range c.nodes.length).filterMap (fun i =>
    match c.nodes[i]? with
    | some system =>
      let dist := distanceTo self system
      if 0 < dist ∧ dist < c.jumpRange then some (i, dist) else none
    | none => none)

/-- Embedding of `AStarSystemNode::getChildren` for the node `self`, whose cached list `m_children` is
the last argument; the result is the list returned, which is also the new value of
`m_children`. -/
def getChildren (distanceTo : System → System → ℚ) (c : AStarCalculator) (self : Nat)
    (m_children : List (Nat × ℚ)) : List (Nat × ℚ) :=
  if m_children.length ≠ 0 then m_children
  else
    match c.nodes[self]? with
    | some s => m_children ++ scanChildren distanceTo c s
    | none => m_children

/-- The cached list `m_children` of the node `self` after `k` calls of `getChildren`, the
node having no child when it is created; it is also the list the `k`-th call returns. -/
def getChildrenCalls (distanceTo : System → System → ℚ) (c : AStarCalculator) (self : Nat) :
    Nat → List (Nat × ℚ)
  | 0 => []
  | k + 1 => getChildren distanceTo c self (getChildrenCalls distanceTo c self k)

/-- The state of a Path Result (`AStarResult`). -/
structure AStarResult where
  valid : Bool
  route : List System
  distance : ℚ
  deriving DecidableEq

/-- Modelled from the spec: the default constructor of `AStarResult` (declared in
`AStarRouter.h`), the invalid Path Result; it has no route and distance `0`. -/
def AStarResult.invalid : AStarResult := ⟨false, [], 0⟩

/-- The loop of the constructor `AStarResult::AStarResult(solution)`: the distance summed
so far, a `float` to which each leg is added in single precision, and the previous node
(`last`). -/
def routeDistance (distanceTo : System → System → ℚ) (solution : List System) :
    ℚ × Option System :=
  solution.foldl (fun acc asys =>
    match acc.2 with
    | some last => (f32 (acc.1 + distanceTo asys last), some asys)
    | none => (acc.1, some asys)) (0, none)

/-- Embedding of `AStarResult::AStarResult(const AStarSystemList &solution)`. -/
def AStarResult.ofSolution (distanceTo : System → System → ℚ) (solution : List System) :
    AStarResult :=
  ⟨true, solution, (routeDistance distanceTo solution).1⟩

/-- The interface of `PathFinder<AStarSystemNode>::findPath<AStar>` as `solve` uses it: given
the number of nodes of the search context, each node's `getChildren`, the nodes'
`distanceTo`, the start and the goal, it yields the solution (nodes from start to goal) or
nothing. -/
abbrev FindPath := Nat → (Nat → List (Nat × ℚ)) → (Nat → Nat → ℚ) → Nat → Nat → Option (List Nat)

/-- Embedding of `AStarCalculator::solve`. The path finder gets the number of nodes, the
`getChildren` of the nodes (called on nodes whose cache is empty) and their `distanceTo`;
the `System(asys)` made of a node of the solution is the system the node was made of. -/
def AStarCalculator.solve (distanceTo : System → System → ℚ) (findPath : FindPath)
    (c : AStarCalculator) : AStarResult :=
  match c.start, c.goal with
  | some s, some e =>
    match findPath c.nodes.length (fun u => getChildren distanceTo c u [])
        (fun u v => distanceTo (c.nodes.getD u default) (c.nodes.getD v default)) s e with
    | some solution => AStarResult.ofSolution distanceTo (solution.filterMap (fun i => c.nodes[i]?))
    | none => AStarResult.invalid
  | _, _ => AStarResult.invalid

/-- The Location Catalog (`AStarRouter`): the systems it holds. -/
structure AStarRouter where
  systems : List System

/-- Modelled from the spec: `AStarRouter::getSystemByName` (declared in `AStarRouter.h`),
"`find(name)` — returns the location or a not-found signal". -/
def AStarRouter.getSystemByName (r : AStarRouter) (name : String) : Option System :=
  r.systems.find? (fun s => s.name = name)

/-- Modelled from the spec: `AStarRouter::addSystem` (declared in `AStarRouter.h`),
"`add(location)` — insert or overwrite by name, idempotent". -/
def AStarRouter.addSystem (r : AStarRouter) (s : System) : AStarRouter :=
  if r.systems.any (fun t => t.name = s.name) then
    ⟨r.systems.map (fun t => if t.name = s.name then s else t)⟩
  else ⟨r.systems ++ [s]⟩

/-- Embedding of `AStarRouter::calculateRoute`. -/
def AStarRouter.calculateRoute (distanceTo : System → System → ℚ) (buffer : ℚ)
    (findPath : FindPath) (r : AStarRouter) (begin_ end_ : String) (jumprange : ℚ) :
    AStarResult :=
  match r.getSystemByName begin_, r.getSystemByName end_ with
  | some beginSys, some endSys =>
    (AStarCalculator.create buffer r.systems beginSys endSys jumprange).solve distanceTo findPath
  | _, _ => AStarResult.invalid

/-! ### The search, modelled from the spec -/

/-- An entry of the open set: a node, the cost `g` of the best route found to it, its
estimate `f = g + h`, and that route, the node first and the start last. -/
structure OpenNode where
  node : Nat
  g : ℚ
  f : ℚ
  path : List Nat
  deriving DecidableEq

/-- The open entry of least `f` (the first of them) and the rest of the open set. -/
def popMin : List OpenNode → Option (OpenNode × List OpenNode)
  | [] => none
  | e :: rest =>
    match popMin rest with
    | none => some (e, [])
    | some (m, rest1) => if e.f ≤ m.f then some (e, rest) else some (m, e :: rest1)

/-- Relaxation of the edge from `cur` to the child `ch.1` of cost `ch.2`: a closed child, or
one already open at no greater cost, is left alone; otherwise the child is (re)opened with
the route through `cur`. -/
def relax (h : Nat → ℚ) (closed : List Nat) (cur : OpenNode) (openSet : List OpenNode)
    (ch : Nat × ℚ) : List OpenNode :=
  if ch.1 ∈ closed then openSet
  else if openSet.any (fun o => decide (o.node = ch.1 ∧ o.g ≤ cur.g + ch.2)) then openSet
  else
    ⟨ch.1, cur.g + ch.2, cur.g + ch.2 + h ch.1, ch.1 :: cur.path⟩ ::
      openSet.filter (fun o => decide (o.node ≠ ch.1))

/-- The main loop of the search: take the open node of least `f`; if it is the goal its
route is the solution, otherwise close it and relax its edges. An exhausted open set means
there is no route. -/
def astarLoop (children : Nat → List (Nat × ℚ)) (h : Nat → ℚ) (goal : Nat) :
    Nat → List OpenNode → List Nat → Option (List Nat)
  | 0, _, _ => none
  | fuel + 1, openSet, closed =>
    match popMin openSet with
    | none => none
    | some (cur, rest) =>
      if cur.node = goal then some cur.path.reverse
      else
        astarLoop children h goal fuel
          ((children cur.node).foldl (relax h (cur.node :: closed) cur) rest)
          (cur.node :: closed)

/-- Modelled from the spec: `PathFinder<AStarSystemNode>::findPath<AStar>` (the path-finding
library is not among the sources), "Run A* over the candidate set: edge cost = Euclidean
distance (only where `< jumpRange`); heuristic = straight-line distance to goal", "If the
open set is exhausted without reaching the goal, return invalid". Every iteration closes a
node that was not closed before, so `n + 1` iterations exhaust a context of `n` nodes. -/
def astar : FindPath := fun n children distanceTo start goal =>
  astarLoop children (fun v => distanceTo v goal) goal (n + 1)
    [⟨start, 0, distanceTo start goal, [start]⟩] []

/-- Modelled from the spec: `System::distance` and `AStarSystemNode::distanceTo` (declared
in `System.h` and `AStarRouter.h`), the "Euclidean distance" between two systems: the
single-precision square root of the squared length of the difference of the positions. It
is the distance the worked examples are run with. -/
def euclid (a b : System) : ℚ :=
  f32sqrt ((a.position.sub b.position).lengthSquared)

/-! ## Tour planning (`TSPWorker.cpp`, `MainWindow.cpp`) -/

/-- Conversion of a `float` to `int64`: the fraction is dropped (rounding toward zero).
The range of `int64` is not modelled: in the source the conversion of a value of magnitude
`2^63` or more is undefined. -/
def toInt64 (q : ℚ) : Int := q.num.tdiv q.den

/-- The constant `INT64_MAX`. -/
def INT64_MAX : Int := 9223372036854775807

/-- The members of a `TSPWorker`. `router` is the member `_router`, `none` for a null
pointer, given by its `calculateRoute`. -/
structure TSPWorker where
  systems : List System
  origin : Option System
  maxSystemCount : Nat
  router : Option (String → String → ℚ → AStarResult)

/-- Embedding of `TSPWorker::calculateDistance`. `distance` is `System::distance` (declared in
`System.h`). -/
def TSPWorker.calculateDistance (distance : System → System → ℚ) (w : TSPWorker)
    (frm dst : Nat) : Int :=
  let fromSystem := w.systems.getD frm default
  let toSystem := w.systems.getD dst default
  match w.router with
  | some calculateRoute =>
    let result := calculateRoute fromSystem.name toSystem.name 45
    if result.valid then (result.route.length : Int) else INT64_MAX
  | none => toInt64 (distance fromSystem toSystem)

/-- A row of a Tour Result: system, planet and settlement names, the distance of the
entry and the running total. The source stores the `System::formatDistance` text of the two
numbers. -/
structure RouteRow where
  system : String
  planet : String
  settlement : String
  distance : Int
  totalDist : Int
  deriving DecidableEq

/-- The state of a `RouteResult`: its rows (`_route`) and `_totalDist`. -/
structure RouteResult where
  route : List RouteRow
  totalDist : Int
  deriving DecidableEq

/-- Modelled from the spec: the default constructor of `RouteResult` (declared in
`TSPWorker.h`), the empty Tour Result, "zero rows, total distance `0`". -/
def RouteResult.empty : RouteResult := ⟨[], 0⟩

/-- Embedding of `RouteResult::addEntry`. The total `_totalDist` is an integer: an overflow of the
`int64` it is held in is not modelled. -/
def RouteResult.addEntry (r : RouteResult) (system : System) (planet settlement : String)
    (distance : Int) : RouteResult :=
  let totalDist := r.totalDist + distance
  ⟨r.route ++ [⟨system.name, planet, settlement, distance, totalDist⟩], totalDist⟩

/-- The first part of `TSPWorker::run` for a worker with an origin: the systems are sorted
by distance to the origin, cut down to `_maxSystemCount`, and the origin is pushed to the
front. `stdSort` is `std::sort` with the given comparison. -/
def TSPWorker.sortAndResize (distance : System → System → ℚ)
    (stdSort : (System → System → Bool) → List System → List System) (w : TSPWorker)
    (origin : System) : List System :=
  let sorted := stdSort (fun a b => decide (distance a origin < distance b origin)) w.systems
  let resized :=
    if w.maxSystemCount < sorted.length then resize sorted w.maxSystemCount default
    else sorted
  origin :: resized

/-- The loop over the settlements of one planet in `TSPWorker::run`: an entry each, the
first with the pending distance `st.2`, which is then `0`. -/
def visitSettlements (sys : System) (planet : Planet) (st : RouteResult × Int) :
    RouteResult × Int :=
  planet.settlements.foldl
    (fun st settlement => (st.1.addEntry sys planet.name settlement.name st.2, 0)) st

/-- The variables of the result loop of `TSPWorker::run`. -/
structure WalkState where
  result : RouteResult
  previd : Nat
  dist : Int

/-- One iteration of the result loop of `TSPWorker::run`, for the node `nodeid`. -/
def visitNode (distance : System → System → ℚ) (systems : List System) (st : WalkState)
    (nodeid : Nat) : WalkState :=
  let sys := systems.getD nodeid default
  let dist :=
    if nodeid > 0 then toInt64 (distance sys (systems.getD st.previd default)) else st.dist
  if sys.planets.length = 0 then
    ⟨st.result.addEntry sys "Point of Origin" "" dist, nodeid, dist⟩
  else
    let r := sys.planets.foldl (fun acc planet => visitSettlements sys planet acc)
      (st.result, dist)
    ⟨r.1, nodeid, r.2⟩

/-- The branch `solution != NULL` of `TSPWorker::run`: the nodes of the route are walked
in the order `order` of the solution, then the entry back to `_systems[0]` is added. -/
def populate (distance : System → System → ℚ) (systems : List System) (order : List Nat) :
    RouteResult :=
  let st := order.foldl (visitNode distance systems) ⟨RouteResult.empty, 0, 0⟩
  let dist := toInt64 (distance (systems.getD 0 default) (systems.getD st.previd default))
  st.result.addEntry (systems.getD 0 default) "Point of Origin" "" dist

/-- The first part of `TSPWorker::run` for a worker without origin: `startingSystem` is
`&_systems[0]`, a slot of the container that `std::sort` permutes, so the comparison
measures against the system that this slot holds when the comparison is made. The systems
are sorted with it and cut down to `_maxSystemCount`; nothing is pushed to the front.
`stdSortAt` is `std::sort` with such a comparison, which is given as a function of the
system that the slot holds. -/
def TSPWorker.sortAndResizeNoOrigin (distance : System → System → ℚ)
    (stdSortAt : (System → System → System → Bool) → List System → List System)
    (w : TSPWorker) : List System :=
  let sorted := stdSortAt
    (fun startingSystem a b => decide (distance a startingSystem < distance b startingSystem))
    w.systems
  if w.maxSystemCount < sorted.length then resize sorted w.maxSystemCount default
  else sorted

/-- The member `_systems` when `run` calls `calculateDistanceMatrix`: the stop list, built
with or without an origin. -/
def TSPWorker.stops (distance : System → System → ℚ)
    (stdSort : (System → System → Bool) → List System → List System)
    (stdSortAt : (System → System → System → Bool) → List System → List System)
    (w : TSPWorker) : List System :=
  match w.origin with
  | some origin => w.sortAndResize distance stdSort origin
  | none => w.sortAndResizeNoOrigin distance stdSortAt

/-- Embedding of `TSPWorker::run`, the result being the `RouteResult` it emits with `taskCompleted`; it
emits one on every path. `routingSolve` is the routing library: from the distance matrix it
yields the nodes of the solution's route in visiting order, from the route's start up to its
end, or nothing when there is no solution. A read of `_systems[0]` in an empty container
yields the default system. -/
def TSPWorker.run (distance : System → System → ℚ)
    (stdSort : (System → System → Bool) → List System → List System)
    (stdSortAt : (System → System → System → Bool) → List System → List System)
    (routingSolve : List (List Int) → Option (List Nat)) (w : TSPWorker) :
    Option RouteResult :=
  let systems := w.stops distance stdSort stdSortAt
  let w1 : TSPWorker := { w with systems := systems }
  let matrix := calculateDistanceMatrix (w1.calculateDistance distance) systems.length
  match routingSolve matrix with
  | some order => some (populate distance systems order)
  | none => some RouteResult.empty

/-- What `MainWindow::createRoute` does. -/
inductive CreateRouteOutcome where
  | started (worker : TSPWorker)
  | fetchingOrigin
  | noSettlements

/-- Embedding of `MainWindow::createRoute`: with filtered systems and a known origin a worker is
started; with an unknown origin its coordinates are fetched; with no filtered system only
a message is shown. -/
def createRoute (router : AStarRouter) (filteredSystems : List System) (systemName : String)
    (routeSize : Nat) : CreateRouteOutcome :=
  if filteredSystems.length > 0 then
    match router.getSystemByName systemName with
    | none => CreateRouteOutcome.fetchingOrigin
    | some originSystem =>
      CreateRouteOutcome.started ⟨filteredSystems, some originSystem, routeSize, none⟩
  else CreateRouteOutcome.noSettlements

/-- Insertion of `a` into a list ordered by `lt`, after the elements it is not less
than. -/
def orderedInsert (lt : System → System → Bool) (a : System) : List System → List System
  | [] => [a]
  | b :: l => if lt a b then a :: b :: l else b :: orderedInsert lt a l

/-- Insertion sort, a sorting function to run the examples with. -/
def insertionSort (lt : System → System → Bool) : List System → List System
  | [] => []
  | a :: l => orderedInsert lt a (insertionSort lt l)

/-- A sorting function to run the examples with, for a comparison that reads the slot
`_systems[0]`: an insertion sort that reads the slot once, before it sorts. -/
def insertionSortAt (lt : System → System → System → Bool) (l : List System) : List System :=
  insertionSort (lt (l.getD 0 default)) l

/-- A routing function to run the examples with: the nodes are visited in index order. -/
def visitInOrder (matrix : List (List Int)) : Option (List Nat) :=
  some (List.range matrix.length)

/-! ## Filtering (`MainWindow::updateFilters`) -/

/-- The values that `updateFilters` reads from the widgets before it filters, its locals
`settlementFlags`, `jumpsExcluded`, `maxThreatLevel` and `settlementSizes`. -/
structure FilterSettings where
  settlementFlags : Nat
  jumpsExcluded : Bool
  maxThreatLevel : Nat
  settlementSizes : Nat

/-- The tests of the innermost loop of `updateFilters` on a settlement: `false` when one of
them takes its `continue`. `jumpClimbRequired` is the constant
`SettlementFlagsJumpClimbRequired` (declared in `Settlement.h`). -/
def settlementMatches (jumpClimbRequired : Nat) (f : FilterSettings)
    (settlement : Settlement) : Bool :=
  if (settlement.flags &&& f.settlementFlags) ≠ f.settlementFlags then false
  else if (f.settlementSizes &&& settlement.size) ≠ settlement.size then false
  else if settlement.threatLevel > f.maxThreatLevel then false
  else if f.jumpsExcluded = true ∧
      (settlement.flags &&& jumpClimbRequired) = jumpClimbRequired then false
  else true

/-- The loop of `updateFilters` over the settlements of a planet: the settlements that
match are collected in `matchingSettlements` and counted in `matches` (here
`matchCount`). -/
def filterSettlements (jumpClimbRequired : Nat) (f : FilterSettings) (planet : Planet)
    (matchCount : Nat) : List Settlement × Nat :=
  planet.settlements.foldl
    (fun st settlement =>
      if settlementMatches jumpClimbRequired f settlement then
        (st.1 ++ [settlement], st.2 + 1)
      else st)
    ([], matchCount)

/-- The loop of `updateFilters` over the planets of a system: a planet with a matching
settlement is collected in `matchingPlanets`, as `Planet(planet.name(),
matchingSettlements)`. -/
def filterPlanets (jumpClimbRequired : Nat) (f : FilterSettings) (system : System)
    (matchCount : Nat) : List Planet × Nat :=
  system.planets.foldl
    (fun st planet =>
      let r := filterSettlements jumpClimbRequired f planet st.2
      if r.1.length ≠ 0 then (st.1 ++ [⟨planet.name, r.1⟩], r.2) else (st.1, r.2))
    ([], matchCount)

/-- The body of the loop of `updateFilters` over the loaded systems: a system with a
matching planet is pushed on `_filteredSystems` as `System(system.name(), matchingPlanets,
system.x(), system.y(), system.y())`. The constructor (declared in `System.h`) takes the
name, the planets and the coordinates `x`, `y`, `z`, in this order. -/
def filterSystem (jumpClimbRequired : Nat) (f : FilterSettings) (st : List System × Nat)
    (system : System) : List System × Nat :=
  let r := filterPlanets jumpClimbRequired f system st.2
  if r.1.length ≠ 0 then
    (st.1 ++ [System.mk system.name r.1 system.x system.y system.y], r.2)
  else (st.1, r.2)

/-- The filtering part of `MainWindow::updateFilters` on the loaded systems `_systems`:
the result is `_filteredSystems` and `_matchingSettlementCount`. -/
def updateFilters (jumpClimbRequired : Nat) (f : FilterSettings) (systems : List System) :
    List System × Nat :=
  systems.foldl (filterSystem jumpClimbRequired f) ([], 0)

/-- System `A` of the first worked example of the spec, at `(0,0,0)`. -/
def sysA : System := ⟨"A", [], 0, 0, 0⟩

/-- System `B` of the first worked example, at `(10,0,0)`. -/
def sysB : System := ⟨"B", [], 10, 0, 0⟩

/-- System `C` of the first worked example, at `(20,0,0)`. -/
def sysC : System := ⟨"C", [], 20, 0, 0⟩

/-- The origin `O` of the second worked example of the spec, without planets. -/
def sysO : System := ⟨"O", [], 0, 0, 0⟩

/-- The destination `P1` of the second worked example, at distance `5` from `O`, with one
settlement. -/
def sysP1 : System := ⟨"P1", [⟨"P1 a", [⟨"Base", 0, 1, 0⟩]⟩], 3, 4, 0⟩

/-- The destination `P2` of the second worked example, at distance `50` from `O`, with two
settlements. -/
def sysP2 : System := ⟨"P2", [⟨"P2 a", [⟨"Camp", 0, 1, 0⟩, ⟨"Camp2", 0, 1, 0⟩]⟩], 0, 30, 40⟩

/-- A second system at the coordinates of `A`. -/
def sysA2 : System := ⟨"A2", [], 0, 0, 0⟩

/-! ## Definitions used by the statements and proofs -/

/-- The vector `v` scaled by `c`. -/
def Vec3.scale (c : ℚ) (v : Vec3) : Vec3 := ⟨c * v.x, c * v.y, c * v.z⟩

/-- The vector `v` reversed. -/
def Vec3.neg (v : Vec3) : Vec3 := ⟨-v.x, -v.y, -v.z⟩

/-- The matrix `m` is `sz × sz`. -/
def Grid (m : List (List Int)) (sz : Nat) : Prop :=
  m.length = sz ∧ ∀ i, i < sz → (m.getD i []).length = sz

/-- The matrix `m` is `sz × sz` and its cell `(i, j)` holds `c i j`. -/
def Rep (m : List (List Int)) (sz : Nat) (c : Nat → Nat → Int) : Prop :=
  Grid m sz ∧ ∀ i j, i < sz → j < sz → getCell m i j = c i j

/-- Marker held by cell `(i, j)` when the dispatch loops stand before the cell `(f, t)`:
`0` on a diagonal cell already passed, `-2` on both cells of a pair already dispatched,
`-1` elsewhere. -/
def markAt (f t i j : Nat) : Int :=
  if i = j then (if i < f ∨ (i = f ∧ i < t) then 0 else -1)
  else if (i < j ∧ (i < f ∨ (i = f ∧ j < t))) ∨ (j < i ∧ (j < f ∨ (j = f ∧ i < t)))
    then -2 else -1

/-- Futures dispatched by row `a` over its first `t` columns. -/
def rowFutures (cost : Nat → Nat → Int) (a t : Nat) : List FuturePair :=
  ((List.range t).filter (fun b => a < b)).map (fun b => (cost a b, (a, b)))

/-- Futures dispatched when the loops stand before the cell `(f, t)`. -/
def futuresAt (cost : Nat → Nat → Int) (sz f t : Nat) : List FuturePair :=
  (List.range f).flatMap (fun a => rowFutures cost a sz) ++ rowFutures cost f t

/-- Every pair that `calculateDistanceMatrix` dispatches, in dispatch order: the pairs
`(a, b)` with `a < b < sz`, row by row. -/
def allFutures (cost : Nat → Nat → Int) (sz : Nat) : List FuturePair :=
  (List.range sz).flatMap (fun a => rowFutures cost a sz)

/-- Embedding of `q` lists, last node first, a chain of edges of `children` that starts at `start`. -/
def IsRoute (children : Nat → List (Nat × ℚ)) (start : Nat) : List Nat → Prop
  | [] => False
  | [v] => v = start
  | v :: u :: rest => (∃ w, (v, w) ∈ children u) ∧ IsRoute children start (u :: rest)

/-- The cost of a route listed last node first, `wt u v` being the cost of the edge from
`u` to `v`. -/
def routeCost (wt : Nat → Nat → ℚ) : List Nat → ℚ
  | v :: u :: rest => wt u v + routeCost wt (u :: rest)
  | _ => 0

/-- The entry `relax` opens for the child `ch` of `cur`. -/
def childEntry (h : Nat → ℚ) (cur : OpenNode) (ch : Nat × ℚ) : OpenNode :=
  ⟨ch.1, cur.g + ch.2, cur.g + ch.2 + h ch.1, ch.1 :: cur.path⟩

/-- What the search needs of the graph: the cost listed with a child is the weight of the
edge, and every child is a node of the context. -/
structure GraphOK (children : Nat → List (Nat × ℚ)) (wt : Nat → Nat → ℚ) (n : Nat) : Prop where
  weight : ∀ u c, c ∈ children u → c.2 = wt u c.1
  bound : ∀ u c, c ∈ children u → c.1 < n

/-- The invariant of the main loop of the search; `gc` is the cost at which each closed
node was closed. -/
structure SearchInv (children : Nat → List (Nat × ℚ)) (wt : Nat → Nat → ℚ) (h : Nat → ℚ)
    (n start goal : Nat) (gc : Nat → ℚ) (openSet : List OpenNode) (closed : List Nat) :
    Prop where
  route : ∀ e ∈ openSet, IsRoute children start e.path ∧ e.path.head? = some e.node ∧
    e.g = routeCost wt e.path ∧ e.f = e.g + h e.node ∧ e.node < n ∧ e.node ∉ closed
  nodupOpen : (openSet.map OpenNode.node).Nodup
  nodupClosed : closed.Nodup
  closedLt : ∀ u ∈ closed, u < n
  goalOpen : goal ∉ closed
  startSeen : start ∈ closed ∨ ∃ e ∈ openSet, e.node = start ∧ e.g ≤ 0
  relaxed : ∀ u ∈ closed, ∀ c ∈ children u,
    c.1 ∈ closed ∨ ∃ e ∈ openSet, e.node = c.1 ∧ e.g ≤ gc u + c.2

/-- The closed nodes were closed at the least cost of a route to them. -/
def ClosedOptimal (children : Nat → List (Nat × ℚ)) (wt : Nat → Nat → ℚ) (start : Nat)
    (gc : Nat → ℚ) (closed : List Nat) : Prop :=
  ∀ u ∈ closed, ∀ q, IsRoute children start q → q.head? = some u → gc u ≤ routeCost wt q

/-- The edges of the search context `c`: `getChildren` of each node. -/
def contextChildren (distanceTo : System → System → ℚ) (c : AStarCalculator) :
    Nat → List (Nat × ℚ) :=
  fun u => getChildren distanceTo c u []

/-- The distance between two nodes of the search context `c`. -/
def contextDistance (distanceTo : System → System → ℚ) (c : AStarCalculator) :
    Nat → Nat → ℚ :=
  fun u v => distanceTo (c.nodes.getD u default) (c.nodes.getD v default)

/-- What `cylinder` keeps true of `_start` and `_end`: each is a node, at the position
`vec_from` respectively `vec_to`. -/
def EndpointsOK (c : AStarCalculator) (vec_from vec_to : Vec3) : Prop :=
  (∀ s, c.start = some s → ∃ sys, c.nodes[s]? = some sys ∧ sys.position = vec_from) ∧
    (∀ e, c.goal = some e → ∃ sys, c.nodes[e]? = some sys ∧ sys.position = vec_to)

/-- The systems of a list of nodes of the search context `c`. -/
def systemsOf (c : AStarCalculator) (p : List Nat) : List System :=
  p.filterMap (fun i => c.nodes[i]?)

/-- The contract of a path finder that `calculateRoute_route` relies on: on a search
context whose edges are the children lists, a solution is a chain of such edges that leads
from the start to the goal. -/
def FindPathSound (findPath : FindPath) : Prop :=
  ∀ (n : Nat) (children : Nat → List (Nat × ℚ)) (wt distTo : Nat → Nat → ℚ) (s e : Nat)
    (sol : List Nat), GraphOK children wt n → s < n →
    findPath n children distTo s e = some sol →
    IsRoute children s sol.reverse ∧ sol.reverse.head? = some e

/-- The system `M` of the corridor example, `k` units being its scale. -/
def sysMk (k : Nat) : System := ⟨"M", [], 3 * k, 4 * k, 0⟩

/-- The system `B` of the corridor example, `k` units being its scale. -/
def sysBk (k : Nat) : System := ⟨"B", [], 6 * k, 0, 0⟩

/-- Following the claim's words: a path from `a` to `b` through systems of the catalog
that uses only edges strictly shorter than `r`. -/
def RouteAsStated (distanceTo : System → System → ℚ) (catalog : List System) (a b : System)
    (r : ℚ) : Prop :=
  ∃ path : List System, path.head? = some a ∧ path.getLast? = some b ∧
    (∀ x ∈ path, x ∈ catalog) ∧ path.Chain' (fun x y => distanceTo x y < r)

/-- The context `c2` is the context `c1` with start and goal exchanged. -/
def Swapped (c1 c2 : AStarCalculator) : Prop :=
  c2.nodes = c1.nodes ∧ c2.start = c1.goal ∧ c2.goal = c1.start ∧ c2.jumpRange = c1.jumpRange

/-- Following the spec's words ("total distance = sum of consecutive pairwise distances"),
in exact arithmetic: the legs of a route added up without rounding, and the last system of
the route. -/
def routeLength (distanceTo : System → System → ℚ) (route : List System) :
    ℚ × Option System :=
  route.foldl (fun acc asys =>
    match acc.2 with
    | some last => (acc.1 + distanceTo asys last, some asys)
    | none => (acc.1, some asys)) (0, none)

/-- The system `B` of the rounding example of C5, at `7.6` rounded to single precision. -/
def sysB76 : System := ⟨"B", [], 15938355 / 2097152, 0, 0⟩

/-- The system `C` of the rounding example of C5, at `15.7` rounded to single precision. -/
def sysC157 : System := ⟨"C", [], 16462643 / 1048576, 0, 0⟩

/-- The system `D` of the rounding example of C5, at `23.4` rounded to single precision. -/
def sysD234 : System := ⟨"D", [], 12268339 / 524288, 0, 0⟩

/-- The distance `TSPWorker::run` assigns to the leg from stop `j` to stop `i`:
`_systems[i].distance(_systems[j])` stored in an `int64`. -/
def legDistance (distance : System → System → ℚ) (systems : List System) (i j : Nat) : Int :=
  toInt64 (distance (systems.getD i default) (systems.getD j default))

/-- Following the spec's words: the sum of the leg distances between consecutive stops of
an order whose previous stop is `prev`. -/
def legsSum (leg : Nat → Nat → Int) : Nat → List Nat → Int
  | _, [] => 0
  | prev, cur :: rest => leg cur prev + legsSum leg cur rest

/-- Following the spec's words: the length of the closed tour that visits `order` and
returns to stop `0`: the legs between consecutive stops plus the closing leg from the last
stop back to stop `0`. -/
def closedTourLength (leg : Nat → Nat → Int) (order : List Nat) : Int :=
  legsSum leg (order.headD 0) order.tail + leg 0 (order.getLastD 0)

/-- Every stop of the order that has planets has a settlement. -/
def StopsHaveSettlements (systems : List System) (order : List Nat) : Prop :=
  ∀ i ∈ order, (systems.getD i default).planets ≠ [] →
    ∃ planet ∈ (systems.getD i default).planets, planet.settlements ≠ []

/-- The number of jumps (edges) of a route: one fewer than its locations. -/
def jumpCount (route : List System) : Nat := route.length - 1

/-- The tasks `calculateDistanceMatrix` has pushed on `futures` when its dispatch loops are
done, in dispatch order: for each the value it computes and the pair it was started for. -/
def dispatched (calculateDistance : Nat → Nat → Int) (sz : Nat) : List FuturePair :=
  (dispatchAll calculateDistance sz sz (initRows sz sz (resize [] sz []), [])).2

/-! ## Theorems -/

/-! ### Single-precision arithmetic -/

theorem pow2_eq (k : ℤ) : pow2 k = (2 : ℚ) ^ k := by
  unfold pow2
  split_ifs with h
  · obtain ⟨n, rfl⟩ := Int.eq_ofNat_of_zero_le h
    simp
  · obtain ⟨n, hn⟩ := Int.eq_ofNat_of_zero_le (show 0 ≤ -k by omega)
    have hk : k = -(n : ℤ) := by omega
    subst hk
    simp

theorem log2Fuel_spec : ∀ fuel n, n ≠ 0 → n ≤ fuel →
    2 ^ log2Fuel fuel n ≤ n ∧ n < 2 ^ (log2Fuel fuel n + 1) := by
  intro fuel
  induction fuel with
  | zero => intro n h0 hle; omega
  | succ fuel ih =>
    intro n h0 hle
    unfold log2Fuel
    by_cases h2 : 2 ≤ n
    · rw [if_pos h2]
      obtain ⟨k1, k2⟩ := ih (n / 2) (by omega) (by omega)
      rw [pow_succ] at k2 ⊢
      rw [pow_succ]
      constructor
      · omega
      · omega
    · rw [if_neg h2]
      simp
      omega

theorem ilog2_spec (n : Nat) (h : n ≠ 0) : 2 ^ ilog2 n ≤ n ∧ n < 2 ^ (ilog2 n + 1) :=
  log2Fuel_spec n n h le_rfl

theorem two_zpow_pos (k : ℤ) : (0 : ℚ) < 2 ^ k := zpow_pos (by norm_num) k

theorem expo_spec (q : ℚ) (hq : 0 < q) : (2 : ℚ) ^ expo q ≤ q ∧ q < 2 ^ (expo q + 1) := by
  have hnum : 0 < q.num := Rat.num_pos.2 hq
  have hn0 : q.num.natAbs ≠ 0 := by omega
  have hd0 : q.den ≠ 0 := q.den_nz
  obtain ⟨n1, n2⟩ := ilog2_spec q.num.natAbs hn0
  obtain ⟨d1, d2⟩ := ilog2_spec q.den hd0
  have hcast : ((q.num.natAbs : ℕ) : ℚ) = (q.num : ℚ) := by
    rw [← Int.cast_natCast, Int.natAbs_of_nonneg hnum.le]
  have hqeq : q = (q.num.natAbs : ℚ) / (q.den : ℚ) := by
    rw [hcast]
    exact (Rat.num_div_den q).symm
  have hdpos : (0 : ℚ) < (q.den : ℚ) := by exact_mod_cast Nat.pos_of_ne_zero hd0
  have klow : ∀ x : ℚ, x * (q.den : ℚ) < (q.num.natAbs : ℚ) → x < q := by
    intro x hx
    rw [hqeq, lt_div_iff₀ hdpos]
    exact hx
  have khigh : ∀ x : ℚ, (q.num.natAbs : ℚ) < x * (q.den : ℚ) → q < x := by
    intro x hx
    rw [hqeq, div_lt_iff₀ hdpos]
    exact hx
  have N1 : (2 : ℚ) ^ (ilog2 q.num.natAbs : ℤ) ≤ (q.num.natAbs : ℚ) := by
    rw [zpow_natCast]; exact_mod_cast n1
  have N2 : (q.num.natAbs : ℚ) < (2 : ℚ) ^ ((ilog2 q.num.natAbs : ℤ) + 1) := by
    have : ((ilog2 q.num.natAbs : ℤ) + 1) = ((ilog2 q.num.natAbs + 1 : ℕ) : ℤ) := by
      push_cast; rfl
    rw [this, zpow_natCast]; exact_mod_cast n2
  have D1 : (2 : ℚ) ^ (ilog2 q.den : ℤ) ≤ (q.den : ℚ) := by
    rw [zpow_natCast]; exact_mod_cast d1
  have D2 : (q.den : ℚ) < (2 : ℚ) ^ ((ilog2 q.den : ℤ) + 1) := by
    have : ((ilog2 q.den : ℤ) + 1) = ((ilog2 q.den + 1 : ℕ) : ℤ) := by push_cast; rfl
    rw [this, zpow_natCast]; exact_mod_cast d2
  have hlow : (2 : ℚ) ^ ((ilog2 q.num.natAbs : ℤ) - (ilog2 q.den : ℤ) - 1) < q := by
    apply klow
    have e : (2 : ℚ) ^ ((ilog2 q.num.natAbs : ℤ) - (ilog2 q.den : ℤ) - 1) *
        2 ^ ((ilog2 q.den : ℤ) + 1) = 2 ^ (ilog2 q.num.natAbs : ℤ) := by
      rw [← zpow_add₀ (by norm_num : (2 : ℚ) ≠ 0)]
      congr 1
      ring
    calc (2 : ℚ) ^ ((ilog2 q.num.natAbs : ℤ) - (ilog2 q.den : ℤ) - 1) * (q.den : ℚ)
        < 2 ^ ((ilog2 q.num.natAbs : ℤ) - (ilog2 q.den : ℤ) - 1) *
            2 ^ ((ilog2 q.den : ℤ) + 1) := mul_lt_mul_of_pos_left D2 (two_zpow_pos _)
      _ = 2 ^ (ilog2 q.num.natAbs : ℤ) := e
      _ ≤ _ := N1
  have hhigh : q < (2 : ℚ) ^ ((ilog2 q.num.natAbs : ℤ) - (ilog2 q.den : ℤ) + 1) := by
    apply khigh
    have e : (2 : ℚ) ^ ((ilog2 q.num.natAbs : ℤ) - (ilog2 q.den : ℤ) + 1) *
        2 ^ (ilog2 q.den : ℤ) = 2 ^ ((ilog2 q.num.natAbs : ℤ) + 1) := by
      rw [← zpow_add₀ (by norm_num : (2 : ℚ) ≠ 0)]
      congr 1
      ring
    calc ((q.num.natAbs : ℕ) : ℚ) < 2 ^ ((ilog2 q.num.natAbs : ℤ) + 1) := N2
      _ = (2 : ℚ) ^ ((ilog2 q.num.natAbs : ℤ) - (ilog2 q.den : ℤ) + 1) *
            2 ^ (ilog2 q.den : ℤ) := e.symm
      _ ≤ (2 : ℚ) ^ ((ilog2 q.num.natAbs : ℤ) - (ilog2 q.den : ℤ) + 1) * (q.den : ℚ) :=
          mul_le_mul_of_nonneg_left D1 (two_zpow_pos _).le
  unfold expo
  rw [pow2_eq]
  split_ifs with h
  · exact ⟨h, hhigh⟩
  · refine ⟨hlow.le, ?_⟩
    rw [sub_add_cancel]
    exact not_le.1 h

theorem expo_unique (q : ℚ) (hq : 0 < q) (e : ℤ) (h1 : (2 : ℚ) ^ e ≤ q)
    (h2 : q < 2 ^ (e + 1)) : expo q = e := by
  obtain ⟨k1, k2⟩ := expo_spec q hq
  have a1 : (2 : ℚ) ^ e < 2 ^ (expo q + 1) := lt_of_le_of_lt h1 k2
  have a2 : (2 : ℚ) ^ expo q < 2 ^ (e + 1) := lt_of_le_of_lt k1 h2
  rw [zpow_lt_zpow_iff_right₀ (by norm_num : (1 : ℚ) < 2)] at a1 a2
  omega

theorem expo_two_mul (q : ℚ) (hq : 0 < q) : expo (2 * q) = expo q + 1 := by
  obtain ⟨k1, k2⟩ := expo_spec q hq
  apply expo_unique (2 * q) (by linarith)
  · rw [zpow_add_one₀ (by norm_num : (2 : ℚ) ≠ 0)]
    linarith
  · rw [zpow_add_one₀ (by norm_num : (2 : ℚ) ≠ 0) (expo q + 1)]
    linarith

theorem f32pos_two_mul (q : ℚ) (hq : 0 < q) : f32pos (2 * q) = 2 * f32pos q := by
  unfold f32pos
  rw [expo_two_mul q hq, pow2_eq, pow2_eq, pow2_eq, pow2_eq]
  have e1 : (2 : ℚ) * q * 2 ^ (23 - (expo q + 1)) = q * 2 ^ (23 - expo q) := by
    have : (23 : ℤ) - expo q = (23 - (expo q + 1)) + 1 := by ring
    rw [this, zpow_add_one₀ (by norm_num : (2 : ℚ) ≠ 0)]
    ring
  have e2 : (2 : ℚ) ^ (expo q + 1 - 23) = 2 * 2 ^ (expo q - 23) := by
    have : expo q + 1 - 23 = (expo q - 23) + 1 := by ring
    rw [this, zpow_add_one₀ (by norm_num : (2 : ℚ) ≠ 0)]
    ring
  rw [e1, e2]
  ring

theorem f32_zero : f32 0 = 0 := by
  unfold f32
  simp

theorem f32_neg (q : ℚ) : f32 (-q) = -f32 q := by
  unfold f32
  rcases lt_trichotomy q 0 with h | h | h
  · have h1 : 0 < -q := by linarith
    have h2 : ¬ 0 < q := by linarith
    rw [if_pos h1, if_neg h2, if_pos h, neg_neg]
  · subst h
    simp
  · have h1 : ¬ 0 < -q := by linarith
    have h2 : -q < 0 := by linarith
    rw [if_neg h1, if_pos h2, if_pos h, neg_neg]

theorem f32_two_mul (q : ℚ) : f32 (2 * q) = 2 * f32 q := by
  unfold f32
  rcases lt_trichotomy q 0 with h | h | h
  · have h1 : ¬ 0 < 2 * q := by linarith
    have h2 : 2 * q < 0 := by linarith
    have h3 : ¬ 0 < q := by linarith
    have e : -(2 * q) = 2 * -q := by ring
    rw [if_neg h1, if_pos h2, if_neg h3, if_pos h, e, f32pos_two_mul (-q) (by linarith)]
    ring
  · subst h
    simp
  · have h1 : 0 < 2 * q := by linarith
    rw [if_pos h1, if_pos h, f32pos_two_mul q h]

theorem f32_pow_mul (n : Nat) (q : ℚ) : f32 (2 ^ n * q) = 2 ^ n * f32 q := by
  induction n with
  | zero => simp
  | succ n ih =>
    have e : (2 : ℚ) ^ (n + 1) * q = 2 * (2 ^ n * q) := by ring
    rw [e, f32_two_mul, ih]
    ring

theorem roundNearestEven_bounds (y : ℚ) :
    y - 1 / 2 ≤ (roundNearestEven y : ℚ) ∧ (roundNearestEven y : ℚ) ≤ y + 1 / 2 := by
  have h1 : ((⌊y⌋ : ℤ) : ℚ) ≤ y := Int.floor_le y
  have h2 : y < ((⌊y⌋ : ℤ) : ℚ) + 1 := Int.lt_floor_add_one y
  unfold roundNearestEven
  split_ifs with a b c
  · constructor <;> linarith
  · push_cast
    constructor <;> linarith
  · constructor <;> linarith
  · push_cast
    constructor <;> linarith

theorem f32pos_bounds (q : ℚ) (hq : 0 < q) : 0 < f32pos q ∧ f32pos q ≤ 2 * q := by
  obtain ⟨k1, k2⟩ := expo_spec q hq
  obtain ⟨r1, r2⟩ := roundNearestEven_bounds (q * pow2 (23 - expo q))
  have hy : (2 : ℚ) ^ (23 : ℤ) ≤ q * pow2 (23 - expo q) := by
    rw [pow2_eq]
    have : (2 : ℚ) ^ (23 : ℤ) = 2 ^ expo q * 2 ^ (23 - expo q) := by
      rw [← zpow_add₀ (by norm_num : (2 : ℚ) ≠ 0)]
      congr 1
      ring
    rw [this]
    exact mul_le_mul_of_nonneg_right k1 (two_zpow_pos _).le
  have h23 : (1 : ℚ) ≤ 2 ^ (23 : ℤ) := by norm_num
  have hp : (0 : ℚ) < pow2 (expo q - 23) := by rw [pow2_eq]; exact two_zpow_pos _
  have hmul : q * pow2 (23 - expo q) * pow2 (expo q - 23) = q := by
    rw [pow2_eq, pow2_eq, mul_assoc, ← zpow_add₀ (by norm_num : (2 : ℚ) ≠ 0)]
    have : (23 : ℤ) - expo q + (expo q - 23) = 0 := by ring
    rw [this, zpow_zero, mul_one]
  unfold f32pos
  constructor
  · apply mul_pos _ hp
    linarith
  · calc (roundNearestEven (q * pow2 (23 - expo q)) : ℚ) * pow2 (expo q - 23)
        ≤ (2 * (q * pow2 (23 - expo q))) * pow2 (expo q - 23) :=
          mul_le_mul_of_nonneg_right (by linarith) hp.le
      _ = 2 * q := by rw [mul_assoc, hmul]

theorem f32_pos (q : ℚ) (hq : 0 < q) : 0 < f32 q := by
  unfold f32
  rw [if_pos hq]
  exact (f32pos_bounds q hq).1

theorem f32_le_two_mul (q : ℚ) (hq : 0 < q) : f32 q ≤ 2 * q := by
  unfold f32
  rw [if_pos hq]
  exact (f32pos_bounds q hq).2

theorem expo_four_mul (q : ℚ) (hq : 0 < q) : expo (4 * q) = expo q + 2 := by
  have e : (4 : ℚ) * q = 2 * (2 * q) := by ring
  rw [e, expo_two_mul (2 * q) (by linarith), expo_two_mul q hq]
  ring

theorem f32sqrt_four_mul (q : ℚ) : f32sqrt (4 * q) = 2 * f32sqrt q := by
  unfold f32sqrt
  by_cases hq : 0 < q
  · have h4 : 0 < 4 * q := by linarith
    rw [if_pos h4, if_pos hq, expo_four_mul q hq]
    have hdiv : (expo q + 2) / 2 = expo q / 2 + 1 := by omega
    rw [hdiv, pow2_eq, pow2_eq, pow2_eq, pow2_eq]
    have e1 : (4 : ℚ) * q * 2 ^ (2 * (23 - (expo q / 2 + 1))) =
        q * 2 ^ (2 * (23 - expo q / 2)) := by
      have : 2 * (23 - expo q / 2) = 2 * (23 - (expo q / 2 + 1)) + 2 := by ring
      rw [this, zpow_add₀ (by norm_num : (2 : ℚ) ≠ 0)]
      norm_num
      ring
    have e2 : (2 : ℚ) ^ (expo q / 2 + 1 - 23) = 2 * 2 ^ (expo q / 2 - 23) := by
      have : expo q / 2 + 1 - 23 = (expo q / 2 - 23) + 1 := by ring
      rw [this, zpow_add_one₀ (by norm_num : (2 : ℚ) ≠ 0)]
      ring
    rw [e1, e2]
    ring
  · have h4 : ¬ 0 < 4 * q := by linarith
    rw [if_neg h4, if_neg hq, mul_zero]

theorem f32_sq_pow_mul (n : Nat) (q : ℚ) :
    f32 (2 ^ n * 2 ^ n * q) = 2 ^ n * 2 ^ n * f32 q := by
  rw [mul_assoc, f32_pow_mul, f32_pow_mul, mul_assoc]

theorem f32sqrt_sq_pow_mul (n : Nat) (q : ℚ) :
    f32sqrt (2 ^ n * 2 ^ n * q) = 2 ^ n * f32sqrt q := by
  induction n with
  | zero => simp
  | succ n ih =>
    have e : (2 : ℚ) ^ (n + 1) * 2 ^ (n + 1) * q = 4 * (2 ^ n * 2 ^ n * q) := by ring
    rw [e, f32sqrt_four_mul, ih]
    ring

/-! ### Scaling by powers of two and exchange of the end points -/

theorem f32_pow_sub (n : Nat) (x y : ℚ) : f32 (2 ^ n * x - 2 ^ n * y) = 2 ^ n * f32 (x - y) := by
  rw [← mul_sub, f32_pow_mul]

theorem f32_pow_add (n : Nat) (x y : ℚ) : f32 (2 ^ n * x + 2 ^ n * y) = 2 ^ n * f32 (x + y) := by
  rw [← mul_add, f32_pow_mul]

theorem f32_pow_mul_mul (n : Nat) (x y : ℚ) :
    f32 (2 ^ n * x * (2 ^ n * y)) = 2 ^ (n + n) * f32 (x * y) := by
  have e : (2 : ℚ) ^ n * x * (2 ^ n * y) = 2 ^ (n + n) * (x * y) := by
    rw [pow_add]
    ring
  rw [e, f32_pow_mul]

theorem sub_scale (n : Nat) (a b : Vec3) :
    (Vec3.scale (2 ^ n) a).sub (Vec3.scale (2 ^ n) b) = Vec3.scale (2 ^ n) (a.sub b) := by
  simp only [Vec3.sub, Vec3.scale, f32_pow_sub]

theorem crossProduct_scale (n : Nat) (a b : Vec3) :
    (Vec3.scale (2 ^ n) a).crossProduct (Vec3.scale (2 ^ n) b) =
      Vec3.scale (2 ^ (n + n)) (a.crossProduct b) := by
  simp only [Vec3.crossProduct, Vec3.scale, f32_pow_mul_mul, f32_pow_sub]

theorem lengthSquared_scale (n : Nat) (a : Vec3) :
    (Vec3.scale (2 ^ n) a).lengthSquared = 2 ^ (n + n) * a.lengthSquared := by
  simp only [Vec3.lengthSquared, Vec3.scale, f32_pow_mul_mul, f32_pow_add]

theorem cylinderDist_scale (n : Nat) (p a b : Vec3) :
    cylinderDist (Vec3.scale (2 ^ n) p) (Vec3.scale (2 ^ n) a) (Vec3.scale (2 ^ n) b) =
      2 ^ (n + n) * cylinderDist p a b := by
  unfold cylinderDist
  simp only [sub_scale, crossProduct_scale, lengthSquared_scale]
  have hc : (2 : ℚ) ^ (n + n) ≠ 0 := pow_ne_zero _ (by norm_num)
  have e : (2 : ℚ) ^ (n + n + (n + n)) *
        ((p.sub a).crossProduct (p.sub b)).lengthSquared /
        (2 ^ (n + n) * (b.sub a).lengthSquared) =
      2 ^ (n + n) * (((p.sub a).crossProduct (p.sub b)).lengthSquared /
        (b.sub a).lengthSquared) := by
    rw [pow_add (2 : ℚ) (n + n) (n + n)]
    by_cases hd : (b.sub a).lengthSquared = 0
    · rw [hd]
      simp
    · field_simp
      ring
  rw [e, f32_pow_mul]

theorem f32sqrt_pow_mul (n : Nat) (q : ℚ) : f32sqrt (2 ^ (n + n) * q) = 2 ^ n * f32sqrt q := by
  rw [pow_add, f32sqrt_sq_pow_mul]

theorem sub_neg (a b : Vec3) : a.sub b = (b.sub a).neg := by
  simp only [Vec3.sub, Vec3.neg, ← f32_neg, neg_sub]

theorem lengthSquared_neg (a : Vec3) : a.neg.lengthSquared = a.lengthSquared := by
  simp only [Vec3.lengthSquared, Vec3.neg, neg_mul_neg]

theorem crossProduct_swap (a b : Vec3) : b.crossProduct a = (a.crossProduct b).neg := by
  simp only [Vec3.crossProduct, Vec3.neg, ← f32_neg, neg_sub, mul_comm]

theorem cylinderDist_swap (p a b : Vec3) : cylinderDist p b a = cylinderDist p a b := by
  unfold cylinderDist
  rw [crossProduct_swap (p.sub a) (p.sub b), lengthSquared_neg, sub_neg a b, lengthSquared_neg]

theorem euclid_symm (a b : System) : euclid a b = euclid b a := by
  unfold euclid
  rw [sub_neg a.position b.position, lengthSquared_neg]

theorem inCylinder_of_zero (p a b : Vec3) (buffer : ℚ) (hb : buffer ≠ 0)
    (hden : (b.sub a).lengthSquared ≠ 0) (hd : cylinderDist p a b = 0) :
    inCylinder p a b buffer = true := by
  unfold inCylinder
  simp only [decide_eq_true_eq]
  refine ⟨hden, ?_⟩
  rw [hd]
  exact f32_pos _ (mul_self_pos.2 hb)

/-! ### Matrix lemmas -/

theorem getD_set_list {α : Type} (l : List α) (i j : Nat) (a d : α) :
    (l.set i a).getD j d = if i = j ∧ i < l.length then a else l.getD j d := by
  simp only [List.getD_eq_getElem?_getD, List.getElem?_set]
  by_cases h : i = j
  · subst h
    by_cases h2 : i < l.length
    · simp [h2]
    · simp [h2, List.getElem?_eq_none (Nat.le_of_not_lt h2)]
  · simp [h]

theorem grid_setCell {m : List (List Int)} {sz : Nat} (h : Grid m sz) (i j : Nat) (v : Int) :
    Grid (setCell m i j v) sz := by
  obtain ⟨h1, h2⟩ := h
  refine ⟨by simp [setCell, h1], ?_⟩
  intro a ha
  unfold setCell
  rw [getD_set_list]
  split
  · rw [List.length_set]; exact h2 i (by omega)
  · exact h2 a ha

theorem getCell_setCell {m : List (List Int)} {sz : Nat} (h : Grid m sz) {i j : Nat}
    (hi : i < sz) (hj : j < sz) (v : Int) (a b : Nat) :
    getCell (setCell m i j v) a b = if a = i ∧ b = j then v else getCell m a b := by
  obtain ⟨h1, h2⟩ := h
  have hrow := h2 i hi
  unfold getCell setCell
  rw [getD_set_list]
  by_cases hai : i = a
  · subst hai
    rw [if_pos ⟨rfl, by omega⟩, getD_set_list]
    by_cases hbj : j = b
    · subst hbj
      rw [if_pos ⟨rfl, by omega⟩, if_pos ⟨rfl, rfl⟩]
    · rw [if_neg (fun h => hbj h.1), if_neg (fun h => hbj h.2.symm)]
  · rw [if_neg (fun h => hai h.1), if_neg (fun h => hai h.1.symm)]

theorem rep_setCell {m : List (List Int)} {sz : Nat} {c : Nat → Nat → Int} (h : Rep m sz c)
    {i j : Nat} (hi : i < sz) (hj : j < sz) (v : Int) :
    Rep (setCell m i j v) sz (fun a b => if a = i ∧ b = j then v else c a b) := by
  refine ⟨grid_setCell h.1 i j v, ?_⟩
  intro a b ha hb
  rw [getCell_setCell h.1 hi hj, h.2 a b ha hb]

theorem rep_congr {m : List (List Int)} {sz : Nat} {c d : Nat → Nat → Int} (h : Rep m sz c)
    (hcd : ∀ i j, i < sz → j < sz → c i j = d i j) : Rep m sz d :=
  ⟨h.1, fun i j hi hj => (h.2 i j hi hj).trans (hcd i j hi hj)⟩

theorem rowFutures_succ (cost : Nat → Nat → Int) (a t : Nat) :
    rowFutures cost a (t + 1) =
      rowFutures cost a t ++ (if a < t then [(cost a t, (a, t))] else []) := by
  unfold rowFutures
  rw [List.range_succ, List.filter_append, List.map_append]
  by_cases h : a < t <;> simp [h]

theorem dispatchBody_spec (cost : Nat → Nat → Int) {sz f t : Nat} (hf : f < sz) (ht : t < sz)
    (st : List (List Int) × List FuturePair)
    (h : Rep st.1 sz (markAt f t) ∧ st.2 = futuresAt cost sz f t) :
    Rep (dispatchBody cost f t st).1 sz (markAt f (t + 1)) ∧
      (dispatchBody cost f t st).2 = futuresAt cost sz f (t + 1) := by
  obtain ⟨hrep, hfut⟩ := h
  unfold dispatchBody
  by_cases hft : f = t
  · subst hft
    simp only [ne_eq, not_true_eq_false, if_false]
    constructor
    · refine rep_congr (rep_setCell hrep hf hf 0) ?_
      intro i j hi hj
      unfold markAt
      by_cases h1 : i = f <;> by_cases h2 : j = f <;> by_cases h3 : i = j <;>
        simp [h1, h2, h3] <;> omega
    · rw [hfut]
      simp [futuresAt, rowFutures_succ]
  · have hcell : getCell st.1 t f = markAt f t t f := hrep.2 t f ht hf
    rw [if_pos hft]
    by_cases hlt : f < t
    · have hm : markAt f t t f = -1 := by
        unfold markAt
        have h1 : ¬ t = f := fun h => hft h.symm
        simp [h1]
        omega
      rw [if_pos (hcell.trans hm)]
      constructor
      · refine rep_congr (rep_setCell (rep_setCell hrep ht hf (-2)) hf ht (-2)) ?_
        intro i j hi hj
        unfold markAt
        by_cases h1 : i = f <;> by_cases h2 : j = f <;> by_cases h3 : i = t <;>
          by_cases h4 : j = t <;> by_cases h5 : i = j <;>
          simp [h1, h2, h3, h4, h5] <;> omega
      · simp [hfut, futuresAt, rowFutures_succ, hlt]
    · have hm : markAt f t t f ≠ -1 := by
        unfold markAt
        have h1 : ¬ t = f := fun h => hft h.symm
        have h2 : t < f := by omega
        simp [h1, h2]
      rw [if_neg (by rw [hcell]; exact hm)]
      constructor
      · refine rep_congr hrep ?_
        intro i j hi hj
        have h2 : t < f := by omega
        unfold markAt
        split_ifs <;> first | rfl | omega
      · simp [hfut, futuresAt, rowFutures_succ, hlt]

theorem dispatchRow_spec (cost : Nat → Nat → Int) {sz f : Nat} (hf : f < sz)
    (st : List (List Int) × List FuturePair)
    (h : Rep st.1 sz (markAt f 0) ∧ st.2 = futuresAt cost sz f 0) (t : Nat) (ht : t ≤ sz) :
    Rep (dispatchRow cost f t st).1 sz (markAt f t) ∧
      (dispatchRow cost f t st).2 = futuresAt cost sz f t := by
  induction t with
  | zero => simpa [dispatchRow] using h
  | succ t ih =>
    have := dispatchBody_spec cost hf (show t < sz by omega) _ (ih (by omega))
    simpa [dispatchRow, List.range_succ] using this

theorem dispatchAll_spec (cost : Nat → Nat → Int) {sz : Nat}
    (st : List (List Int) × List FuturePair)
    (h : Rep st.1 sz (markAt 0 0) ∧ st.2 = futuresAt cost sz 0 0) (f : Nat) (hf : f ≤ sz) :
    Rep (dispatchAll cost sz f st).1 sz (markAt f 0) ∧
      (dispatchAll cost sz f st).2 = futuresAt cost sz f 0 := by
  induction f with
  | zero => simpa [dispatchAll] using h
  | succ f ih =>
    have hrow := dispatchRow_spec cost (show f < sz by omega) _ (ih (by omega)) sz le_rfl
    have hstep : dispatchAll cost sz (f + 1) st =
        dispatchRow cost f sz (dispatchAll cost sz f st) := by
      simp [dispatchAll, List.range_succ]
    rw [hstep]
    constructor
    · refine rep_congr hrow.1 ?_
      intro i j hi hj
      unfold markAt
      split_ifs <;> first | rfl | omega
    · rw [hrow.2]
      simp [futuresAt, rowFutures, List.range_succ]

theorem initRows_spec (sz : Nat) (m : List (List Int)) (hm : m.length = sz)
    (hrows : ∀ i, m.getD i [] = []) (k : Nat) (hk : k ≤ sz) :
    (initRows sz k m).length = sz ∧
      (∀ i, i < k → (initRows sz k m).getD i [] = List.replicate sz (-1)) ∧
      (∀ i, k ≤ i → (initRows sz k m).getD i [] = m.getD i []) := by
  induction k with
  | zero => simp [initRows, hm]
  | succ k ih =>
    obtain ⟨h1, h2, h3⟩ := ih (by omega)
    have hstep : initRows sz (k + 1) m =
        (initRows sz k m).set k (resize ((initRows sz k m).getD k []) sz (-1)) := by
      simp [initRows, List.range_succ]
    rw [hstep]
    refine ⟨by simp [h1], ?_, ?_⟩
    · intro i hi
      rw [getD_set_list]
      by_cases hik : k = i
      · subst hik
        rw [if_pos ⟨rfl, by omega⟩, h3 k le_rfl, hrows k]
        simp [resize]
      · rw [if_neg (fun h => hik h.1)]
        exact h2 i (by omega)
    · intro i hi
      rw [getD_set_list, if_neg (fun h => by omega)]
      exact h3 i (by omega)

theorem mem_allFutures (cost : Nat → Nat → Int) (sz : Nat) (p : FuturePair) :
    p ∈ allFutures cost sz ↔ p.2.1 < p.2.2 ∧ p.2.2 < sz ∧ p.1 = cost p.2.1 p.2.2 := by
  obtain ⟨r, a, b⟩ := p
  simp only [allFutures, rowFutures, List.mem_flatMap, List.mem_map, List.mem_filter,
    List.mem_range, decide_eq_true_eq, Prod.mk.injEq]
  constructor
  · rintro ⟨a', ha', b', ⟨hb', hab⟩, rfl, rfl, rfl⟩
    exact ⟨hab, hb', rfl⟩
  · rintro ⟨h1, h2, h3⟩
    exact ⟨a, by omega, b, ⟨h2, h1⟩, h3.symm, rfl, rfl⟩

theorem collect_spec (cost : Nat → Nat → Int) (sz : Nat) (futures : List FuturePair)
    (hf : ∀ p ∈ futures, p.2.1 < p.2.2 ∧ p.2.2 < sz ∧ p.1 = cost p.2.1 p.2.2)
    (m : List (List Int)) (hm : Grid m sz) :
    Grid (collect futures m) sz ∧ ∀ i j, i < sz → j < sz →
      getCell (collect futures m) i j =
        if i < j ∧ (cost i j, (i, j)) ∈ futures then cost i j
        else if j < i ∧ (cost j i, (j, i)) ∈ futures then cost j i
        else getCell m i j := by
  induction futures generalizing m with
  | nil => exact ⟨hm, by simp [collect]⟩
  | cons p rest ih =>
    obtain ⟨r, a, b⟩ := p
    obtain ⟨hab, hb, hr⟩ := hf (r, a, b) (List.mem_cons_self _ _)
    simp only at hab hb hr
    have ha : a < sz := by omega
    have hg1 : Grid (setCell m b a r) sz := grid_setCell hm b a r
    have hg2 : Grid (setCell (setCell m b a r) a b r) sz := grid_setCell hg1 a b r
    obtain ⟨ih1, ih2⟩ := ih (fun p hp => hf p (List.mem_cons_of_mem _ hp)) _ hg2
    have hstep : collect ((r, a, b) :: rest) m =
        collect rest (setCell (setCell m b a r) a b r) := rfl
    rw [hstep]
    refine ⟨ih1, ?_⟩
    intro i j hi hj
    rw [ih2 i j hi hj, getCell_setCell hg1 ha hb, getCell_setCell hm hb ha]
    subst hr
    simp only [List.mem_cons, Prod.mk.injEq]
    by_cases h1 : i = a <;> by_cases h2 : j = b <;> by_cases h3 : i = b <;>
      by_cases h4 : j = a <;> simp [h1, h2, h3, h4] <;> (try subst_vars) <;>
      (try simp [hab]) <;> (try (intros; omega))

theorem dispatch_result (cost : Nat → Nat → Int) (sz : Nat) :
    Rep (dispatchAll cost sz sz (initRows sz sz (resize [] sz []), [])).1 sz (markAt sz 0) ∧
      (dispatchAll cost sz sz (initRows sz sz (resize [] sz []), [])).2 = allFutures cost sz := by
  have hm0 : (resize ([] : List (List Int)) sz []).length = sz := by simp [resize]
  have hrows : ∀ i, (resize ([] : List (List Int)) sz []).getD i [] = [] := by
    intro i
    simp only [resize, List.take_nil, List.nil_append, List.length_nil, Nat.sub_zero,
      List.getD_eq_getElem?_getD]
    by_cases hi : i < sz
    · simp [List.getElem?_replicate, hi]
    · simp [List.getElem?_replicate, hi]
  obtain ⟨h1, h2, -⟩ := initRows_spec sz _ hm0 hrows sz le_rfl
  have hrep : Rep (initRows sz sz (resize [] sz [])) sz (markAt 0 0) := by
    refine ⟨⟨h1, fun i hi => by rw [h2 i hi]; simp⟩, ?_⟩
    intro i j hi hj
    unfold getCell
    rw [h2 i hi]
    simp [markAt, List.getD_eq_getElem?_getD, List.getElem?_replicate, hj]
  have := dispatchAll_spec cost (initRows sz sz (resize [] sz []), []) ⟨hrep, by simp [futuresAt, rowFutures]⟩ sz le_rfl
  refine ⟨this.1, ?_⟩
  rw [this.2]
  simp [futuresAt, rowFutures, allFutures]

/-- What `calculateDistanceMatrix` leaves in the matrix: a `sz × sz` grid with `0` on the
diagonal and, off the diagonal, the cost computed for the pair taken with the smaller index
first. -/
theorem calculateDistanceMatrix_cells (cost : Nat → Nat → Int) (sz : Nat) :
    Grid (calculateDistanceMatrix cost sz) sz ∧ ∀ i j, i < sz → j < sz →
      getCell (calculateDistanceMatrix cost sz) i j =
        if i = j then 0 else if i < j then cost i j else cost j i := by
  obtain ⟨hrep, hfut⟩ := dispatch_result cost sz
  have hc := collect_spec cost sz (allFutures cost sz)
    (fun p hp => (mem_allFutures cost sz p).1 hp) _ hrep.1
  have hdef : calculateDistanceMatrix cost sz =
      collect (allFutures cost sz)
        (dispatchAll cost sz sz (initRows sz sz (resize [] sz []), [])).1 := by
    simp only [calculateDistanceMatrix]
    rw [hfut]
  rw [hdef]
  refine ⟨hc.1, ?_⟩
  intro i j hi hj
  rw [hc.2 i j hi hj, hrep.2 i j hi hj]
  simp only [mem_allFutures, markAt, and_true, hi, hj, and_self]
  split_ifs <;> first | rfl | omega | simp_all

/-- C1. After `calculateDistanceMatrix` has returned, the matrix is symmetric:
`matrix[i][j] = matrix[j][i]` for all indices `i, j` of the destination list, whatever
the cost function is. -/
theorem calculateDistanceMatrix_symmetric (calculateDistance : Nat → Nat → Int) (sz i j : Nat)
    (hi : i < sz) (hj : j < sz) :
    getCell (calculateDistanceMatrix calculateDistance sz) i j =
      getCell (calculateDistanceMatrix calculateDistance sz) j i := by
  rw [(calculateDistanceMatrix_cells calculateDistance sz).2 i j hi hj,
    (calculateDistanceMatrix_cells calculateDistance sz).2 j i hj hi]
  split_ifs <;> first | rfl | omega

/-- Instance of C1: the matrix of three systems for the cost `10 * from + to`. -/
theorem calculateDistanceMatrix_symmetric_witness :
    (0 < 3 ∧ 2 < 3) ∧
      getCell (calculateDistanceMatrix (fun a b => 10 * a + b) 3) 0 2 =
        getCell (calculateDistanceMatrix (fun a b => 10 * a + b) 3) 2 0 ∧
      calculateDistanceMatrix (fun a b => 10 * a + b) 3 = [[0, 1, 2], [1, 0, 12], [2, 12, 0]] :=
  ⟨⟨by decide, by decide⟩,
    calculateDistanceMatrix_symmetric (fun a b => 10 * a + b) 3 0 2 (by decide) (by decide),
    by decide⟩

/-! ### Point-to-point routing: endpoints, neighbours, corridor -/

/-- C2. If the start name or the end name is not the name of a system of the catalog,
`calculateRoute` returns the invalid Path Result, whatever the path finder is: the result
is a value in every case (nothing is raised) and it does not depend on the search. -/
theorem calculateRoute_unknown_endpoint (distanceTo : System → System → ℚ) (buffer : ℚ)
    (findPath : FindPath) (r : AStarRouter) (begin_ end_ : String) (jumprange : ℚ)
    (h : (∀ s ∈ r.systems, s.name ≠ begin_) ∨ (∀ s ∈ r.systems, s.name ≠ end_)) :
    r.calculateRoute distanceTo buffer findPath begin_ end_ jumprange = AStarResult.invalid ∧
      (r.calculateRoute distanceTo buffer findPath begin_ end_ jumprange).valid = false := by
  have key : r.getSystemByName begin_ = none ∨ r.getSystemByName end_ = none := by
    rcases h with h | h
    · left
      simpa [AStarRouter.getSystemByName, List.find?_eq_none] using h
    · right
      simpa [AStarRouter.getSystemByName, List.find?_eq_none] using h
  have hres : r.calculateRoute distanceTo buffer findPath begin_ end_ jumprange =
      AStarResult.invalid := by
    unfold AStarRouter.calculateRoute
    rcases key with k | k
    · rw [k]
    · rw [k]
      cases r.getSystemByName begin_ <;> rfl
  rw [hres]
  exact ⟨rfl, rfl⟩

/-- Instance of C2: the name `D` is not in the catalog `A`, `B`, `C`. -/
theorem calculateRoute_unknown_endpoint_witness :
    ((∀ s ∈ (⟨[sysA, sysB, sysC]⟩ : AStarRouter).systems, s.name ≠ "D") ∨
        (∀ s ∈ (⟨[sysA, sysB, sysC]⟩ : AStarRouter).systems, s.name ≠ "C")) ∧
      AStarRouter.calculateRoute euclid 40 astar ⟨[sysA, sysB, sysC]⟩ "D" "C" 15 =
        AStarResult.invalid ∧
      (AStarRouter.calculateRoute euclid 40 astar ⟨[sysA, sysB, sysC]⟩ "D" "C" 15).valid =
        false :=
  ⟨Or.inl (by decide), calculateRoute_unknown_endpoint euclid 40 astar ⟨[sysA, sysB, sysC]⟩
    "D" "C" 15 (Or.inl (by decide))⟩

theorem mem_scanChildren (distanceTo : System → System → ℚ) (c : AStarCalculator)
    (s : System) (i : Nat) (d : ℚ) :
    (i, d) ∈ scanChildren distanceTo c s ↔
      ∃ n, c.nodes[i]? = some n ∧ d = distanceTo s n ∧ 0 < d ∧ d < c.jumpRange := by
  unfold scanChildren
  simp only [List.mem_filterMap, List.mem_range]
  constructor
  · rintro ⟨j, hj, hm⟩
    rw [List.getElem?_eq_getElem hj] at hm
    simp only at hm
    split_ifs at hm with hc
    simp only [Option.some.injEq, Prod.mk.injEq] at hm
    obtain ⟨rfl, rfl⟩ := hm
    exact ⟨c.nodes[j], List.getElem?_eq_getElem hj, rfl, hc.1, hc.2⟩
  · rintro ⟨n, hn, rfl, h1, h2⟩
    have hi : i < c.nodes.length := by
      by_contra hcon
      rw [List.getElem?_eq_none (by omega)] at hn
      cases hn
    refine ⟨i, hi, ?_⟩
    rw [hn]
    simp [h1, h2]

theorem scanChildren_nodup (distanceTo : System → System → ℚ) (c : AStarCalculator)
    (s : System) : ((scanChildren distanceTo c s).map Prod.fst).Nodup := by
  unfold scanChildren
  have hsub : List.Sublist
      (((List.range c.nodes.length).filterMap (fun i =>
        match c.nodes[i]? with
        | some system =>
          if 0 < distanceTo s system ∧ distanceTo s system < c.jumpRange
          then some (i, distanceTo s system) else none
        | none => none)).map Prod.fst) (List.range c.nodes.length) := by
    induction (List.range c.nodes.length) with
    | nil => simp
    | cons a l ih =>
      rw [List.filterMap_cons]
      cases hn : c.nodes[a]? with
      | none => simpa using ih.trans (List.sublist_cons_self a l)
      | some n =>
        simp only
        split_ifs
        · simpa using ih
        · simpa using ih.trans (List.sublist_cons_self a l)
  exact hsub.nodup (List.nodup_range _)

theorem getChildrenCalls_eq_scan (distanceTo : System → System → ℚ) (c : AStarCalculator)
    (self : Nat) (s : System) (hs : c.nodes[self]? = some s) (k : Nat) :
    getChildrenCalls distanceTo c self (k + 1) = scanChildren distanceTo c s := by
  induction k with
  | zero => simp [getChildrenCalls, getChildren, hs]
  | succ k ih =>
    rw [getChildrenCalls, ih]
    unfold getChildren
    split_ifs with h
    · rfl
    · rw [hs]
      have : scanChildren distanceTo c s = [] := by
        simpa using h
      simp [this]

/-- C6. Every call of `getChildren` on a node of a search context, the first and every
later one, returns the same list; that list holds a pair `(n, d)` exactly for the nodes `n`
of the context whose distance `d` from the node satisfies `0 < d < jumpRange`, one pair a
node; so it holds no pair for a node at distance `≥ jumpRange`, and none for the node itself
(its distance to itself being `0`). -/
theorem getChildren_every_call (distanceTo : System → System → ℚ) (c : AStarCalculator)
    (self : Nat) (s : System) (hs : c.nodes[self]? = some s) (k : Nat) :
    getChildrenCalls distanceTo c self (k + 1) = getChildrenCalls distanceTo c self 1 ∧
      (∀ i d, (i, d) ∈ getChildrenCalls distanceTo c self (k + 1) ↔
        ∃ n, c.nodes[i]? = some n ∧ d = distanceTo s n ∧ 0 < d ∧ d < c.jumpRange) ∧
      ((getChildrenCalls distanceTo c self (k + 1)).map Prod.fst).Nodup ∧
      (∀ i n d, c.nodes[i]? = some n → c.jumpRange ≤ distanceTo s n →
        (i, d) ∉ getChildrenCalls distanceTo c self (k + 1)) ∧
      (distanceTo s s = 0 → ∀ d, (self, d) ∉ getChildrenCalls distanceTo c self (k + 1)) := by
  rw [getChildrenCalls_eq_scan distanceTo c self s hs k,
    getChildrenCalls_eq_scan distanceTo c self s hs 0]
  refine ⟨rfl, fun i d => mem_scanChildren distanceTo c s i d,
    scanChildren_nodup distanceTo c s, ?_, ?_⟩
  · intro i n d hn hfar hmem
    obtain ⟨n1, hn1, hd, -, hlt⟩ := (mem_scanChildren distanceTo c s i d).1 hmem
    rw [hn] at hn1
    cases hn1
    rw [hd] at hlt
    exact absurd hlt (not_lt.2 hfar)
  · intro hself d hmem
    obtain ⟨n1, hn1, hd, hpos, -⟩ := (mem_scanChildren distanceTo c s self d).1 hmem
    rw [hs] at hn1
    cases hn1
    rw [hd, hself] at hpos
    exact lt_irrefl _ hpos

/-- Instance of C6: the node `B` of the context `A`, `B`, `C` with jump range `15`; its
third call returns what its first call returns, the neighbours `A` and `C` at distance
`10`. -/
theorem getChildren_every_call_witness :
    (⟨[sysA, sysB, sysC], some 0, some 2, 15⟩ : AStarCalculator).nodes[1]? = some sysB ∧
      getChildrenCalls euclid ⟨[sysA, sysB, sysC], some 0, some 2, 15⟩ 1 3 =
        getChildrenCalls euclid ⟨[sysA, sysB, sysC], some 0, some 2, 15⟩ 1 1 ∧
      getChildrenCalls euclid ⟨[sysA, sysB, sysC], some 0, some 2, 15⟩ 1 3 =
        [(0, 10), (2, 10)] :=
  ⟨rfl, (getChildren_every_call euclid ⟨[sysA, sysB, sysC], some 0, some 2, 15⟩ 1 sysB
    rfl 2).1, by decide!⟩

theorem cylinder_nodes (c : AStarCalculator) (stars : List System) (a b : Vec3) (buffer : ℚ) :
    (cylinder c stars a b buffer).nodes =
      c.nodes ++ stars.filter (fun s => inCylinder s.position a b buffer) := by
  induction stars generalizing c with
  | nil => simp [cylinder]
  | cons s rest ih =>
    have hstep : cylinder c (s :: rest) a b buffer =
        cylinder (cylinderStep a b buffer c s) rest a b buffer := rfl
    rw [hstep, ih]
    unfold cylinderStep
    by_cases hin : inCylinder s.position a b buffer = true
    · simp only [hin, if_true, List.filter_cons_of_pos]
      split_ifs <;> simp
    · simp [hin]

theorem popMin_eq_none {l : List OpenNode} (h : popMin l = none) : l = [] := by
  cases l with
  | nil => rfl
  | cons e rest =>
    unfold popMin at h
    cases hr : popMin rest with
    | none => rw [hr] at h; cases h
    | some p =>
      obtain ⟨m, r1⟩ := p
      rw [hr] at h
      simp only at h
      split_ifs at h

theorem popMin_some {l : List OpenNode} {m : OpenNode} {r : List OpenNode}
    (h : popMin l = some (m, r)) : l.Perm (m :: r) ∧ ∀ x ∈ l, m.f ≤ x.f := by
  induction l generalizing m r with
  | nil => cases h
  | cons e rest ih =>
    unfold popMin at h
    cases hr : popMin rest with
    | none =>
      rw [hr] at h
      simp only [Option.some.injEq, Prod.mk.injEq] at h
      obtain ⟨rfl, rfl⟩ := h
      have := popMin_eq_none hr
      subst this
      exact ⟨List.Perm.refl _, by simp⟩
    | some p =>
      obtain ⟨m1, r1⟩ := p
      rw [hr] at h
      obtain ⟨hp, hmin⟩ := ih hr
      simp only at h
      split_ifs at h with hle
      · simp only [Option.some.injEq, Prod.mk.injEq] at h
        obtain ⟨rfl, rfl⟩ := h
        refine ⟨List.Perm.refl _, ?_⟩
        intro x hx
        rcases List.mem_cons.1 hx with rfl | hx
        · exact le_refl _
        · exact le_trans hle (hmin x hx)
      · simp only [Option.some.injEq, Prod.mk.injEq] at h
        obtain ⟨rfl, rfl⟩ := h
        refine ⟨?_, ?_⟩
        · exact (List.Perm.cons e hp).trans (List.Perm.swap _ _ _)
        · intro x hx
          rcases List.mem_cons.1 hx with rfl | hx
          · exact le_of_lt (not_le.1 hle)
          · exact hmin x hx

theorem relax_mem (h : Nat → ℚ) (closed : List Nat) (cur : OpenNode) (openSet : List OpenNode)
    (ch : Nat × ℚ) (e : OpenNode) (he : e ∈ relax h closed cur openSet ch) :
    e ∈ openSet ∨ (e = childEntry h cur ch ∧ ch.1 ∉ closed) := by
  unfold relax at he
  split_ifs at he with h1 h2
  · exact Or.inl he
  · exact Or.inl he
  · rcases List.mem_cons.1 he with rfl | he
    · exact Or.inr ⟨rfl, h1⟩
    · exact Or.inl (List.mem_filter.1 he).1

theorem relax_keeps (h : Nat → ℚ) (closed : List Nat) (cur : OpenNode)
    (openSet : List OpenNode) (ch : Nat × ℚ) (e : OpenNode) (he : e ∈ openSet) :
    ∃ e1 ∈ relax h closed cur openSet ch, e1.node = e.node ∧ e1.g ≤ e.g := by
  unfold relax
  split_ifs with h1 h2
  · exact ⟨e, he, rfl, le_refl _⟩
  · exact ⟨e, he, rfl, le_refl _⟩
  · by_cases hn : e.node = ch.1
    · refine ⟨_, List.mem_cons_self _ _, hn.symm, ?_⟩
      simp only [List.any_eq_true, decide_eq_true_eq, not_exists, not_and] at h2
      have := h2 e he hn
      exact le_of_lt (not_le.1 this)
    · exact ⟨e, List.mem_cons_of_mem _ (List.mem_filter.2 ⟨he, by simpa using hn⟩), rfl,
        le_refl _⟩

theorem relax_child (h : Nat → ℚ) (closed : List Nat) (cur : OpenNode)
    (openSet : List OpenNode) (ch : Nat × ℚ) :
    ch.1 ∈ closed ∨ ∃ e1 ∈ relax h closed cur openSet ch, e1.node = ch.1 ∧ e1.g ≤ cur.g + ch.2 := by
  unfold relax
  split_ifs with h1 h2
  · exact Or.inl h1
  · right
    simp only [List.any_eq_true, decide_eq_true_eq] at h2
    obtain ⟨o, ho, hn, hg⟩ := h2
    exact ⟨o, ho, hn, hg⟩
  · right
    exact ⟨_, List.mem_cons_self _ _, rfl, le_refl _⟩

theorem relax_nodup (h : Nat → ℚ) (closed : List Nat) (cur : OpenNode)
    (openSet : List OpenNode) (ch : Nat × ℚ) (hnd : (openSet.map OpenNode.node).Nodup) :
    ((relax h closed cur openSet ch).map OpenNode.node).Nodup := by
  unfold relax
  split_ifs with h1 h2
  · exact hnd
  · exact hnd
  · rw [List.map_cons, List.nodup_cons]
    constructor
    · intro hmem
      obtain ⟨o, ho, hn⟩ := List.mem_map.1 hmem
      have := (List.mem_filter.1 ho).2
      simp only [ne_eq, decide_not, Bool.not_eq_eq_eq_not, Bool.not_true,
        decide_eq_false_iff_not] at this
      exact this hn
    · exact hnd.sublist ((List.filter_sublist _).map _)

theorem relaxAll_mem (h : Nat → ℚ) (closed : List Nat) (cur : OpenNode) (cs : List (Nat × ℚ))
    (openSet : List OpenNode) (e : OpenNode)
    (he : e ∈ cs.foldl (relax h closed cur) openSet) :
    e ∈ openSet ∨ ∃ ch ∈ cs, e = childEntry h cur ch ∧ ch.1 ∉ closed := by
  induction cs generalizing openSet with
  | nil => exact Or.inl he
  | cons c cs ih =>
    rw [List.foldl_cons] at he
    rcases ih _ he with h1 | ⟨ch, hch, h2⟩
    · rcases relax_mem h closed cur openSet c e h1 with h3 | h3
      · exact Or.inl h3
      · exact Or.inr ⟨c, List.mem_cons_self _ _, h3⟩
    · exact Or.inr ⟨ch, List.mem_cons_of_mem _ hch, h2⟩

theorem relaxAll_keeps (h : Nat → ℚ) (closed : List Nat) (cur : OpenNode)
    (cs : List (Nat × ℚ)) (openSet : List OpenNode) (e : OpenNode) (he : e ∈ openSet) :
    ∃ e1 ∈ cs.foldl (relax h closed cur) openSet, e1.node = e.node ∧ e1.g ≤ e.g := by
  induction cs generalizing openSet e with
  | nil => exact ⟨e, he, rfl, le_refl _⟩
  | cons c cs ih =>
    rw [List.foldl_cons]
    obtain ⟨e1, h1, hn1, hg1⟩ := relax_keeps h closed cur openSet c e he
    obtain ⟨e2, h2, hn2, hg2⟩ := ih _ e1 h1
    exact ⟨e2, h2, hn2.trans hn1, le_trans hg2 hg1⟩

theorem relaxAll_child (h : Nat → ℚ) (closed : List Nat) (cur : OpenNode)
    (cs : List (Nat × ℚ)) (openSet : List OpenNode) (ch : Nat × ℚ) (hch : ch ∈ cs) :
    ch.1 ∈ closed ∨
      ∃ e1 ∈ cs.foldl (relax h closed cur) openSet, e1.node = ch.1 ∧ e1.g ≤ cur.g + ch.2 := by
  induction cs generalizing openSet with
  | nil => cases hch
  | cons c cs ih =>
    rw [List.foldl_cons]
    rcases List.mem_cons.1 hch with rfl | hmem
    · rcases relax_child h closed cur openSet ch with h1 | ⟨e1, h1, hn1, hg1⟩
      · exact Or.inl h1
      · obtain ⟨e2, h2, hn2, hg2⟩ := relaxAll_keeps h closed cur cs _ e1 h1
        exact Or.inr ⟨e2, h2, hn2.trans hn1, le_trans hg2 hg1⟩
    · exact ih _ hmem

theorem relaxAll_nodup (h : Nat → ℚ) (closed : List Nat) (cur : OpenNode)
    (cs : List (Nat × ℚ)) (openSet : List OpenNode)
    (hnd : (openSet.map OpenNode.node).Nodup) :
    ((cs.foldl (relax h closed cur) openSet).map OpenNode.node).Nodup := by
  induction cs generalizing openSet with
  | nil => exact hnd
  | cons c cs ih =>
    rw [List.foldl_cons]
    exact ih _ (relax_nodup h closed cur openSet c hnd)

theorem searchInv_init (children : Nat → List (Nat × ℚ)) (wt : Nat → Nat → ℚ) (h : Nat → ℚ)
    (n start goal : Nat) (hs : start < n) :
    SearchInv children wt h n start goal (fun _ => 0) [⟨start, 0, h start, [start]⟩] [] := by
  refine ⟨?_, by simp, List.nodup_nil, by simp, by simp,
    Or.inr ⟨_, List.mem_singleton_self _, rfl, le_refl _⟩, by simp⟩
  intro e he
  simp only [List.mem_singleton] at he
  subst he
  exact ⟨rfl, rfl, rfl, by simp, hs, by simp⟩

theorem isRoute_cons_child {children : Nat → List (Nat × ℚ)} {start : Nat} {p : List Nat}
    {u v : Nat} {w : ℚ} (hp : IsRoute children start p) (hu : p.head? = some u)
    (hc : (v, w) ∈ children u) : IsRoute children start (v :: p) := by
  cases p with
  | nil => cases hu
  | cons a tl =>
    simp only [List.head?_cons, Option.some.injEq] at hu
    subst hu
    exact ⟨⟨w, hc⟩, hp⟩

theorem routeCost_cons_child (wt : Nat → Nat → ℚ) {p : List Nat} {u : Nat} (v : Nat)
    (hu : p.head? = some u) : routeCost wt (v :: p) = wt u v + routeCost wt p := by
  cases p with
  | nil => cases hu
  | cons a tl =>
    simp only [List.head?_cons, Option.some.injEq] at hu
    subst hu
    rfl

theorem searchInv_step {children : Nat → List (Nat × ℚ)} {wt : Nat → Nat → ℚ} {h : Nat → ℚ}
    {n start goal : Nat} {gc : Nat → ℚ} {openSet : List OpenNode} {closed : List Nat}
    (G : GraphOK children wt n) (inv : SearchInv children wt h n start goal gc openSet closed)
    {cur : OpenNode} {rest : List OpenNode} (hpop : popMin openSet = some (cur, rest))
    (hgoal : cur.node ≠ goal) :
    SearchInv children wt h n start goal (Function.update gc cur.node cur.g)
      ((children cur.node).foldl (relax h (cur.node :: closed) cur) rest)
      (cur.node :: closed) := by
  obtain ⟨hperm, -⟩ := popMin_some hpop
  have hcurmem : cur ∈ openSet := hperm.symm.subset (List.mem_cons_self _ _)
  have hrestsub : ∀ e ∈ rest, e ∈ openSet := fun e he =>
    hperm.symm.subset (List.mem_cons_of_mem _ he)
  have hnd : ((cur :: rest).map OpenNode.node).Nodup :=
    (hperm.map OpenNode.node).nodup_iff.1 inv.nodupOpen
  rw [List.map_cons, List.nodup_cons] at hnd
  obtain ⟨hcurnot, hrestnd⟩ := hnd
  have hne : ∀ e ∈ rest, e.node ≠ cur.node := fun e he heq =>
    hcurnot (List.mem_map.2 ⟨e, he, heq⟩)
  obtain ⟨hroute, hhead, hg, -, hlt, hnc⟩ := inv.route cur hcurmem
  have hsplit : ∀ e ∈ openSet, e = cur ∨ e ∈ rest := fun e he =>
    List.mem_cons.1 (hperm.subset he)
  refine ⟨?_, relaxAll_nodup h _ cur _ rest hrestnd, List.nodup_cons.2 ⟨hnc, inv.nodupClosed⟩,
    ?_, ?_, ?_, ?_⟩
  · intro e he
    rcases relaxAll_mem h _ cur _ rest e he with h1 | ⟨ch, hch, rfl, hcl⟩
    · obtain ⟨a1, a2, a3, a4, a5, a6⟩ := inv.route e (hrestsub e h1)
      refine ⟨a1, a2, a3, a4, a5, ?_⟩
      intro hmem
      rcases List.mem_cons.1 hmem with h2 | h2
      · exact hne e h1 h2
      · exact a6 h2
    · refine ⟨isRoute_cons_child hroute hhead (w := ch.2) hch, rfl, ?_, rfl,
        G.bound _ _ hch, hcl⟩
      show cur.g + ch.2 = routeCost wt (ch.1 :: cur.path)
      rw [routeCost_cons_child wt ch.1 hhead, ← G.weight _ _ hch, hg]
      ring
  · intro u hu
    rcases List.mem_cons.1 hu with rfl | hu
    · exact hlt
    · exact inv.closedLt u hu
  · intro hmem
    rcases List.mem_cons.1 hmem with h1 | h1
    · exact hgoal h1.symm
    · exact inv.goalOpen h1
  · rcases inv.startSeen with h1 | ⟨e, he, hn, hle⟩
    · exact Or.inl (List.mem_cons_of_mem _ h1)
    · rcases hsplit e he with rfl | h2
      · left
        rw [← hn]
        exact List.mem_cons_self _ _
      · obtain ⟨e1, h3, hn1, hg1⟩ := relaxAll_keeps h (cur.node :: closed) cur
          (children cur.node) rest e h2
        exact Or.inr ⟨e1, h3, hn1.trans hn, le_trans hg1 hle⟩
  · intro u hu c hc
    rcases List.mem_cons.1 hu with rfl | hu
    · rw [Function.update_same]
      exact relaxAll_child h (cur.node :: closed) cur (children cur.node) rest c hc
    · have hune : u ≠ cur.node := fun heq => hnc (heq ▸ hu)
      rw [Function.update_noteq hune]
      rcases inv.relaxed u hu c hc with h1 | ⟨e, he, hn, hle⟩
      · exact Or.inl (List.mem_cons_of_mem _ h1)
      · rcases hsplit e he with rfl | h2
        · left
          rw [← hn]
          exact List.mem_cons_self _ _
        · obtain ⟨e1, h3, hn1, hg1⟩ := relaxAll_keeps h (cur.node :: closed) cur
            (children cur.node) rest e h2
          exact Or.inr ⟨e1, h3, hn1.trans hn, le_trans hg1 hle⟩

/-- Soundness of the search: a solution is a chain of edges from the start to the goal. -/
theorem astarLoop_sound {children : Nat → List (Nat × ℚ)} {wt : Nat → Nat → ℚ} {h : Nat → ℚ}
    {n start goal : Nat} (G : GraphOK children wt n) (fuel : Nat) :
    ∀ (gc : Nat → ℚ) (openSet : List OpenNode) (closed : List Nat),
      SearchInv children wt h n start goal gc openSet closed →
      ∀ p, astarLoop children h goal fuel openSet closed = some p →
        IsRoute children start p.reverse ∧ p.reverse.head? = some goal := by
  induction fuel with
  | zero => intro gc openSet closed _ p hp; cases hp
  | succ fuel ih =>
    intro gc openSet closed inv p hp
    unfold astarLoop at hp
    cases hpop : popMin openSet with
    | none => rw [hpop] at hp; cases hp
    | some pr =>
      obtain ⟨cur, rest⟩ := pr
      rw [hpop] at hp
      simp only at hp
      split_ifs at hp with hg
      · simp only [Option.some.injEq] at hp
        subst hp
        obtain ⟨hperm, -⟩ := popMin_some hpop
        obtain ⟨a1, a2, -⟩ := inv.route cur (hperm.symm.subset (List.mem_cons_self _ _))
        rw [List.reverse_reverse]
        exact ⟨a1, hg ▸ a2⟩
      · exact ih _ _ _ (searchInv_step G inv hpop hg) p hp

theorem closed_of_route_of_open_nil {children : Nat → List (Nat × ℚ)} {wt : Nat → Nat → ℚ}
    {h : Nat → ℚ} {n start goal : Nat} {gc : Nat → ℚ} {closed : List Nat}
    (inv : SearchInv children wt h n start goal gc [] closed) (q : List Nat)
    (hq : IsRoute children start q) : ∀ v, q.head? = some v → v ∈ closed := by
  induction q with
  | nil => cases hq
  | cons a tl ih =>
    intro v hv
    simp only [List.head?_cons, Option.some.injEq] at hv
    subst hv
    cases tl with
    | nil =>
      have : a = start := hq
      subst this
      rcases inv.startSeen with h1 | ⟨e, he, -⟩
      · exact h1
      · cases he
    | cons u rest =>
      obtain ⟨⟨w, hw⟩, hrest⟩ := hq
      have hu := ih hrest u rfl
      rcases inv.relaxed u hu (a, w) hw with h1 | ⟨e, he, -⟩
      · exact h1
      · cases he

theorem length_le_of_nodup_of_lt {l : List Nat} {n : Nat} (hnd : l.Nodup)
    (hlt : ∀ x ∈ l, x < n) : l.length ≤ n := by
  have hsub : l ⊆ List.range n := fun x hx => List.mem_range.2 (hlt x hx)
  have := (List.subperm_of_subset hnd hsub).length_le
  simpa using this

/-- Completeness of the search: when a chain of edges leads from the start to the goal, the
search yields a solution, the fuel being enough for the nodes not closed yet. -/
theorem astarLoop_complete {children : Nat → List (Nat × ℚ)} {wt : Nat → Nat → ℚ}
    {h : Nat → ℚ} {n start goal : Nat} (G : GraphOK children wt n) (q : List Nat)
    (hq : IsRoute children start q) (hqg : q.head? = some goal) (fuel : Nat) :
    ∀ (gc : Nat → ℚ) (openSet : List OpenNode) (closed : List Nat),
      SearchInv children wt h n start goal gc openSet closed →
      n + 1 ≤ fuel + closed.length →
      ∃ p, astarLoop children h goal fuel openSet closed = some p := by
  induction fuel with
  | zero =>
    intro gc openSet closed inv hfuel
    have := length_le_of_nodup_of_lt inv.nodupClosed inv.closedLt
    omega
  | succ fuel ih =>
    intro gc openSet closed inv hfuel
    unfold astarLoop
    cases hpop : popMin openSet with
    | none =>
      have hnil := popMin_eq_none hpop
      subst hnil
      exact absurd (closed_of_route_of_open_nil inv q hq goal hqg) inv.goalOpen
    | some pr =>
      obtain ⟨cur, rest⟩ := pr
      simp only
      split_ifs with hg
      · exact ⟨_, rfl⟩
      · exact ih _ _ _ (searchInv_step G inv hpop hg) (by simp only [List.length_cons]; omega)

theorem frontier_bound {children : Nat → List (Nat × ℚ)} {wt : Nat → Nat → ℚ}
    {h : Nat → ℚ} {n start goal : Nat} {gc : Nat → ℚ} {openSet : List OpenNode}
    {closed : List Nat} (G : GraphOK children wt n)
    (hcons : ∀ u c, c ∈ children u → h u ≤ c.2 + h c.1)
    (inv : SearchInv children wt h n start goal gc openSet closed)
    (opt : ClosedOptimal children wt start gc closed) (q : List Nat)
    (hq : IsRoute children start q) :
    ∀ v, q.head? = some v → (∃ e ∈ openSet, e.f ≤ routeCost wt q + h v) ∨ v ∈ closed := by
  induction q with
  | nil => cases hq
  | cons a tl ih =>
    intro v hv
    simp only [List.head?_cons, Option.some.injEq] at hv
    subst hv
    cases tl with
    | nil =>
      have : a = start := hq
      subst this
      rcases inv.startSeen with h1 | ⟨e, he, hn, hle⟩
      · exact Or.inr h1
      · left
        refine ⟨e, he, ?_⟩
        obtain ⟨-, -, -, hf, -⟩ := inv.route e he
        rw [hf, hn]
        simp only [routeCost]
        linarith
    | cons u rest =>
      obtain ⟨⟨w, hw⟩, hrest⟩ := hq
      have hwt : w = wt u a := G.weight u (a, w) hw
      have hc := hcons u (a, w) hw
      simp only at hc
      have hcost : routeCost wt (a :: u :: rest) = wt u a + routeCost wt (u :: rest) := rfl
      rcases ih hrest u rfl with ⟨e, he, hle⟩ | hu
      · left
        refine ⟨e, he, ?_⟩
        rw [hcost]
        linarith
      · have hgu := opt u hu (u :: rest) hrest rfl
        rcases inv.relaxed u hu (a, w) hw with h1 | ⟨e, he, hn, hle⟩
        · exact Or.inr h1
        · left
          refine ⟨e, he, ?_⟩
          obtain ⟨-, -, -, hf, -⟩ := inv.route e he
          rw [hf, hn, hcost]
          simp only at hle
          linarith

theorem pop_optimal {children : Nat → List (Nat × ℚ)} {wt : Nat → Nat → ℚ}
    {h : Nat → ℚ} {n start goal : Nat} {gc : Nat → ℚ} {openSet : List OpenNode}
    {closed : List Nat} (G : GraphOK children wt n)
    (hcons : ∀ u c, c ∈ children u → h u ≤ c.2 + h c.1)
    (inv : SearchInv children wt h n start goal gc openSet closed)
    (opt : ClosedOptimal children wt start gc closed)
    {cur : OpenNode} {rest : List OpenNode} (hpop : popMin openSet = some (cur, rest))
    (q : List Nat) (hq : IsRoute children start q) (hqh : q.head? = some cur.node) :
    cur.g ≤ routeCost wt q := by
  obtain ⟨hperm, hmin⟩ := popMin_some hpop
  have hcurmem : cur ∈ openSet := hperm.symm.subset (List.mem_cons_self _ _)
  obtain ⟨-, -, -, hf, -, hnc⟩ := inv.route cur hcurmem
  rcases frontier_bound G hcons inv opt q hq cur.node hqh with ⟨e, he, hle⟩ | hcl
  · have := hmin e he
    rw [hf] at this
    linarith
  · exact absurd hcl hnc

theorem closedOptimal_step {children : Nat → List (Nat × ℚ)} {wt : Nat → Nat → ℚ}
    {h : Nat → ℚ} {n start goal : Nat} {gc : Nat → ℚ} {openSet : List OpenNode}
    {closed : List Nat} (G : GraphOK children wt n)
    (hcons : ∀ u c, c ∈ children u → h u ≤ c.2 + h c.1)
    (inv : SearchInv children wt h n start goal gc openSet closed)
    (opt : ClosedOptimal children wt start gc closed)
    {cur : OpenNode} {rest : List OpenNode} (hpop : popMin openSet = some (cur, rest)) :
    ClosedOptimal children wt start (Function.update gc cur.node cur.g)
      (cur.node :: closed) := by
  obtain ⟨hperm, -⟩ := popMin_some hpop
  obtain ⟨-, -, -, -, -, hnc⟩ := inv.route cur (hperm.symm.subset (List.mem_cons_self _ _))
  intro u hu q hq hqh
  rcases List.mem_cons.1 hu with rfl | hu
  · rw [Function.update_same]
    exact pop_optimal G hcons inv opt hpop q hq hqh
  · have hune : u ≠ cur.node := fun heq => hnc (heq ▸ hu)
    rw [Function.update_noteq hune]
    exact opt u hu q hq hqh

/-- Optimality of the search under a consistent heuristic: no chain of edges from the start
to the goal costs less than the solution. -/
theorem astarLoop_optimal {children : Nat → List (Nat × ℚ)} {wt : Nat → Nat → ℚ}
    {h : Nat → ℚ} {n start goal : Nat} (G : GraphOK children wt n)
    (hcons : ∀ u c, c ∈ children u → h u ≤ c.2 + h c.1) (fuel : Nat) :
    ∀ (gc : Nat → ℚ) (openSet : List OpenNode) (closed : List Nat),
      SearchInv children wt h n start goal gc openSet closed →
      ClosedOptimal children wt start gc closed →
      ∀ p, astarLoop children h goal fuel openSet closed = some p →
        ∀ q, IsRoute children start q → q.head? = some goal →
          routeCost wt p.reverse ≤ routeCost wt q := by
  induction fuel with
  | zero => intro gc openSet closed _ _ p hp; cases hp
  | succ fuel ih =>
    intro gc openSet closed inv opt p hp q hq hqh
    unfold astarLoop at hp
    cases hpop : popMin openSet with
    | none => rw [hpop] at hp; cases hp
    | some pr =>
      obtain ⟨cur, rest⟩ := pr
      rw [hpop] at hp
      simp only at hp
      split_ifs at hp with hg
      · simp only [Option.some.injEq] at hp
        subst hp
        obtain ⟨hperm, -⟩ := popMin_some hpop
        obtain ⟨-, -, a3, -⟩ := inv.route cur (hperm.symm.subset (List.mem_cons_self _ _))
        rw [List.reverse_reverse, ← a3]
        exact pop_optimal G hcons inv opt hpop q hq (hg ▸ hqh)
      · exact ih _ _ _ (searchInv_step G inv hpop hg)
          (closedOptimal_step G hcons inv opt hpop) p hp q hq hqh

/-! ### The search context built by `cylinder` -/

theorem getD_of_getElem_some {l : List System} {i : Nat} {s : System} (h : l[i]? = some s) :
    l.getD i default = s := by
  simp [List.getD_eq_getElem?_getD, h]

theorem mem_contextChildren (distanceTo : System → System → ℚ) (c : AStarCalculator)
    (u v : Nat) (w : ℚ) :
    (v, w) ∈ contextChildren distanceTo c u ↔
      ∃ s nd, c.nodes[u]? = some s ∧ c.nodes[v]? = some nd ∧ w = distanceTo s nd ∧
        0 < w ∧ w < c.jumpRange := by
  unfold contextChildren getChildren
  simp only [List.length_nil, ne_eq, not_true_eq_false, if_false, List.nil_append]
  cases hs : c.nodes[u]? with
  | none => simp
  | some s =>
    simp only [mem_scanChildren]
    constructor
    · rintro ⟨nd, h1, h2, h3, h4⟩
      exact ⟨s, nd, rfl, h1, h2, h3, h4⟩
    · rintro ⟨s1, nd, h0, h1, h2, h3, h4⟩
      cases h0
      exact ⟨nd, h1, h2, h3, h4⟩

theorem contextGraphOK (distanceTo : System → System → ℚ) (c : AStarCalculator) :
    GraphOK (contextChildren distanceTo c) (contextDistance distanceTo c) c.nodes.length := by
  constructor
  · intro u ch hc
    obtain ⟨v, w⟩ := ch
    obtain ⟨s, nd, h1, h2, h3, -⟩ := (mem_contextChildren distanceTo c u v w).1 hc
    simp only [contextDistance, getD_of_getElem_some h1, getD_of_getElem_some h2]
    exact h3
  · intro u ch hc
    obtain ⟨v, w⟩ := ch
    obtain ⟨s, nd, -, h2, -⟩ := (mem_contextChildren distanceTo c u v w).1 hc
    by_contra hcon
    rw [List.getElem?_eq_none (by omega)] at h2
    cases h2

theorem getElem_append_singleton_of_some {l : List System} {i : Nat} {s x : System}
    (h : l[i]? = some s) : (l ++ [x])[i]? = some s := by
  have hi : i < l.length := by
    by_contra hcon
    rw [List.getElem?_eq_none (by omega)] at h
    cases h
  rw [List.getElem?_append_left hi]
  exact h

theorem endpointsOK_step (vec_from vec_to : Vec3) (buffer : ℚ) (c : AStarCalculator)
    (s : System) (h : EndpointsOK c vec_from vec_to) :
    EndpointsOK (cylinderStep vec_from vec_to buffer c s) vec_from vec_to := by
  obtain ⟨h1, h2⟩ := h
  unfold cylinderStep
  by_cases hin : inCylinder s.position vec_from vec_to buffer = true
  · rw [if_pos hin]
    simp only
    have hnew : (c.nodes ++ [s])[c.nodes.length]? = some s := by simp
    by_cases hf : s.position = vec_from
    · rw [if_pos hf]
      constructor
      · intro i hi
        simp only [Option.some.injEq] at hi
        subst hi
        exact ⟨s, hnew, hf⟩
      · intro i hi
        obtain ⟨sys, k1, k2⟩ := h2 i hi
        exact ⟨sys, getElem_append_singleton_of_some k1, k2⟩
    · rw [if_neg hf]
      by_cases ht : s.position = vec_to
      · rw [if_pos ht]
        constructor
        · intro i hi
          obtain ⟨sys, k1, k2⟩ := h1 i hi
          exact ⟨sys, getElem_append_singleton_of_some k1, k2⟩
        · intro i hi
          simp only [Option.some.injEq] at hi
          subst hi
          exact ⟨s, hnew, ht⟩
      · rw [if_neg ht]
        constructor
        · intro i hi
          obtain ⟨sys, k1, k2⟩ := h1 i hi
          exact ⟨sys, getElem_append_singleton_of_some k1, k2⟩
        · intro i hi
          obtain ⟨sys, k1, k2⟩ := h2 i hi
          exact ⟨sys, getElem_append_singleton_of_some k1, k2⟩
  · rw [if_neg hin]
    exact ⟨h1, h2⟩

theorem endpointsOK_cylinder (vec_from vec_to : Vec3) (buffer : ℚ) (stars : List System)
    (c : AStarCalculator) (h : EndpointsOK c vec_from vec_to) :
    EndpointsOK (cylinder c stars vec_from vec_to buffer) vec_from vec_to := by
  induction stars generalizing c with
  | nil => exact h
  | cons s rest ih => exact ih _ (endpointsOK_step vec_from vec_to buffer c s h)

theorem cylinder_jumpRange (vec_from vec_to : Vec3) (buffer : ℚ) (stars : List System)
    (c : AStarCalculator) : (cylinder c stars vec_from vec_to buffer).jumpRange = c.jumpRange := by
  induction stars generalizing c with
  | nil => rfl
  | cons s rest ih =>
    have hstep : cylinder c (s :: rest) vec_from vec_to buffer =
        cylinder (cylinderStep vec_from vec_to buffer c s) rest vec_from vec_to buffer := rfl
    rw [hstep, ih]
    unfold cylinderStep
    split_ifs <;> rfl

theorem endpointsOK_create (buffer : ℚ) (systems : List System) (a b : System) (r : ℚ) :
    EndpointsOK (AStarCalculator.create buffer systems a b r) a.position b.position :=
  endpointsOK_cylinder _ _ _ _ _ ⟨fun s hs => (by cases hs), fun e he => (by cases he)⟩

theorem systemsOf_reverse_cons (c : AStarCalculator) (a : Nat) (tl : List Nat) (sa : System)
    (ha : c.nodes[a]? = some sa) :
    systemsOf c (a :: tl).reverse = systemsOf c tl.reverse ++ [sa] := by
  simp [systemsOf, List.filterMap_append, ha]

theorem route_systems (distanceTo : System → System → ℚ) (c : AStarCalculator) (s : Nat)
    (ss : System) (hs : c.nodes[s]? = some ss) (q : List Nat)
    (hq : IsRoute (contextChildren distanceTo c) s q) :
    ∀ v, q.head? = some v → ∃ sv, c.nodes[v]? = some sv ∧
      (systemsOf c q.reverse).head? = some ss ∧
      (systemsOf c q.reverse).getLast? = some sv ∧
      (systemsOf c q.reverse).Chain'
        (fun x y => 0 < distanceTo x y ∧ distanceTo x y < c.jumpRange) ∧
      ∀ x ∈ systemsOf c q.reverse, x ∈ c.nodes := by
  induction q with
  | nil => cases hq
  | cons a tl ih =>
    intro v hv
    simp only [List.head?_cons, Option.some.injEq] at hv
    subst hv
    cases tl with
    | nil =>
      have : a = s := hq
      subst this
      refine ⟨ss, hs, ?_⟩
      have hL : systemsOf c [a].reverse = [ss] := by simp [systemsOf, hs]
      rw [hL]
      refine ⟨rfl, rfl, List.chain'_singleton _, ?_⟩
      intro x hx
      simp only [List.mem_singleton] at hx
      subst hx
      exact List.getElem?_mem hs
    | cons u rest =>
      obtain ⟨⟨w, hw⟩, hrest⟩ := hq
      obtain ⟨su, sa, h1, h2, h3, h4, h5⟩ := (mem_contextChildren distanceTo c u a w).1 hw
      obtain ⟨su1, k1, k2, k3, k4, k5⟩ := ih hrest u rfl
      rw [h1] at k1
      cases k1
      refine ⟨sa, h2, ?_⟩
      rw [systemsOf_reverse_cons c a (u :: rest) sa h2]
      have hne : systemsOf c (u :: rest).reverse ≠ [] := by
        intro hnil
        rw [hnil] at k2
        cases k2
      refine ⟨?_, by simp, ?_, ?_⟩
      · rw [List.head?_append_of_ne_nil _ hne]
        exact k2
      · rw [List.chain'_append]
        refine ⟨k4, List.chain'_singleton _, ?_⟩
        intro x hx y hy
        rw [k3] at hx
        simp only [Option.mem_def, Option.some.injEq, List.head?_cons] at hx hy
        subst hx hy
        rw [← h3]
        exact ⟨h4, h5⟩
      · intro x hx
        rcases List.mem_append.1 hx with h | h
        · exact k5 x h
        · simp only [List.mem_singleton] at h
          subst h
          exact List.getElem?_mem h2

theorem astar_eq (n : Nat) (children : Nat → List (Nat × ℚ)) (distTo : Nat → Nat → ℚ)
    (s e : Nat) :
    astar n children distTo s e =
      astarLoop children (fun v => distTo v e) e (n + 1) [⟨s, 0, distTo s e, [s]⟩] [] := rfl

theorem solve_eq (distanceTo : System → System → ℚ) (c : AStarCalculator) (s e : Nat)
    (hs : c.start = some s) (he : c.goal = some e) :
    c.solve distanceTo astar =
      match astar c.nodes.length (contextChildren distanceTo c)
          (contextDistance distanceTo c) s e with
      | some solution => AStarResult.ofSolution distanceTo (systemsOf c solution)
      | none => AStarResult.invalid := by
  unfold AStarCalculator.solve
  rw [hs, he]
  rfl

theorem solve_invalid_of_no_endpoint (distanceTo : System → System → ℚ)
    (c : AStarCalculator) (h : c.start = none ∨ c.goal = none) :
    c.solve distanceTo astar = AStarResult.invalid := by
  unfold AStarCalculator.solve
  rcases h with h | h
  · rw [h]
  · rw [h]
    cases c.start <;> rfl

theorem calculateRoute_eq (distanceTo : System → System → ℚ) (buffer : ℚ) (r : AStarRouter)
    (begin_ end_ : String) (jumprange : ℚ) (a b : System)
    (ha : r.getSystemByName begin_ = some a) (hb : r.getSystemByName end_ = some b) :
    r.calculateRoute distanceTo buffer astar begin_ end_ jumprange =
      (AStarCalculator.create buffer r.systems a b jumprange).solve distanceTo astar := by
  unfold AStarRouter.calculateRoute
  rw [ha, hb]

theorem create_nodes_subset (buffer : ℚ) (systems : List System) (a b : System) (r : ℚ) :
    ∀ x ∈ (AStarCalculator.create buffer systems a b r).nodes, x ∈ systems := by
  intro x hx
  unfold AStarCalculator.create at hx
  rw [cylinder_nodes] at hx
  simp only [List.nil_append] at hx
  exact (List.mem_filter.1 hx).1

theorem astar_sound : FindPathSound astar := by
  intro n children wt distTo s e sol G hlt hsol
  rw [astar_eq] at hsol
  exact astarLoop_sound G _ _ _ _ (searchInv_init _ _ _ _ s e hlt) sol hsol

theorem solve_eq_of (distanceTo : System → System → ℚ) (findPath : FindPath)
    (c : AStarCalculator) (s e : Nat) (hs : c.start = some s) (he : c.goal = some e) :
    c.solve distanceTo findPath =
      match findPath c.nodes.length (contextChildren distanceTo c)
          (contextDistance distanceTo c) s e with
      | some solution => AStarResult.ofSolution distanceTo (systemsOf c solution)
      | none => AStarResult.invalid := by
  unfold AStarCalculator.solve
  rw [hs, he]
  rfl

theorem solve_invalid_of_no_endpoint_of (distanceTo : System → System → ℚ)
    (findPath : FindPath) (c : AStarCalculator) (h : c.start = none ∨ c.goal = none) :
    c.solve distanceTo findPath = AStarResult.invalid := by
  unfold AStarCalculator.solve
  rcases h with h | h
  · rw [h]
  · rw [h]
    cases c.start <;> rfl

theorem calculateRoute_eq_of (distanceTo : System → System → ℚ) (buffer : ℚ)
    (findPath : FindPath) (r : AStarRouter) (begin_ end_ : String) (jumprange : ℚ)
    (a b : System) (ha : r.getSystemByName begin_ = some a)
    (hb : r.getSystemByName end_ = some b) :
    r.calculateRoute distanceTo buffer findPath begin_ end_ jumprange =
      (AStarCalculator.create buffer r.systems a b jumprange).solve distanceTo findPath := by
  unfold AStarRouter.calculateRoute
  rw [ha, hb]

/-- A valid result of `solve`, the path finder being sound: its route is the list of the
systems of a chain of edges from the start node to the goal node. -/
theorem solve_valid_of (distanceTo : System → System → ℚ) (findPath : FindPath)
    (hsound : FindPathSound findPath) (c : AStarCalculator)
    (hv : (c.solve distanceTo findPath).valid = true) :
    ∃ s e sol, c.start = some s ∧ c.goal = some e ∧
      (c.nodes[s]? = none ∨
        ((c.solve distanceTo findPath).route = systemsOf c sol ∧
          IsRoute (contextChildren distanceTo c) s sol.reverse ∧
          sol.reverse.head? = some e)) := by
  cases hs : c.start with
  | none =>
    rw [solve_invalid_of_no_endpoint_of distanceTo findPath c (Or.inl hs)] at hv
    cases hv
  | some s =>
    cases he : c.goal with
    | none =>
      rw [solve_invalid_of_no_endpoint_of distanceTo findPath c (Or.inr he)] at hv
      cases hv
    | some e =>
      rw [solve_eq_of distanceTo findPath c s e hs he] at hv ⊢
      cases hsol : findPath c.nodes.length (contextChildren distanceTo c)
          (contextDistance distanceTo c) s e with
      | none =>
        rw [hsol] at hv
        cases hv
      | some sol =>
        refine ⟨s, e, sol, rfl, rfl, ?_⟩
        by_cases hlt : s < c.nodes.length
        · right
          exact ⟨rfl, hsound _ _ _ _ s e sol (contextGraphOK distanceTo c) hlt hsol⟩
        · left
          exact List.getElem?_eq_none (by omega)

/-- C3, as the code has it. For a path finder whose solutions are chains of child links
from the start node to the goal node: whenever `calculateRoute` returns a valid Path Result
for two names found in the catalog, the returned route is a chain of jumps of systems of
the catalog that starts at a system at the coordinates of the start system and ends at a
system at the coordinates of the end system, every consecutive pair being more than `0`
and strictly less than the jump range apart; the route starts at the start system itself
when no other system of the catalog has its coordinates, and likewise for the end. -/
theorem calculateRoute_route (distanceTo : System → System → ℚ) (buffer : ℚ)
    (findPath : FindPath) (hsound : FindPathSound findPath)
    (r : AStarRouter) (begin_ end_ : String) (jumprange : ℚ) (a b : System)
    (ha : r.getSystemByName begin_ = some a) (hb : r.getSystemByName end_ = some b)
    (hv : (r.calculateRoute distanceTo buffer findPath begin_ end_ jumprange).valid = true) :
    ∃ first last,
      (r.calculateRoute distanceTo buffer findPath begin_ end_ jumprange).route.head? =
        some first ∧
      (r.calculateRoute distanceTo buffer findPath begin_ end_ jumprange).route.getLast? =
        some last ∧
      first.position = a.position ∧ last.position = b.position ∧
      (r.calculateRoute distanceTo buffer findPath begin_ end_ jumprange).route.Chain'
        (fun x y => 0 < distanceTo x y ∧ distanceTo x y < jumprange) ∧
      (∀ x ∈ (r.calculateRoute distanceTo buffer findPath begin_ end_ jumprange).route,
        x ∈ r.systems) ∧
      ((∀ s ∈ r.systems, s.position = a.position → s = a) → first = a) ∧
      ((∀ s ∈ r.systems, s.position = b.position → s = b) → last = b) := by
  rw [calculateRoute_eq_of distanceTo buffer findPath r begin_ end_ jumprange a b ha hb]
    at hv ⊢
  have hend := endpointsOK_create buffer r.systems a b jumprange
  have hjr : (AStarCalculator.create buffer r.systems a b jumprange).jumpRange = jumprange :=
    cylinder_jumpRange _ _ _ _ _
  have hsub := create_nodes_subset buffer r.systems a b jumprange
  generalize AStarCalculator.create buffer r.systems a b jumprange = c at hv hend hjr hsub ⊢
  obtain ⟨s, e, sol, hs, he, hcase⟩ := solve_valid_of distanceTo findPath hsound c hv
  obtain ⟨ss, hss, hpos⟩ := hend.1 s hs
  obtain ⟨se, hse, hpose⟩ := hend.2 e he
  rcases hcase with hnone | ⟨hres, hroute, hhead⟩
  · rw [hss] at hnone
    cases hnone
  · obtain ⟨sv, k1, k2, k3, k4, k5⟩ :=
      route_systems distanceTo c s ss hss sol.reverse hroute e hhead
    rw [hse] at k1
    cases k1
    rw [List.reverse_reverse] at k2 k3 k4 k5
    rw [hres]
    rw [hjr] at k4
    refine ⟨ss, se, k2, k3, hpos, hpose, k4, fun x hx => hsub x (k5 x hx), ?_, ?_⟩
    · intro huniq
      exact huniq ss (hsub ss (List.getElem?_mem hss)) hpos
    · intro huniq
      exact huniq se (hsub se (List.getElem?_mem hse)) hpose

theorem create_twin (buffer : ℚ) (hb : buffer ≠ 0) :
    AStarCalculator.create buffer [sysA, sysA2, sysB] sysA sysB 15 =
      ⟨[sysA, sysA2, sysB], some 1, some 2, 15⟩ := by
  have h0 : inCylinder ⟨0, 0, 0⟩ ⟨0, 0, 0⟩ ⟨10, 0, 0⟩ buffer = true :=
    inCylinder_of_zero _ _ _ buffer hb (by decide!) (by decide!)
  have h10 : inCylinder ⟨10, 0, 0⟩ ⟨0, 0, 0⟩ ⟨10, 0, 0⟩ buffer = true :=
    inCylinder_of_zero _ _ _ buffer hb (by decide!) (by decide!)
  simp only [AStarCalculator.create, cylinder, List.foldl_cons, List.foldl_nil, cylinderStep,
    sysA, sysA2, sysB, System.position, h0, h10]
  simp

/-- C3 fails as stated: with the catalog `A (0,0,0)`, `A2 (0,0,0)`, `B (10,0,0)` and jump
range `15`, the route from `A` to `B` starts at `A2`, not at `A`: for every non-zero buffer
the search modelled from the spec yields the valid route `[A2, B]`, and every valid route
of a sound path finder starts at `A2`. -/
theorem calculateRoute_route_counterexample :
    AStarRouter.getSystemByName ⟨[sysA, sysA2, sysB]⟩ "A" = some sysA ∧
      (∀ buffer : ℚ, buffer ≠ 0 →
        AStarRouter.calculateRoute euclid buffer astar ⟨[sysA, sysA2, sysB]⟩ "A" "B" 15 =
          ⟨true, [sysA2, sysB], 10⟩) ∧
      (∀ findPath : FindPath, FindPathSound findPath → ∀ buffer : ℚ, buffer ≠ 0 →
        (AStarRouter.calculateRoute euclid buffer findPath ⟨[sysA, sysA2, sysB]⟩ "A" "B"
          15).valid = true →
        (AStarRouter.calculateRoute euclid buffer findPath ⟨[sysA, sysA2, sysB]⟩ "A" "B"
          15).route.head? = some sysA2) ∧
      some sysA2 ≠ some sysA := by
  refine ⟨by decide, ?_, ?_, by decide!⟩
  · intro buffer hb
    rw [calculateRoute_eq_of euclid buffer astar ⟨[sysA, sysA2, sysB]⟩ "A" "B" 15 sysA sysB
      (by decide) (by decide)]
    show (AStarCalculator.create buffer [sysA, sysA2, sysB] sysA sysB 15).solve euclid astar = _
    rw [create_twin buffer hb]
    decide!
  · intro findPath hsound buffer hb
    rw [calculateRoute_eq_of euclid buffer findPath ⟨[sysA, sysA2, sysB]⟩ "A" "B" 15 sysA sysB
      (by decide) (by decide)]
    show ((AStarCalculator.create buffer [sysA, sysA2, sysB] sysA sysB 15).solve euclid
      findPath).valid = true → _
    rw [create_twin buffer hb]
    intro hv
    obtain ⟨s, e, sol, hs, he, hcase⟩ := solve_valid_of euclid findPath hsound _ hv
    simp only [Option.some.injEq] at hs he
    subst hs he
    rcases hcase with hnone | ⟨hres, hroute, hhead⟩
    · cases hnone
    · obtain ⟨sv, -, k2, -⟩ := route_systems euclid ⟨[sysA, sysA2, sysB], some 1, some 2, 15⟩ 1 sysA2 rfl
        sol.reverse hroute 2 hhead
      rw [List.reverse_reverse] at k2
      rw [hres]
      exact k2

/-- Instance of C3 as amended on the first worked example of the spec, with the search
modelled from the spec. -/
theorem calculateRoute_route_witness :
    FindPathSound astar ∧
      AStarRouter.getSystemByName ⟨[sysA, sysB, sysC]⟩ "A" = some sysA ∧
      AStarRouter.getSystemByName ⟨[sysA, sysB, sysC]⟩ "C" = some sysC ∧
      (AStarRouter.calculateRoute euclid 40 astar ⟨[sysA, sysB, sysC]⟩ "A" "C" 15).valid =
        true ∧
      (AStarRouter.calculateRoute euclid 40 astar ⟨[sysA, sysB, sysC]⟩ "A" "C" 15).route.Chain'
        (fun x y => 0 < euclid x y ∧ euclid x y < 15) ∧
      (AStarRouter.calculateRoute euclid 40 astar ⟨[sysA, sysB, sysC]⟩ "A" "C" 15).route =
        [sysA, sysB, sysC] := by
  have ha : AStarRouter.getSystemByName ⟨[sysA, sysB, sysC]⟩ "A" = some sysA := by decide
  have hc : AStarRouter.getSystemByName ⟨[sysA, sysB, sysC]⟩ "C" = some sysC := by decide
  have hv : (AStarRouter.calculateRoute euclid 40 astar ⟨[sysA, sysB, sysC]⟩ "A" "C"
      15).valid = true := by decide!
  obtain ⟨first, last, -, -, -, -, h5, -⟩ :=
    calculateRoute_route euclid 40 astar astar_sound ⟨[sysA, sysB, sysC]⟩ "A" "C" 15 sysA sysC
      ha hc hv
  exact ⟨astar_sound, ha, hc, hv, h5, by decide!⟩

theorem isRoute_iff (children : Nat → List (Nat × ℚ)) (start : Nat) (q : List Nat) :
    IsRoute children start q ↔
      q.getLast? = some start ∧ q.Chain' (fun v u => ∃ w, (v, w) ∈ children u) := by
  induction q with
  | nil => simp [IsRoute]
  | cons v tl ih =>
    cases tl with
    | nil => simp [IsRoute]
    | cons u rest =>
      have h1 : IsRoute children start (v :: u :: rest) ↔
          (∃ w, (v, w) ∈ children u) ∧ IsRoute children start (u :: rest) := Iff.rfl
      rw [h1, ih, List.chain'_cons, List.getLast?_cons_cons]
      tauto

theorem isRoute_of_chain (children : Nat → List (Nat × ℚ)) (s e : Nat) (p : List Nat)
    (h1 : p.head? = some s) (h2 : p.getLast? = some e)
    (h3 : p.Chain' (fun u v => ∃ w, (v, w) ∈ children u)) :
    IsRoute children s p.reverse ∧ p.reverse.head? = some e := by
  rw [isRoute_iff, List.getLast?_reverse, List.head?_reverse, List.chain'_reverse]
  exact ⟨⟨h1, h3⟩, h2⟩

theorem solve_complete (distanceTo : System → System → ℚ) (c : AStarCalculator) (s e : Nat)
    (hs : c.start = some s) (he : c.goal = some e) (hlt : s < c.nodes.length) (q : List Nat)
    (hq : IsRoute (contextChildren distanceTo c) s q) (hqe : q.head? = some e) :
    (c.solve distanceTo astar).valid = true := by
  rw [solve_eq distanceTo c s e hs he, astar_eq]
  obtain ⟨p, hp⟩ := astarLoop_complete (contextGraphOK distanceTo c) q hq hqe
    (c.nodes.length + 1) _ _ _
    (searchInv_init _ _ (fun v => contextDistance distanceTo c v e) _ s e hlt)
    (by simp)
  rw [hp]
  rfl

theorem create_line (buffer : ℚ) (hb : buffer ≠ 0) :
    AStarCalculator.create buffer [sysA, sysB, sysC] sysA sysC 15 =
      ⟨[sysA, sysB, sysC], some 0, some 2, 15⟩ := by
  have h0 : inCylinder ⟨0, 0, 0⟩ ⟨0, 0, 0⟩ ⟨20, 0, 0⟩ buffer = true :=
    inCylinder_of_zero _ _ _ buffer hb (by decide!) (by decide!)
  have h10 : inCylinder ⟨10, 0, 0⟩ ⟨0, 0, 0⟩ ⟨20, 0, 0⟩ buffer = true :=
    inCylinder_of_zero _ _ _ buffer hb (by decide!) (by decide!)
  have h20 : inCylinder ⟨20, 0, 0⟩ ⟨0, 0, 0⟩ ⟨20, 0, 0⟩ buffer = true :=
    inCylinder_of_zero _ _ _ buffer hb (by decide!) (by decide!)
  simp only [AStarCalculator.create, cylinder, List.foldl_cons, List.foldl_nil, cylinderStep,
    sysA, sysB, sysC, System.position, h0, h10, h20]
  simp

/-- C4, as the code has it. For two names found in the catalog: if the nodes admitted by
the corridor culler contain a chain of jumps from the start node to the end node, each jump
more than `0` and strictly less than the jump range long, then `calculateRoute` returns a
valid Path Result. In particular, for `A (0,0,0)`, `B (10,0,0)`, `C (20,0,0)` and every
non-zero buffer, the route from `A` to `C` with range `15` is `[A, B, C]`, of distance
`20`. -/
theorem calculateRoute_finds_route (distanceTo : System → System → ℚ) (buffer : ℚ)
    (r : AStarRouter) (begin_ end_ : String) (jumprange : ℚ) (a b : System)
    (ha : r.getSystemByName begin_ = some a) (hb : r.getSystemByName end_ = some b)
    (s e : Nat) (p : List Nat)
    (hs : (AStarCalculator.create buffer r.systems a b jumprange).start = some s)
    (he : (AStarCalculator.create buffer r.systems a b jumprange).goal = some e)
    (hp1 : p.head? = some s) (hp2 : p.getLast? = some e)
    (hp3 : p.Chain' (fun u v => ∃ su sv,
      (AStarCalculator.create buffer r.systems a b jumprange).nodes[u]? = some su ∧
      (AStarCalculator.create buffer r.systems a b jumprange).nodes[v]? = some sv ∧
      0 < distanceTo su sv ∧ distanceTo su sv < jumprange)) :
    (r.calculateRoute distanceTo buffer astar begin_ end_ jumprange).valid = true ∧
      (buffer ≠ 0 →
        AStarRouter.calculateRoute euclid buffer astar ⟨[sysA, sysB, sysC]⟩ "A" "C" 15 =
          ⟨true, [sysA, sysB, sysC], 20⟩) := by
  constructor
  · rw [calculateRoute_eq distanceTo buffer r begin_ end_ jumprange a b ha hb]
    have hend := endpointsOK_create buffer r.systems a b jumprange
    have hjr : (AStarCalculator.create buffer r.systems a b jumprange).jumpRange =
        jumprange := cylinder_jumpRange _ _ _ _ _
    generalize AStarCalculator.create buffer r.systems a b jumprange = c at hs he hp3 hend hjr ⊢
    obtain ⟨ss, hss, -⟩ := hend.1 s hs
    have hlt : s < c.nodes.length := by
      by_contra hcon
      rw [List.getElem?_eq_none (by omega)] at hss
      cases hss
    have hchain : p.Chain' (fun u v => ∃ w, (v, w) ∈ contextChildren distanceTo c u) := by
      refine hp3.imp ?_
      rintro u v ⟨su, sv, k1, k2, k3, k4⟩
      exact ⟨distanceTo su sv, (mem_contextChildren distanceTo c u v _).2
        ⟨su, sv, k1, k2, rfl, k3, hjr ▸ k4⟩⟩
    obtain ⟨hq, hqe⟩ := isRoute_of_chain _ s e p hp1 hp2 hchain
    exact solve_complete distanceTo c s e hs he hlt p.reverse hq hqe
  · intro hbuf
    rw [calculateRoute_eq euclid buffer ⟨[sysA, sysB, sysC]⟩ "A" "C" 15 sysA sysC
      (by decide) (by decide)]
    show (AStarCalculator.create buffer [sysA, sysB, sysC] sysA sysC 15).solve euclid astar = _
    rw [create_line buffer hbuf]
    decide!

theorem sysA_position (n : Nat) : sysA.position = Vec3.scale (2 ^ n) ⟨0, 0, 0⟩ := by
  simp [sysA, System.position, Vec3.scale]

theorem sysMk_position (n : Nat) : (sysMk (2 ^ n)).position = Vec3.scale (2 ^ n) ⟨3, 4, 0⟩ := by
  simp [sysMk, System.position, Vec3.scale, mul_comm]

theorem sysBk_position (n : Nat) : (sysBk (2 ^ n)).position = Vec3.scale (2 ^ n) ⟨6, 0, 0⟩ := by
  simp [sysBk, System.position, Vec3.scale, mul_comm]

theorem euclid_scale (n : Nat) (a b : System) (p q : Vec3)
    (ha : a.position = Vec3.scale (2 ^ n) p) (hb : b.position = Vec3.scale (2 ^ n) q) :
    euclid a b = 2 ^ n * f32sqrt ((p.sub q).lengthSquared) := by
  unfold euclid
  rw [ha, hb, sub_scale, lengthSquared_scale, f32sqrt_pow_mul]

theorem euclid_A_Mk (n : Nat) : euclid sysA (sysMk (2 ^ n)) = 5 * 2 ^ n := by
  rw [euclid_scale n _ _ _ _ (sysA_position n) (sysMk_position n)]
  have : f32sqrt ((Vec3.sub ⟨0, 0, 0⟩ ⟨3, 4, 0⟩).lengthSquared) = 5 := by decide!
  rw [this]
  ring

theorem euclid_Mk_Bk (n : Nat) : euclid (sysMk (2 ^ n)) (sysBk (2 ^ n)) = 5 * 2 ^ n := by
  rw [euclid_scale n _ _ _ _ (sysMk_position n) (sysBk_position n)]
  have : f32sqrt ((Vec3.sub ⟨3, 4, 0⟩ ⟨6, 0, 0⟩).lengthSquared) = 5 := by decide!
  rw [this]
  ring

theorem euclid_A_Bk (n : Nat) : euclid sysA (sysBk (2 ^ n)) = 6 * 2 ^ n := by
  rw [euclid_scale n _ _ _ _ (sysA_position n) (sysBk_position n)]
  have : f32sqrt ((Vec3.sub ⟨0, 0, 0⟩ ⟨6, 0, 0⟩).lengthSquared) = 6 := by decide!
  rw [this]
  ring

theorem euclid_A_A : euclid sysA sysA = 0 := by decide!

theorem astar_none_of_no_children (n : Nat) (children : Nat → List (Nat × ℚ))
    (distTo : Nat → Nat → ℚ) (s e : Nat) (hse : s ≠ e) (hch : children s = []) :
    astar n children distTo s e = none := by
  rw [astar_eq]
  unfold astarLoop
  simp only [popMin, hse, if_false, hch, List.foldl_nil]
  cases n with
  | zero => rfl
  | succ n => rfl

theorem contextChildren_eq_nil (distanceTo : System → System → ℚ) (c : AStarCalculator)
    (s : Nat) (ss : System) (hss : c.nodes[s]? = some ss)
    (h : ∀ nd ∈ c.nodes, ¬ (0 < distanceTo ss nd ∧ distanceTo ss nd < c.jumpRange)) :
    contextChildren distanceTo c s = [] := by
  rw [List.eq_nil_iff_forall_not_mem]
  rintro ⟨v, w⟩ hmem
  obtain ⟨s1, nd, k1, k2, k3, k4, k5⟩ := (mem_contextChildren distanceTo c s v w).1 hmem
  rw [hss] at k1
  cases k1
  exact h nd (List.getElem?_mem k2) ⟨k3 ▸ k4, k3 ▸ k5⟩

theorem corridor_blocks (buffer : ℚ) (n : Nat) (hbuf : |buffer| ≤ 2 ^ n) :
    RouteAsStated euclid [sysA, sysMk (2 ^ n), sysBk (2 ^ n)] sysA (sysBk (2 ^ n))
        (6 * ((2 ^ n : ℕ) : ℚ)) ∧
      (AStarRouter.calculateRoute euclid buffer astar
        ⟨[sysA, sysMk (2 ^ n), sysBk (2 ^ n)]⟩ "A" "B" (6 * ((2 ^ n : ℕ) : ℚ))).valid = false := by
  have hkq : (0 : ℚ) < 2 ^ n := pow_pos (by norm_num) n
  have hcast : ((2 ^ n : ℕ) : ℚ) = 2 ^ n := by push_cast; rfl
  rw [hcast]
  constructor
  · refine ⟨[sysA, sysMk (2 ^ n), sysBk (2 ^ n)], rfl, rfl, fun x hx => hx, ?_⟩
    refine List.Chain'.cons ?_ (List.Chain'.cons ?_ (List.chain'_singleton _))
    · rw [euclid_A_Mk]; linarith
    · rw [euclid_Mk_Bk]; linarith
  · have ha : AStarRouter.getSystemByName ⟨[sysA, sysMk (2 ^ n), sysBk (2 ^ n)]⟩ "A" =
        some sysA := by
      simp [AStarRouter.getSystemByName, List.find?, sysA]
    have hb : AStarRouter.getSystemByName ⟨[sysA, sysMk (2 ^ n), sysBk (2 ^ n)]⟩ "B" =
        some (sysBk (2 ^ n)) := by
      simp [AStarRouter.getSystemByName, List.find?, sysA, sysMk, sysBk]
    rw [calculateRoute_eq euclid buffer _ "A" "B" (6 * 2 ^ n) sysA (sysBk (2 ^ n)) ha hb]
    have hend := endpointsOK_create buffer [sysA, sysMk (2 ^ n), sysBk (2 ^ n)] sysA
      (sysBk (2 ^ n)) (6 * 2 ^ n)
    have hjr : (AStarCalculator.create buffer [sysA, sysMk (2 ^ n), sysBk (2 ^ n)] sysA
        (sysBk (2 ^ n)) (6 * 2 ^ n)).jumpRange = 6 * 2 ^ n := cylinder_jumpRange _ _ _ _ _
    have hM : inCylinder (sysMk (2 ^ n)).position sysA.position (sysBk (2 ^ n)).position
        buffer = false := by
      have hb2 : buffer * buffer ≤ (2 : ℚ) ^ n * 2 ^ n := by
        have h1 := abs_mul_abs_self buffer
        have h2 := abs_nonneg buffer
        nlinarith
      have hbs : f32 (buffer * buffer) ≤ 2 * ((2 : ℚ) ^ n * 2 ^ n) := by
        rcases eq_or_lt_of_le (mul_self_nonneg buffer) with h0 | hpos
        · rw [← h0, f32_zero]
          nlinarith
        · exact (f32_le_two_mul _ hpos).trans (by linarith)
      have hdist : cylinderDist (sysMk (2 ^ n)).position sysA.position
          (sysBk (2 ^ n)).position = 2 ^ (n + n) * 16 := by
        rw [sysMk_position, sysA_position n, sysBk_position, cylinderDist_scale]
        have : cylinderDist ⟨3, 4, 0⟩ ⟨0, 0, 0⟩ ⟨6, 0, 0⟩ = 16 := by decide!
        rw [this]
      unfold inCylinder
      simp only [decide_eq_false_iff_not, not_and, not_lt]
      intro _
      rw [hdist, pow_add]
      nlinarith [mul_pos hkq hkq]
    have hnodes : ∀ x ∈ (AStarCalculator.create buffer [sysA, sysMk (2 ^ n), sysBk (2 ^ n)]
        sysA (sysBk (2 ^ n)) (6 * 2 ^ n)).nodes, x = sysA ∨ x = sysBk (2 ^ n) := by
      intro x hx
      unfold AStarCalculator.create at hx
      rw [cylinder_nodes] at hx
      simp only [List.nil_append, List.mem_filter, List.mem_cons, List.mem_singleton,
        List.not_mem_nil, or_false] at hx
      rcases hx with ⟨rfl | rfl | rfl, hin⟩
      · exact Or.inl rfl
      · rw [hM] at hin; cases hin
      · exact Or.inr rfl
    have hposne : sysA.position ≠ (sysBk (2 ^ n)).position := by
      intro heq
      simp only [System.position, sysA, sysBk, Vec3.mk.injEq] at heq
      have h1 := heq.1
      push_cast at h1
      linarith
    generalize AStarCalculator.create buffer [sysA, sysMk (2 ^ n), sysBk (2 ^ n)] sysA
      (sysBk (2 ^ n)) (6 * 2 ^ n) = c at hend hjr hnodes ⊢
    cases hs : c.start with
    | none => rw [solve_invalid_of_no_endpoint euclid c (Or.inl hs)]; rfl
    | some s =>
      cases he : c.goal with
      | none => rw [solve_invalid_of_no_endpoint euclid c (Or.inr he)]; rfl
      | some e =>
        obtain ⟨ss, hss, hpos⟩ := hend.1 s hs
        obtain ⟨se, hse, hpose⟩ := hend.2 e he
        have hne : s ≠ e := by
          intro heq
          subst heq
          rw [hss] at hse
          cases hse
          exact hposne (hpos.symm.trans hpose)
        have hssA : ss = sysA := by
          rcases hnodes ss (List.getElem?_mem hss) with h | h
          · exact h
          · rw [h] at hpos
            exact absurd hpos.symm hposne
        subst hssA
        have hch : contextChildren euclid c s = [] := by
          apply contextChildren_eq_nil euclid c s sysA hss
          intro nd hnd
          rcases hnodes nd hnd with h | h
          · rw [h, euclid_A_A]
            exact fun hh => lt_irrefl _ hh.1
          · rw [h, euclid_A_Bk, hjr]
            exact fun hh => lt_irrefl _ hh.2
        rw [solve_eq euclid c s e hs he,
          astar_none_of_no_children _ _ _ s e hne hch]
        rfl

/-- C4 fails as stated: whatever the buffer of the corridor is, there are a catalog and a
route through it with every jump shorter than the range for which `calculateRoute` returns
an invalid Path Result. With `k ≥ |buffer|`, `k` a power of two: the catalog `A (0,0,0)`,
`M (3k,4k,0)`, `B (6k,0,0)` and the range `6k`; the route `A → M → B` has two jumps of length
`5k`, but `M` lies `4k` off the line from `A` to `B` and is culled, and `A` and `B` are `6k`
apart. The first part is the instance `k = 1` for the buffer `1`. -/
theorem calculateRoute_finds_route_counterexample :
    (RouteAsStated euclid [sysA, sysMk 1, sysBk 1] sysA (sysBk 1) 6 ∧
      (AStarRouter.calculateRoute euclid 1 astar ⟨[sysA, sysMk 1, sysBk 1]⟩ "A" "B" 6).valid =
        false) ∧
    ¬ ∃ buffer : ℚ, ∀ (catalog : List System) (a b : System) (r : ℚ),
      RouteAsStated euclid catalog a b r →
        (AStarRouter.calculateRoute euclid buffer astar ⟨catalog⟩ a.name b.name r).valid =
          true := by
  constructor
  · have h := corridor_blocks 1 0 (by norm_num)
    have h6 : (6 : ℚ) * ((2 ^ 0 : ℕ) : ℚ) = 6 := by norm_num
    rw [h6] at h
    exact h
  · rintro ⟨buffer, h⟩
    have hk : |buffer| ≤ (2 : ℚ) ^ ⌈|buffer|⌉₊ := by
      have h1 := Nat.le_ceil |buffer|
      have h2 : ((⌈|buffer|⌉₊ : ℕ) : ℚ) ≤ ((2 ^ ⌈|buffer|⌉₊ : ℕ) : ℚ) := by
        exact_mod_cast (Nat.lt_two_pow ⌈|buffer|⌉₊).le
      push_cast at h2
      linarith
    obtain ⟨hr, hv⟩ := corridor_blocks buffer ⌈|buffer|⌉₊ hk
    have hvalid := h _ sysA (sysBk (2 ^ ⌈|buffer|⌉₊)) _ hr
    have hnames : sysA.name = "A" ∧ (sysBk (2 ^ ⌈|buffer|⌉₊)).name = "B" := ⟨rfl, rfl⟩
    rw [hnames.1, hnames.2, hv] at hvalid
    cases hvalid

/-- Instance of C4 as amended on the first worked example of the spec: the chain of nodes
`0, 1, 2` (`A`, `B`, `C`) with buffer `40`. -/
theorem calculateRoute_finds_route_witness :
    AStarRouter.getSystemByName ⟨[sysA, sysB, sysC]⟩ "A" = some sysA ∧
      AStarRouter.getSystemByName ⟨[sysA, sysB, sysC]⟩ "C" = some sysC ∧
      (AStarCalculator.create 40 [sysA, sysB, sysC] sysA sysC 15).start = some 0 ∧
      (AStarCalculator.create 40 [sysA, sysB, sysC] sysA sysC 15).goal = some 2 ∧
      (AStarRouter.calculateRoute euclid 40 astar ⟨[sysA, sysB, sysC]⟩ "A" "C" 15).valid =
        true ∧
      AStarRouter.calculateRoute euclid 40 astar ⟨[sysA, sysB, sysC]⟩ "A" "C" 15 =
        ⟨true, [sysA, sysB, sysC], 20⟩ := by
  have ha : AStarRouter.getSystemByName ⟨[sysA, sysB, sysC]⟩ "A" = some sysA := by decide
  have hc : AStarRouter.getSystemByName ⟨[sysA, sysB, sysC]⟩ "C" = some sysC := by decide
  have hs : (AStarCalculator.create 40 [sysA, sysB, sysC] sysA sysC 15).start = some 0 := by
    decide!
  have he : (AStarCalculator.create 40 [sysA, sysB, sysC] sysA sysC 15).goal = some 2 := by
    decide!
  have hp3 : [0, 1, 2].Chain' (fun u v => ∃ su sv,
      (AStarCalculator.create 40 [sysA, sysB, sysC] sysA sysC 15).nodes[u]? = some su ∧
      (AStarCalculator.create 40 [sysA, sysB, sysC] sysA sysC 15).nodes[v]? = some sv ∧
      0 < euclid su sv ∧ euclid su sv < 15) :=
    List.Chain'.cons ⟨sysA, sysB, by decide!, by decide!, by decide!, by decide!⟩
      (List.Chain'.cons ⟨sysB, sysC, by decide!, by decide!, by decide!, by decide!⟩
        (List.chain'_singleton _))
  obtain ⟨h1, h2⟩ := calculateRoute_finds_route euclid 40 ⟨[sysA, sysB, sysC]⟩ "A" "C" 15
    sysA sysC ha hc 0 2 [0, 1, 2] hs he rfl rfl hp3
  exact ⟨ha, hc, hs, he, h1, h2 (by norm_num)⟩

/-! ### Symmetry of the routes -/

theorem inCylinder_swap (p a b : Vec3) (buffer : ℚ) :
    inCylinder p b a buffer = inCylinder p a b buffer := by
  unfold inCylinder
  rw [cylinderDist_swap p a b, sub_neg a b, lengthSquared_neg]

theorem swapped_step (a b : Vec3) (hab : a ≠ b) (buffer : ℚ) (c1 c2 : AStarCalculator)
    (s : System) (h : Swapped c1 c2) :
    Swapped (cylinderStep a b buffer c1 s) (cylinderStep b a buffer c2 s) := by
  obtain ⟨h1, h2, h3, h4⟩ := h
  unfold cylinderStep
  rw [inCylinder_swap s.position a b buffer]
  by_cases hin : inCylinder s.position a b buffer = true
  · rw [if_pos hin, if_pos hin]
    by_cases hf : s.position = a
    · have hnb : ¬ s.position = b := fun hb => hab (hf.symm.trans hb)
      rw [if_pos hf, if_neg hnb, if_pos hf]
      exact ⟨by simp [h1], h2, by simp [h1], h4⟩
    · rw [if_neg hf]
      by_cases ht : s.position = b
      · rw [if_pos ht, if_pos ht]
        exact ⟨by simp [h1], by simp [h1], h3, h4⟩
      · rw [if_neg ht, if_neg ht, if_neg hf]
        exact ⟨by simp [h1], h2, h3, h4⟩
  · rw [if_neg hin, if_neg hin]
    exact ⟨h1, h2, h3, h4⟩

theorem swapped_cylinder (a b : Vec3) (hab : a ≠ b) (buffer : ℚ) (stars : List System)
    (c1 c2 : AStarCalculator) (h : Swapped c1 c2) :
    Swapped (cylinder c1 stars a b buffer) (cylinder c2 stars b a buffer) := by
  induction stars generalizing c1 c2 with
  | nil => exact h
  | cons s rest ih => exact ih _ _ (swapped_step a b hab buffer c1 c2 s h)

theorem swapped_create (buffer : ℚ) (systems : List System) (a b : System) (r : ℚ)
    (hab : a.position ≠ b.position) :
    Swapped (AStarCalculator.create buffer systems a b r)
      (AStarCalculator.create buffer systems b a r) :=
  swapped_cylinder _ _ hab buffer systems _ _ ⟨rfl, rfl, rfl, rfl⟩

theorem inCylinder_same (p a : Vec3) (buffer : ℚ) : inCylinder p a a buffer = false := by
  simp [inCylinder, Vec3.sub, Vec3.lengthSquared, f32_zero]

theorem create_same_position (buffer : ℚ) (systems : List System) (a b : System) (r : ℚ)
    (hab : a.position = b.position) :
    (AStarCalculator.create buffer systems a b r).start = none := by
  have key : ∀ (stars : List System) (c : AStarCalculator),
      cylinder c stars a.position b.position buffer = c := by
    intro stars
    induction stars with
    | nil => intro c; rfl
    | cons s rest ih =>
      intro c
      have hstep : cylinder c (s :: rest) a.position b.position buffer =
          cylinder (cylinderStep a.position b.position buffer c s) rest
            a.position b.position buffer := rfl
      rw [hstep, ih]
      unfold cylinderStep
      rw [← hab, inCylinder_same]
      rfl
  unfold AStarCalculator.create
  rw [key]

theorem context_congr (distanceTo : System → System → ℚ) (c1 c2 : AStarCalculator)
    (h1 : c2.nodes = c1.nodes) (h2 : c2.jumpRange = c1.jumpRange) :
    contextChildren distanceTo c2 = contextChildren distanceTo c1 ∧
      contextDistance distanceTo c2 = contextDistance distanceTo c1 ∧
      systemsOf c2 = systemsOf c1 := by
  obtain ⟨n1, s1, g1, j1⟩ := c1
  obtain ⟨n2, s2, g2, j2⟩ := c2
  simp only at h1 h2
  subst h1 h2
  exact ⟨rfl, rfl, rfl⟩

theorem routeCost_append_singleton (wt : Nat → Nat → ℚ) (l : List Nat) (x : Nat) :
    routeCost wt (l ++ [x]) =
      routeCost wt l + (match l.getLast? with
        | some y => wt x y
        | none => 0) := by
  induction l with
  | nil => simp [routeCost]
  | cons v tl ih =>
    cases tl with
    | nil => simp [routeCost]
    | cons u rest =>
      have e1 : routeCost wt (v :: u :: rest ++ [x]) =
          wt u v + routeCost wt (u :: rest ++ [x]) := rfl
      have e2 : routeCost wt (v :: u :: rest) = wt u v + routeCost wt (u :: rest) := rfl
      rw [e1, e2, ih, List.getLast?_cons_cons]
      ring

theorem routeCost_reverse (wt : Nat → Nat → ℚ) (q : List Nat) :
    routeCost wt q.reverse = routeCost (fun u v => wt v u) q := by
  induction q with
  | nil => rfl
  | cons v tl ih =>
    rw [List.reverse_cons, routeCost_append_singleton, ih, List.getLast?_reverse]
    cases tl with
    | nil => simp [routeCost]
    | cons u rest =>
      simp only [List.head?_cons, routeCost]
      ring

theorem routeLength_append (distanceTo : System → System → ℚ) (l : List System)
    (x : System) :
    routeLength distanceTo (l ++ [x]) =
      match (routeLength distanceTo l).2 with
      | some last => ((routeLength distanceTo l).1 + distanceTo x last, some x)
      | none => ((routeLength distanceTo l).1, some x) := by
  unfold routeLength
  rw [List.foldl_append]
  rfl

theorem route_length (distanceTo : System → System → ℚ) (c : AStarCalculator) (s : Nat)
    (ss : System) (hs : c.nodes[s]? = some ss) (q : List Nat)
    (hq : IsRoute (contextChildren distanceTo c) s q) :
    ∀ v, q.head? = some v →
      routeLength distanceTo (systemsOf c q.reverse) =
        (routeCost (fun u v => contextDistance distanceTo c v u) q, c.nodes[v]?) := by
  induction q with
  | nil => cases hq
  | cons a tl ih =>
    intro v hv
    simp only [List.head?_cons, Option.some.injEq] at hv
    subst hv
    cases tl with
    | nil =>
      have : a = s := hq
      subst this
      have hL : systemsOf c [a].reverse = [ss] := by simp [systemsOf, hs]
      rw [hL, hs]
      rfl
    | cons u rest =>
      obtain ⟨⟨w, hw⟩, hrest⟩ := hq
      obtain ⟨su, sa, h1, h2, -⟩ := (mem_contextChildren distanceTo c u a w).1 hw
      have k := ih hrest u rfl
      rw [systemsOf_reverse_cons c a (u :: rest) sa h2, routeLength_append, k, h1, h2]
      simp only [routeCost, contextDistance, getD_of_getElem_some h1, getD_of_getElem_some h2]
      rw [add_comm]

theorem isRoute_reverse (distanceTo : System → System → ℚ)
    (hsymm : ∀ x y, distanceTo x y = distanceTo y x) (c : AStarCalculator) (s e : Nat)
    (q : List Nat) (hq : IsRoute (contextChildren distanceTo c) s q)
    (hqe : q.head? = some e) :
    IsRoute (contextChildren distanceTo c) e q.reverse ∧ q.reverse.head? = some s := by
  rw [isRoute_iff] at hq ⊢
  rw [List.getLast?_reverse, List.head?_reverse, List.chain'_reverse]
  refine ⟨⟨hqe, hq.2.imp ?_⟩, hq.1⟩
  rintro v u ⟨w, hw⟩
  obtain ⟨su, sv, h1, h2, h3, h4, h5⟩ := (mem_contextChildren distanceTo c u v w).1 hw
  exact ⟨w, (mem_contextChildren distanceTo c v u w).2
    ⟨sv, su, h2, h1, h3.trans (hsymm su sv), h4, h5⟩⟩

/-- On a search context with start `s` and goal `e`, the start a node: `solve` is valid
exactly when the context holds a route from the start to the goal. -/
theorem solve_valid_iff (distanceTo : System → System → ℚ) (c : AStarCalculator) (s e : Nat)
    (ss : System) (hs : c.start = some s) (he : c.goal = some e)
    (hss : c.nodes[s]? = some ss) :
    (c.solve distanceTo astar).valid = true ↔
      ∃ q, IsRoute (contextChildren distanceTo c) s q ∧ q.head? = some e := by
  have hlt : s < c.nodes.length := by
    by_contra hcon
    rw [List.getElem?_eq_none (by omega)] at hss
    cases hss
  constructor
  · intro hv
    obtain ⟨s1, e1, sol, k1, k2, hcase⟩ := solve_valid_of distanceTo astar astar_sound c hv
    rw [hs] at k1
    rw [he] at k2
    cases k1
    cases k2
    rcases hcase with hnone | ⟨-, hroute, hhead⟩
    · rw [hss] at hnone
      cases hnone
    · exact ⟨sol.reverse, hroute, hhead⟩
  · rintro ⟨q, hq, hqe⟩
    exact solve_complete distanceTo c s e hs he hlt q hq hqe

/-- On a search context with start `s` and goal `e`, each a node, the distance obeying the
triangle inequality on the nodes: the route of a valid result of `solve` is a cheapest
route from the start to the goal, its cost being the exact sum of its legs. -/
theorem solve_result (distanceTo : System → System → ℚ)
    (hsymm : ∀ x y, distanceTo x y = distanceTo y x)
    (c : AStarCalculator)
    (htri : ∀ x ∈ c.nodes, ∀ y ∈ c.nodes, ∀ z ∈ c.nodes,
      distanceTo x z ≤ distanceTo x y + distanceTo y z)
    (s e : Nat) (ss se : System)
    (hs : c.start = some s) (he : c.goal = some e) (hss : c.nodes[s]? = some ss)
    (hse : c.nodes[e]? = some se) (hv : (c.solve distanceTo astar).valid = true) :
    ∃ q, IsRoute (contextChildren distanceTo c) s q ∧ q.head? = some e ∧
      (routeLength distanceTo (c.solve distanceTo astar).route).1 =
        routeCost (contextDistance distanceTo c) q ∧
      ∀ q1, IsRoute (contextChildren distanceTo c) s q1 → q1.head? = some e →
        routeCost (contextDistance distanceTo c) q ≤
          routeCost (contextDistance distanceTo c) q1 := by
  have hlt : s < c.nodes.length := by
    by_contra hcon
    rw [List.getElem?_eq_none (by omega)] at hss
    cases hss
  have G := contextGraphOK distanceTo c
  have hflip : (fun u v => contextDistance distanceTo c v u) = contextDistance distanceTo c := by
    funext u v
    exact hsymm _ _
  have hcons : ∀ u ch, ch ∈ contextChildren distanceTo c u →
      (fun v => contextDistance distanceTo c v e) u ≤
        ch.2 + (fun v => contextDistance distanceTo c v e) ch.1 := by
    rintro u ⟨v, w⟩ hch
    obtain ⟨su, sv, h1, h2, h3, -⟩ := (mem_contextChildren distanceTo c u v w).1 hch
    simp only [contextDistance, getD_of_getElem_some h1, getD_of_getElem_some h2,
      getD_of_getElem_some hse]
    rw [h3]
    exact htri su (List.getElem?_mem h1) sv (List.getElem?_mem h2) se (List.getElem?_mem hse)
  cases hsol : astar c.nodes.length (contextChildren distanceTo c)
      (contextDistance distanceTo c) s e with
  | none =>
    rw [solve_eq distanceTo c s e hs he, hsol] at hv
    cases hv
  | some sol =>
    have hres : c.solve distanceTo astar =
        AStarResult.ofSolution distanceTo (systemsOf c sol) := by
      rw [solve_eq distanceTo c s e hs he, hsol]
    have hsol2 := hsol
    rw [astar_eq] at hsol2
    have inv0 := searchInv_init (contextChildren distanceTo c) (contextDistance distanceTo c)
      (fun v => contextDistance distanceTo c v e) c.nodes.length s e hlt
    obtain ⟨hroute, hhead⟩ := astarLoop_sound G _ _ _ _ inv0 sol hsol2
    have hopt := astarLoop_optimal G hcons _ _ _ _ inv0
      (fun u hu => (by cases hu)) sol hsol2
    refine ⟨sol.reverse, hroute, hhead, ?_, hopt⟩
    have hd := route_length distanceTo c s ss hss sol.reverse hroute e hhead
    rw [List.reverse_reverse, hflip] at hd
    rw [hres]
    show (routeLength distanceTo (systemsOf c sol)).1 = _
    rw [hd]

/-- The distance of a result of `solve` is the sum that the constructor accumulated over
its route. -/
theorem solve_distance (distanceTo : System → System → ℚ) (findPath : FindPath)
    (c : AStarCalculator) :
    (c.solve distanceTo findPath).distance =
        (routeDistance distanceTo (c.solve distanceTo findPath).route).1 ∧
      ((c.solve distanceTo findPath).valid = false →
        c.solve distanceTo findPath = AStarResult.invalid) := by
  unfold AStarCalculator.solve
  cases c.start with
  | none => exact ⟨rfl, fun _ => rfl⟩
  | some s =>
    cases c.goal with
    | none => exact ⟨rfl, fun _ => rfl⟩
    | some e =>
      simp only
      cases findPath c.nodes.length (fun u => getChildren distanceTo c u [])
          (fun u v => distanceTo (c.nodes.getD u default) (c.nodes.getD v default)) s e with
      | none => exact ⟨rfl, fun _ => rfl⟩
      | some sol => exact ⟨rfl, fun h => by cases h⟩

theorem calculateRoute_distance (distanceTo : System → System → ℚ) (buffer : ℚ)
    (findPath : FindPath) (r : AStarRouter) (a b : String) (jumprange : ℚ) :
    (r.calculateRoute distanceTo buffer findPath a b jumprange).distance =
      (routeDistance distanceTo
        (r.calculateRoute distanceTo buffer findPath a b jumprange).route).1 := by
  unfold AStarRouter.calculateRoute
  cases r.getSystemByName a with
  | none => rfl
  | some sa =>
    cases r.getSystemByName b with
    | none => rfl
    | some sb => exact (solve_distance distanceTo findPath _).1

theorem solve_swapped (distanceTo : System → System → ℚ)
    (hsymm : ∀ x y, distanceTo x y = distanceTo y x)
    (c1 c2 : AStarCalculator) (a b : Vec3) (hsw : Swapped c1 c2)
    (hend : EndpointsOK c1 a b) :
    (c1.solve distanceTo astar).valid = (c2.solve distanceTo astar).valid ∧
      ((∀ x ∈ c1.nodes, ∀ y ∈ c1.nodes, ∀ z ∈ c1.nodes,
          distanceTo x z ≤ distanceTo x y + distanceTo y z) →
        (routeLength distanceTo (c1.solve distanceTo astar).route).1 =
          (routeLength distanceTo (c2.solve distanceTo astar).route).1) := by
  obtain ⟨hn, hst, hgo, hjr⟩ := hsw
  obtain ⟨hch, hwt, -⟩ := context_congr distanceTo c1 c2 hn hjr
  have hflip : (fun u v => contextDistance distanceTo c1 v u) =
      contextDistance distanceTo c1 := by
    funext u v
    exact hsymm _ _
  cases hs : c1.start with
  | none =>
    rw [solve_invalid_of_no_endpoint distanceTo c1 (Or.inl hs),
      solve_invalid_of_no_endpoint distanceTo c2 (Or.inr (hgo.trans hs))]
    exact ⟨rfl, fun _ => rfl⟩
  | some s =>
    cases he : c1.goal with
    | none =>
      rw [solve_invalid_of_no_endpoint distanceTo c1 (Or.inr he),
        solve_invalid_of_no_endpoint distanceTo c2 (Or.inl (hst.trans he))]
      exact ⟨rfl, fun _ => rfl⟩
    | some e =>
      obtain ⟨ss, hss, -⟩ := hend.1 s hs
      obtain ⟨se, hse, -⟩ := hend.2 e he
      have hs2 : c2.start = some e := hst.trans he
      have he2 : c2.goal = some s := hgo.trans hs
      have hss2 : c2.nodes[s]? = some ss := hn ▸ hss
      have hse2 : c2.nodes[e]? = some se := hn ▸ hse
      have v1 := solve_valid_iff distanceTo c1 s e ss hs he hss
      have v2 := solve_valid_iff distanceTo c2 e s se hs2 he2 hse2
      rw [hch] at v2
      have hvalid : (c1.solve distanceTo astar).valid = true ↔
          (c2.solve distanceTo astar).valid = true := by
        rw [v1, v2]
        constructor
        · rintro ⟨q, hq, hqe⟩
          exact ⟨q.reverse, isRoute_reverse distanceTo hsymm c1 s e q hq hqe⟩
        · rintro ⟨q, hq, hqe⟩
          exact ⟨q.reverse, isRoute_reverse distanceTo hsymm c1 e s q hq hqe⟩
      have hveq : (c1.solve distanceTo astar).valid = (c2.solve distanceTo astar).valid := by
        cases h1 : (c1.solve distanceTo astar).valid with
        | true => exact (hvalid.1 h1).symm
        | false =>
          cases h2 : (c2.solve distanceTo astar).valid with
          | true => rw [hvalid.2 h2] at h1; cases h1
          | false => rfl
      refine ⟨hveq, ?_⟩
      intro htri
      cases h1 : (c1.solve distanceTo astar).valid with
      | false =>
        have h2 : (c2.solve distanceTo astar).valid = false := by rw [← hveq, h1]
        rw [(solve_distance distanceTo astar c1).2 h1, (solve_distance distanceTo astar c2).2 h2]
      | true =>
        have h2 : (c2.solve distanceTo astar).valid = true := by rw [← hveq, h1]
        obtain ⟨q1, k1, k2, d1, o1⟩ :=
          solve_result distanceTo hsymm c1 htri s e ss se hs he hss hse h1
        obtain ⟨q2, m1, m2, d2, o2⟩ :=
          solve_result distanceTo hsymm c2 (hn ▸ htri) e s se ss hs2 he2 hse2 hss2 h2
        rw [hch] at m1
        rw [hwt] at d2
        rw [hch, hwt] at o2
        rw [d1, d2]
        obtain ⟨y1, y2⟩ := isRoute_reverse distanceTo hsymm c1 e s q2 m1 m2
        obtain ⟨z1, z2⟩ := isRoute_reverse distanceTo hsymm c1 s e q1 k1 k2
        have le1 := o1 _ y1 y2
        have le2 := o2 _ z1 z2
        rw [routeCost_reverse, hflip] at le1 le2
        exact le_antisymm le1 le2

/-- C5, as the code has it. For a symmetric distance, any two names and any range: the Path
Result of `calculateRoute` from the first to the second is valid exactly when the one from
the second to the first is; the distance of each is the sum of the legs of its route,
accumulated in single precision in the order of the route; and when the distance obeys the
triangle inequality on the catalog, the two routes have the same exact length, so that the
two distances are equal whenever neither sum has a rounding error. -/
theorem calculateRoute_symmetric (distanceTo : System → System → ℚ)
    (hsymm : ∀ x y, distanceTo x y = distanceTo y x)
    (buffer : ℚ) (r : AStarRouter) (a b : String) (jumprange : ℚ) :
    ((r.calculateRoute distanceTo buffer astar a b jumprange).valid = true ↔
        (r.calculateRoute distanceTo buffer astar b a jumprange).valid = true) ∧
      (r.calculateRoute distanceTo buffer astar a b jumprange).distance =
        (routeDistance distanceTo
          (r.calculateRoute distanceTo buffer astar a b jumprange).route).1 ∧
      (r.calculateRoute distanceTo buffer astar b a jumprange).distance =
        (routeDistance distanceTo
          (r.calculateRoute distanceTo buffer astar b a jumprange).route).1 ∧
      ((∀ x ∈ r.systems, ∀ y ∈ r.systems, ∀ z ∈ r.systems,
          distanceTo x z ≤ distanceTo x y + distanceTo y z) →
        (routeLength distanceTo
            (r.calculateRoute distanceTo buffer astar a b jumprange).route).1 =
          (routeLength distanceTo
            (r.calculateRoute distanceTo buffer astar b a jumprange).route).1 ∧
        ((r.calculateRoute distanceTo buffer astar a b jumprange).distance =
            (routeLength distanceTo
              (r.calculateRoute distanceTo buffer astar a b jumprange).route).1 →
          (r.calculateRoute distanceTo buffer astar b a jumprange).distance =
            (routeLength distanceTo
              (r.calculateRoute distanceTo buffer astar b a jumprange).route).1 →
          (r.calculateRoute distanceTo buffer astar a b jumprange).distance =
            (r.calculateRoute distanceTo buffer astar b a jumprange).distance)) := by
  have key : (r.calculateRoute distanceTo buffer astar a b jumprange).valid =
        (r.calculateRoute distanceTo buffer astar b a jumprange).valid ∧
      ((∀ x ∈ r.systems, ∀ y ∈ r.systems, ∀ z ∈ r.systems,
          distanceTo x z ≤ distanceTo x y + distanceTo y z) →
        (routeLength distanceTo
            (r.calculateRoute distanceTo buffer astar a b jumprange).route).1 =
          (routeLength distanceTo
            (r.calculateRoute distanceTo buffer astar b a jumprange).route).1) := by
    cases ha : r.getSystemByName a with
    | none =>
      have e1 : r.calculateRoute distanceTo buffer astar a b jumprange =
          AStarResult.invalid := by
        unfold AStarRouter.calculateRoute; rw [ha]
      have e2 : r.calculateRoute distanceTo buffer astar b a jumprange =
          AStarResult.invalid := by
        unfold AStarRouter.calculateRoute; rw [ha]
        cases r.getSystemByName b <;> rfl
      rw [e1, e2]
      exact ⟨rfl, fun _ => rfl⟩
    | some sa =>
      cases hb : r.getSystemByName b with
      | none =>
        have e1 : r.calculateRoute distanceTo buffer astar a b jumprange =
            AStarResult.invalid := by
          unfold AStarRouter.calculateRoute; rw [ha, hb]
        have e2 : r.calculateRoute distanceTo buffer astar b a jumprange =
            AStarResult.invalid := by
          unfold AStarRouter.calculateRoute; rw [hb]
        rw [e1, e2]
        exact ⟨rfl, fun _ => rfl⟩
      | some sb =>
        rw [calculateRoute_eq distanceTo buffer r a b jumprange sa sb ha hb,
          calculateRoute_eq distanceTo buffer r b a jumprange sb sa hb ha]
        by_cases hpos : sa.position = sb.position
        · rw [solve_invalid_of_no_endpoint distanceTo _
              (Or.inl (create_same_position buffer r.systems sa sb jumprange hpos)),
            solve_invalid_of_no_endpoint distanceTo _
              (Or.inl (create_same_position buffer r.systems sb sa jumprange hpos.symm))]
          exact ⟨rfl, fun _ => rfl⟩
        · obtain ⟨k1, k2⟩ := solve_swapped distanceTo hsymm _ _ sa.position sb.position
            (swapped_create buffer r.systems sa sb jumprange hpos)
            (endpointsOK_create buffer r.systems sa sb jumprange)
          refine ⟨k1, fun htri => k2 ?_⟩
          intro x hx y hy z hz
          exact htri x (create_nodes_subset buffer r.systems sa sb jumprange x hx)
            y (create_nodes_subset buffer r.systems sa sb jumprange y hy)
            z (create_nodes_subset buffer r.systems sa sb jumprange z hz)
  refine ⟨by rw [key.1], calculateRoute_distance _ _ _ _ _ _ _,
    calculateRoute_distance _ _ _ _ _ _ _, ?_⟩
  intro htri
  refine ⟨key.2 htri, ?_⟩
  intro h1 h2
  rw [h1, h2, key.2 htri]

/-- C5 fails as stated: the systems `A (0,0,0)`, `B (7.6,0,0)`, `C (15.7,0,0)`,
`D (23.4,0,0)`, their coordinates being the single-precision values of these numbers, with
range `15` and buffer `40`. The only chain of jumps between `A` and `D` passes `B` and `C`;
its legs add up in single precision to `3067085/131072` (`23.400001525878906`) from `A` to
`D` and to `12268339/524288` (`23.399999618530273`) from `D` to `A`. -/
theorem calculateRoute_symmetric_counterexample :
    sysB76.x = f32 (76 / 10) ∧ sysC157.x = f32 (157 / 10) ∧ sysD234.x = f32 (234 / 10) ∧
      AStarRouter.calculateRoute euclid 40 astar ⟨[sysA, sysB76, sysC157, sysD234]⟩ "A" "D" 15 =
        ⟨true, [sysA, sysB76, sysC157, sysD234], 3067085 / 131072⟩ ∧
      AStarRouter.calculateRoute euclid 40 astar ⟨[sysA, sysB76, sysC157, sysD234]⟩ "D" "A" 15 =
        ⟨true, [sysD234, sysC157, sysB76, sysA], 12268339 / 524288⟩ ∧
      (AStarRouter.calculateRoute euclid 40 astar ⟨[sysA, sysB76, sysC157, sysD234]⟩ "A" "D"
          15).distance ≠
        (AStarRouter.calculateRoute euclid 40 astar ⟨[sysA, sysB76, sysC157, sysD234]⟩ "D" "A"
          15).distance := by
  refine ⟨by decide!, by decide!, by decide!, by decide!, by decide!, by decide!⟩

/-- Instance of C5 as amended on the first worked example of the spec: the Euclidean
distance in single precision is symmetric and obeys the triangle inequality on `A`, `B`,
`C`; neither sum rounds, and both directions give distance `20`. -/
theorem calculateRoute_symmetric_witness :
    (∀ x y, euclid x y = euclid y x) ∧
      (∀ x ∈ [sysA, sysB, sysC], ∀ y ∈ [sysA, sysB, sysC], ∀ z ∈ [sysA, sysB, sysC],
        euclid x z ≤ euclid x y + euclid y z) ∧
      ((AStarRouter.calculateRoute euclid 40 astar ⟨[sysA, sysB, sysC]⟩ "A" "C" 15).valid =
          true ↔
        (AStarRouter.calculateRoute euclid 40 astar ⟨[sysA, sysB, sysC]⟩ "C" "A" 15).valid =
          true) ∧
      (AStarRouter.calculateRoute euclid 40 astar ⟨[sysA, sysB, sysC]⟩ "A" "C" 15).distance =
        (AStarRouter.calculateRoute euclid 40 astar ⟨[sysA, sysB, sysC]⟩ "C" "A"
          15).distance ∧
      AStarRouter.calculateRoute euclid 40 astar ⟨[sysA, sysB, sysC]⟩ "A" "C" 15 =
        ⟨true, [sysA, sysB, sysC], 20⟩ ∧
      AStarRouter.calculateRoute euclid 40 astar ⟨[sysA, sysB, sysC]⟩ "C" "A" 15 =
        ⟨true, [sysC, sysB, sysA], 20⟩ := by
  have htri : ∀ x ∈ [sysA, sysB, sysC], ∀ y ∈ [sysA, sysB, sysC], ∀ z ∈ [sysA, sysB, sysC],
      euclid x z ≤ euclid x y + euclid y z := by decide!
  have h := calculateRoute_symmetric euclid euclid_symm 40 ⟨[sysA, sysB, sysC]⟩ "A" "C" 15
  exact ⟨euclid_symm, htri, h.1, (h.2.2.2 htri).2 (by decide!) (by decide!), by decide!,
    by decide!⟩

/-! ### Tour planning -/

theorem resize_shrink {α : Type} (l : List α) (n : Nat) (v : α) (h : n < l.length) :
    resize l n v = l.take n := by
  unfold resize
  rw [Nat.sub_eq_zero_of_le (Nat.le_of_lt h)]
  simp

theorem sortAndResize_eq (distance : System → System → ℚ)
    (stdSort : (System → System → Bool) → List System → List System) (w : TSPWorker)
    (origin : System) :
    w.sortAndResize distance stdSort origin =
      origin :: (stdSort (fun a b => decide (distance a origin < distance b origin))
        w.systems).take w.maxSystemCount := by
  unfold TSPWorker.sortAndResize
  simp only
  split_ifs with h
  · rw [resize_shrink _ _ _ h]
  · rw [List.take_of_length_le (by omega)]

/-- C8. For a worker with a fixed origin, `std::sort` yielding a permutation of the
candidates in which no element compares less than an earlier one: the stop list handed to
the matrix builder is the origin followed by the first `min maxCount n` candidates of the
sorted list; these are in non-decreasing order of distance to the origin, no dropped
candidate is nearer to the origin than a retained one, retained and dropped candidates
together are the candidates, with `maxCount ≥ n` every candidate is retained, and the
matrix built has `1 + min maxCount n` rows and columns. -/
theorem sortAndResize_spec (distance : System → System → ℚ)
    (stdSort : (System → System → Bool) → List System → List System) (w : TSPWorker)
    (origin : System)
    (hperm : (stdSort (fun a b => decide (distance a origin < distance b origin))
      w.systems).Perm w.systems)
    (hsorted : (stdSort (fun a b => decide (distance a origin < distance b origin))
      w.systems).Pairwise (fun a b => decide (distance b origin < distance a origin) = false)) :
    ∃ kept dropped : List System,
      w.sortAndResize distance stdSort origin = origin :: kept ∧
      (w.sortAndResize distance stdSort origin).getD 0 default = origin ∧
      kept.length = min w.maxSystemCount w.systems.length ∧
      (kept ++ dropped).Perm w.systems ∧
      kept.Pairwise (fun a b => distance a origin ≤ distance b origin) ∧
      (∀ k ∈ kept, ∀ d ∈ dropped, distance k origin ≤ distance d origin) ∧
      (w.systems.length ≤ w.maxSystemCount → dropped = [] ∧ kept.Perm w.systems) ∧
      Grid (calculateDistanceMatrix
          (TSPWorker.calculateDistance distance
            { w with systems := w.sortAndResize distance stdSort origin })
          (w.sortAndResize distance stdSort origin).length)
        (1 + min w.maxSystemCount w.systems.length) := by
  have hle : (stdSort (fun a b => decide (distance a origin < distance b origin))
      w.systems).Pairwise (fun a b => distance a origin ≤ distance b origin) :=
    hsorted.imp (fun {a b} hab => not_lt.1 (by simpa using hab))
  have hlen := hperm.length_eq
  refine ⟨(stdSort (fun a b => decide (distance a origin < distance b origin))
      w.systems).take w.maxSystemCount,
    (stdSort (fun a b => decide (distance a origin < distance b origin))
      w.systems).drop w.maxSystemCount, sortAndResize_eq distance stdSort w origin, ?_, ?_,
    ?_, ?_, ?_, ?_, ?_⟩
  · rw [sortAndResize_eq]; rfl
  · rw [List.length_take, hlen]
  · rw [List.take_append_drop]; exact hperm
  · exact hle.sublist (List.take_sublist _ _)
  · intro k hk d hd
    have hsplit := hle
    rw [← List.take_append_drop w.maxSystemCount
      (stdSort (fun a b => decide (distance a origin < distance b origin)) w.systems)] at hsplit
    exact (List.pairwise_append.1 hsplit).2.2 k hk d hd
  · intro hn
    have h1 : (stdSort (fun a b => decide (distance a origin < distance b origin))
        w.systems).length ≤ w.maxSystemCount := by omega
    rw [List.drop_of_length_le h1, List.take_of_length_le h1]
    exact ⟨rfl, hperm⟩
  · have := (calculateDistanceMatrix_cells
      (TSPWorker.calculateDistance distance
        { w with systems := w.sortAndResize distance stdSort origin })
      (w.sortAndResize distance stdSort origin).length).1
    rw [sortAndResize_eq] at this ⊢
    simp only [List.length_cons, List.length_take, hlen] at this ⊢
    rw [Nat.add_comm 1]
    exact this

/-- Instance of C8 on the second worked example of the spec: of `P2` at `50` and `P1` at `5`
with `maxCount = 1` only `P1` is kept, and the matrix is `2 × 2`. -/
theorem sortAndResize_spec_witness :
    (insertionSort (fun a b => decide (euclid a sysO < euclid b sysO)) [sysP2, sysP1]).Perm
        [sysP2, sysP1] ∧
      (insertionSort (fun a b => decide (euclid a sysO < euclid b sysO))
        [sysP2, sysP1]).Pairwise
          (fun a b => decide (euclid b sysO < euclid a sysO) = false) ∧
      TSPWorker.sortAndResize euclid insertionSort ⟨[sysP2, sysP1], some sysO, 1, none⟩ sysO =
        [sysO, sysP1] ∧
      calculateDistanceMatrix
          (TSPWorker.calculateDistance euclid ⟨[sysO, sysP1], some sysO, 1, none⟩) 2 =
        [[0, 5], [5, 0]] ∧
      ∃ kept dropped : List System,
        TSPWorker.sortAndResize euclid insertionSort ⟨[sysP2, sysP1], some sysO, 1, none⟩ sysO =
          sysO :: kept ∧
        kept.length = 1 ∧ (kept ++ dropped).Perm [sysP2, sysP1] := by
  have hp : (insertionSort (fun a b => decide (euclid a sysO < euclid b sysO))
      [sysP2, sysP1]).Perm [sysP2, sysP1] := by decide!
  have hs : (insertionSort (fun a b => decide (euclid a sysO < euclid b sysO))
      [sysP2, sysP1]).Pairwise
        (fun a b => decide (euclid b sysO < euclid a sysO) = false) := by decide!
  obtain ⟨kept, dropped, h1, -, h3, h4, -⟩ :=
    sortAndResize_spec euclid insertionSort ⟨[sysP2, sysP1], some sysO, 1, none⟩ sysO hp hs
  exact ⟨hp, hs, by decide!, by decide!, kept, dropped, h1, h3, h4⟩

theorem addEntry_totalDist (r : RouteResult) (sys : System) (p s : String) (d : Int) :
    (r.addEntry sys p s d).totalDist = r.totalDist + d := rfl

theorem addEntry_getLast (r : RouteResult) (sys : System) (p s : String) (d : Int) :
    (r.addEntry sys p s d).route.getLast? = some ⟨sys.name, p, s, d, r.totalDist + d⟩ := by
  simp [RouteResult.addEntry]

theorem addEntry_route_ne_nil (r : RouteResult) (sys : System) (p s : String) (d : Int) :
    (r.addEntry sys p s d).route ≠ [] := by
  simp [RouteResult.addEntry]

/-- The settlements of a planet keep `total + pending distance` as it is, and leave no
pending distance once there is a settlement. -/
theorem visitSettlements_spec (sys : System) (planet : Planet) (st : RouteResult × Int) :
    (visitSettlements sys planet st).1.totalDist + (visitSettlements sys planet st).2 =
        st.1.totalDist + st.2 ∧
      (planet.settlements ≠ [] ∨ st.2 = 0 → (visitSettlements sys planet st).2 = 0) := by
  unfold visitSettlements
  induction planet.settlements generalizing st with
  | nil => simp
  | cons a l ih =>
    rw [List.foldl_cons]
    obtain ⟨h1, h2⟩ := ih (st.1.addEntry sys planet.name a.name st.2, 0)
    refine ⟨by rw [h1, addEntry_totalDist]; simp, fun _ => h2 (Or.inr rfl)⟩

theorem visitPlanets_spec (sys : System) (planets : List Planet) (st : RouteResult × Int) :
    (planets.foldl (fun acc planet => visitSettlements sys planet acc) st).1.totalDist +
        (planets.foldl (fun acc planet => visitSettlements sys planet acc) st).2 =
        st.1.totalDist + st.2 ∧
      ((∃ planet ∈ planets, planet.settlements ≠ []) ∨ st.2 = 0 →
        (planets.foldl (fun acc planet => visitSettlements sys planet acc) st).2 = 0) := by
  induction planets generalizing st with
  | nil => simp
  | cons p l ih =>
    rw [List.foldl_cons]
    obtain ⟨h1, h2⟩ := ih (visitSettlements sys p st)
    obtain ⟨k1, k2⟩ := visitSettlements_spec sys p st
    refine ⟨by rw [h1, k1], ?_⟩
    rintro (⟨q, hq, hne⟩ | h0)
    · rcases List.mem_cons.1 hq with rfl | hq
      · exact h2 (Or.inr (k2 (Or.inl hne)))
      · exact h2 (Or.inl ⟨q, hq, hne⟩)
    · exact h2 (Or.inr (k2 (Or.inr h0)))

theorem visitNode_spec (distance : System → System → ℚ) (systems : List System)
    (st : WalkState) (nodeid : Nat)
    (h : (systems.getD nodeid default).planets ≠ [] →
      ∃ planet ∈ (systems.getD nodeid default).planets, planet.settlements ≠ []) :
    (visitNode distance systems st nodeid).previd = nodeid ∧
      (visitNode distance systems st nodeid).result.totalDist =
        st.result.totalDist +
          (if nodeid > 0 then legDistance distance systems nodeid st.previd else st.dist) := by
  unfold visitNode
  simp only
  by_cases hpl : (systems.getD nodeid default).planets.length = 0
  · rw [if_pos hpl]
    by_cases hn : nodeid > 0
    · rw [if_pos hn, if_pos hn]
      exact ⟨rfl, rfl⟩
    · rw [if_neg hn, if_neg hn]
      exact ⟨rfl, rfl⟩
  · rw [if_neg hpl]
    have hne : (systems.getD nodeid default).planets ≠ [] := by
      intro hnil; apply hpl; rw [hnil]; rfl
    refine ⟨rfl, ?_⟩
    by_cases hn : nodeid > 0
    · simp only [if_pos hn]
      obtain ⟨k1, k2⟩ := visitPlanets_spec (systems.getD nodeid default)
        (systems.getD nodeid default).planets
        (st.result, toInt64 (distance (systems.getD nodeid default)
          (systems.getD st.previd default)))
      have k3 := k2 (Or.inl (h hne))
      rw [k3] at k1
      simpa [legDistance] using k1
    · simp only [if_neg hn]
      obtain ⟨k1, k2⟩ := visitPlanets_spec (systems.getD nodeid default)
        (systems.getD nodeid default).planets (st.result, st.dist)
      have k3 := k2 (Or.inl (h hne))
      rw [k3] at k1
      simpa using k1

theorem walk_spec (distance : System → System → ℚ) (systems : List System)
    (rest : List Nat) (st : WalkState) (h0 : 0 ∉ rest)
    (hs : StopsHaveSettlements systems rest) :
    (rest.foldl (visitNode distance systems) st).result.totalDist =
        st.result.totalDist + legsSum (legDistance distance systems) st.previd rest ∧
      (rest.foldl (visitNode distance systems) st).previd = rest.getLastD st.previd := by
  induction rest generalizing st with
  | nil => simp [legsSum]
  | cons a l ih =>
    rw [List.foldl_cons]
    have ha : 0 < a := by
      rcases Nat.eq_zero_or_pos a with h | h
      · exact absurd (by simp [h]) h0
      · exact h
    obtain ⟨p1, p2⟩ := visitNode_spec distance systems st a (hs a (List.mem_cons_self _ _))
    obtain ⟨q1, q2⟩ := ih (visitNode distance systems st a)
      (fun hmem => h0 (List.mem_cons_of_mem _ hmem))
      (fun i hi => hs i (List.mem_cons_of_mem _ hi))
    rw [q1, q2, p1, p2, if_pos ha]
    constructor
    · simp [legsSum]; ring
    · cases l <;> simp [List.getLastD]

/-- The Tour Result `populate` assembles for an order that starts at node `0`, visited only
first: its last row and its total. -/
theorem populate_spec (distance : System → System → ℚ) (systems : List System)
    (rest : List Nat) (h0 : 0 ∉ rest) (hs : StopsHaveSettlements systems (0 :: rest)) :
    (populate distance systems (0 :: rest)).route.getLast? =
        some ⟨(systems.getD 0 default).name, "Point of Origin", "",
          legDistance distance systems 0 ((0 :: rest).getLastD 0),
          (populate distance systems (0 :: rest)).totalDist⟩ ∧
      (populate distance systems (0 :: rest)).totalDist =
        closedTourLength (legDistance distance systems) (0 :: rest) := by
  obtain ⟨p1, p2⟩ := visitNode_spec distance systems ⟨RouteResult.empty, 0, 0⟩ 0
    (hs 0 (List.mem_cons_self _ _))
  obtain ⟨q1, q2⟩ := walk_spec distance systems rest
    (visitNode distance systems ⟨RouteResult.empty, 0, 0⟩ 0) h0
    (fun i hi => hs i (List.mem_cons_of_mem _ hi))
  have p3 : (visitNode distance systems ⟨RouteResult.empty, 0, 0⟩ 0).result.totalDist = 0 := by
    rw [p2]; rfl
  rw [p1] at q1 q2
  rw [p3, zero_add] at q1
  have hlast : (0 :: rest).getLastD 0 = rest.getLastD 0 := by
    cases rest <;> simp [List.getLastD]
  have htotal : (populate distance systems (0 :: rest)).totalDist =
      closedTourLength (legDistance distance systems) (0 :: rest) := by
    unfold populate closedTourLength
    simp only [List.foldl_cons, addEntry_totalDist, List.headD_cons, List.tail_cons]
    rw [q1, q2, hlast]
    rfl
  refine ⟨?_, htotal⟩
  rw [htotal]
  unfold populate
  simp only [List.foldl_cons]
  rw [addEntry_getLast, q1, q2, hlast]
  simp only [closedTourLength, List.headD_cons, List.tail_cons, hlast]
  rfl

/-- C10. For every worker, with or without an origin, the route optimizer returning a
visiting order that starts at the depot (index `0`, visited only first) and whose stops with
planets all have a settlement: the last row of the Tour Result of `run` is the return to the
origin (the system of stop `0`, labelled "Point of Origin"), its cumulative distance is the
total distance of the Tour Result, and that total is the length of the closed tour: the legs
between consecutive stops plus the closing leg from the last stop back to stop `0`, each
counted once. -/
theorem run_closed_tour (distance : System → System → ℚ)
    (stdSort : (System → System → Bool) → List System → List System)
    (stdSortAt : (System → System → System → Bool) → List System → List System)
    (routingSolve : List (List Int) → Option (List Nat)) (w : TSPWorker) (rest : List Nat)
    (hsolve : routingSolve (calculateDistanceMatrix
        (TSPWorker.calculateDistance distance
          { w with systems := w.stops distance stdSort stdSortAt })
        (w.stops distance stdSort stdSortAt).length) = some (0 :: rest))
    (h0 : 0 ∉ rest)
    (hs : StopsHaveSettlements (w.stops distance stdSort stdSortAt) (0 :: rest)) :
    ∃ r, w.run distance stdSort stdSortAt routingSolve = some r ∧
      r.route.getLast? =
        some ⟨((w.stops distance stdSort stdSortAt).getD 0 default).name,
          "Point of Origin", "",
          legDistance distance (w.stops distance stdSort stdSortAt) 0
            ((0 :: rest).getLastD 0),
          r.totalDist⟩ ∧
      r.totalDist =
        closedTourLength (legDistance distance (w.stops distance stdSort stdSortAt))
          (0 :: rest) := by
  refine ⟨populate distance (w.stops distance stdSort stdSortAt) (0 :: rest), ?_,
    populate_spec distance _ rest h0 hs⟩
  unfold TSPWorker.run
  simp only
  rw [hsolve]

/-- Instance of C10 on the second worked example of the spec: the tour `O → P1 → O`, `P1`
at distance `5`, has total distance `10`, for the worker with the origin `O` and the
candidates `P2`, `P1` cut down to one, and for the worker without origin whose systems
`O`, `P1`, `P2` are cut down to two. -/
theorem run_closed_tour_witness :
    0 ∉ [1] ∧
      StopsHaveSettlements
        (TSPWorker.stops euclid insertionSort insertionSortAt
          ⟨[sysP2, sysP1], some sysO, 1, none⟩) [0, 1] ∧
      (∃ r, TSPWorker.run euclid insertionSort insertionSortAt visitInOrder
            ⟨[sysP2, sysP1], some sysO, 1, none⟩ = some r ∧
          r.totalDist = closedTourLength (legDistance euclid
            (TSPWorker.stops euclid insertionSort insertionSortAt
              ⟨[sysP2, sysP1], some sysO, 1, none⟩)) [0, 1]) ∧
      TSPWorker.run euclid insertionSort insertionSortAt visitInOrder
          ⟨[sysP2, sysP1], some sysO, 1, none⟩ =
        some ⟨[⟨"O", "Point of Origin", "", 0, 0⟩, ⟨"P1", "P1 a", "Base", 5, 5⟩,
          ⟨"O", "Point of Origin", "", 5, 10⟩], 10⟩ ∧
      StopsHaveSettlements
        (TSPWorker.stops euclid insertionSort insertionSortAt
          ⟨[sysO, sysP1, sysP2], none, 2, none⟩) [0, 1] ∧
      (∃ r, TSPWorker.run euclid insertionSort insertionSortAt visitInOrder
            ⟨[sysO, sysP1, sysP2], none, 2, none⟩ = some r ∧
          r.totalDist = closedTourLength (legDistance euclid
            (TSPWorker.stops euclid insertionSort insertionSortAt
              ⟨[sysO, sysP1, sysP2], none, 2, none⟩)) [0, 1]) ∧
      TSPWorker.run euclid insertionSort insertionSortAt visitInOrder
          ⟨[sysO, sysP1, sysP2], none, 2, none⟩ =
        some ⟨[⟨"O", "Point of Origin", "", 0, 0⟩, ⟨"P1", "P1 a", "Base", 5, 5⟩,
          ⟨"O", "Point of Origin", "", 5, 10⟩], 10⟩ := by
  have hstops : TSPWorker.stops euclid insertionSort insertionSortAt
      ⟨[sysP2, sysP1], some sysO, 1, none⟩ = [sysO, sysP1] := by decide!
  have hstops2 : TSPWorker.stops euclid insertionSort insertionSortAt
      ⟨[sysO, sysP1, sysP2], none, 2, none⟩ = [sysO, sysP1] := by decide!
  have h0 : 0 ∉ [1] := by decide
  have hs0 : StopsHaveSettlements [sysO, sysP1] [0, 1] := by
    intro i hi
    simp only [List.mem_cons, List.mem_singleton, List.not_mem_nil, or_false] at hi
    rcases hi with rfl | rfl
    · intro h; exact absurd rfl h
    · intro _; exact ⟨⟨"P1 a", [⟨"Base", 0, 1, 0⟩]⟩, by decide, by decide⟩
  have hs : StopsHaveSettlements
      (TSPWorker.stops euclid insertionSort insertionSortAt
        ⟨[sysP2, sysP1], some sysO, 1, none⟩) [0, 1] := by
    rw [hstops]
    exact hs0
  have hs2 : StopsHaveSettlements
      (TSPWorker.stops euclid insertionSort insertionSortAt
        ⟨[sysO, sysP1, sysP2], none, 2, none⟩) [0, 1] := by
    rw [hstops2]
    exact hs0
  obtain ⟨r, h1, -, h3⟩ := run_closed_tour euclid insertionSort insertionSortAt visitInOrder
    ⟨[sysP2, sysP1], some sysO, 1, none⟩ [1] (by decide!) h0 hs
  obtain ⟨r2, k1, -, k3⟩ := run_closed_tour euclid insertionSort insertionSortAt visitInOrder
    ⟨[sysO, sysP1, sysP2], none, 2, none⟩ [1] (by decide!) h0 hs2
  exact ⟨h0, hs, ⟨r, h1, h3⟩, by decide!, hs2, ⟨r2, k1, k3⟩, by decide!⟩

theorem calculateDistanceMatrix_one (cost : Nat → Nat → Int) :
    calculateDistanceMatrix cost 1 = [[0]] := by
  rfl

theorem populate_route_ne_nil (distance : System → System → ℚ) (systems : List System)
    (order : List Nat) : (populate distance systems order).route ≠ [] := by
  unfold populate
  exact addEntry_route_ne_nil _ _ _ _ _

theorem run_zero_candidates (distance : System → System → ℚ)
    (stdSort : (System → System → Bool) → List System → List System)
    (stdSortAt : (System → System → System → Bool) → List System → List System)
    (routingSolve : List (List Int) → Option (List Nat)) (origin : System) (maxCount : Nat)
    (rtr : Option (String → String → ℚ → AStarResult))
    (hperm : (stdSort (fun a b => decide (distance a origin < distance b origin)) []).Perm []) :
    TSPWorker.sortAndResize distance stdSort ⟨[], some origin, maxCount, rtr⟩ origin = [origin] ∧
      TSPWorker.run distance stdSort stdSortAt routingSolve ⟨[], some origin, maxCount, rtr⟩ =
        match routingSolve [[0]] with
        | some order => some (populate distance [origin] order)
        | none => some RouteResult.empty := by
  have hnil : stdSort (fun a b => decide (distance a origin < distance b origin)) [] = [] :=
    List.perm_nil.1 hperm
  have hstops : TSPWorker.sortAndResize distance stdSort ⟨[], some origin, maxCount, rtr⟩
      origin = [origin] := by
    rw [sortAndResize_eq]
    simp [hnil]
  refine ⟨hstops, ?_⟩
  have hst : TSPWorker.stops distance stdSort stdSortAt ⟨[], some origin, maxCount, rtr⟩ =
      [origin] := hstops
  unfold TSPWorker.run
  simp only [hst, List.length_singleton, calculateDistanceMatrix_one]

/-- C9, as the code has it. With no filtered system `createRoute` starts no worker: it only
shows the message that no settlement matches, and no Tour Result is emitted. A worker run
on zero candidates with a fixed origin plans over the origin alone: its Tour Result has zero
rows and total distance `0` when the route optimizer finds no solution, and otherwise ends
with the "Point of Origin" row of the return to the origin. -/
theorem zero_destinations (distance : System → System → ℚ)
    (stdSort : (System → System → Bool) → List System → List System)
    (stdSortAt : (System → System → System → Bool) → List System → List System)
    (routingSolve : List (List Int) → Option (List Nat)) (router : AStarRouter)
    (systemName : String) (routeSize : Nat) (origin : System) (maxCount : Nat)
    (rtr : Option (String → String → ℚ → AStarResult))
    (hperm : (stdSort (fun a b => decide (distance a origin < distance b origin)) []).Perm []) :
    createRoute router [] systemName routeSize = CreateRouteOutcome.noSettlements ∧
      TSPWorker.sortAndResize distance stdSort ⟨[], some origin, maxCount, rtr⟩ origin =
        [origin] ∧
      (routingSolve [[0]] = none →
        TSPWorker.run distance stdSort stdSortAt routingSolve ⟨[], some origin, maxCount, rtr⟩ =
          some ⟨[], 0⟩) ∧
      (∀ order, routingSolve [[0]] = some order →
        ∃ r, TSPWorker.run distance stdSort stdSortAt routingSolve ⟨[], some origin, maxCount, rtr⟩ =
            some r ∧ r.route ≠ [] ∧
          ∃ d, r.route.getLast? = some ⟨origin.name, "Point of Origin", "", d, r.totalDist⟩) := by
  obtain ⟨h1, h2⟩ :=
    run_zero_candidates distance stdSort stdSortAt routingSolve origin maxCount rtr hperm
  refine ⟨rfl, h1, ?_, ?_⟩
  · intro hnone
    rw [h2, hnone]
    rfl
  · intro order hsome
    rw [h2, hsome]
    refine ⟨_, rfl, populate_route_ne_nil distance [origin] order, ?_⟩
    unfold populate
    exact ⟨_, addEntry_getLast _ _ _ _ _⟩

/-- Instance of C9 as amended: no candidate, the origin `O`, and an optimizer that finds no
solution. -/
theorem zero_destinations_witness :
    (insertionSort (fun a b => decide (euclid a sysO < euclid b sysO)) []).Perm [] ∧
      createRoute ⟨[sysO]⟩ [] "O" 1 = CreateRouteOutcome.noSettlements ∧
      TSPWorker.run euclid insertionSort insertionSortAt (fun _ => none) ⟨[], some sysO, 1, none⟩ =
        some ⟨[], 0⟩ :=
  ⟨List.Perm.refl _,
    (zero_destinations euclid insertionSort insertionSortAt (fun _ => none) ⟨[sysO]⟩ "O" 1 sysO 1 none
      (List.Perm.refl _)).1,
    (zero_destinations euclid insertionSort insertionSortAt (fun _ => none) ⟨[sysO]⟩ "O" 1 sysO 1 none
      (List.Perm.refl _)).2.2.1 rfl⟩

/-- C9 fails as stated: with zero destinations `createRoute` starts no plan at all, and a
plan run on zero candidates from the origin `O`, the optimizer returning the route of the
depot alone, yields a Tour Result of two rows, not of zero rows. -/
theorem zero_destinations_counterexample :
    createRoute ⟨[sysO]⟩ [] "O" 1 = CreateRouteOutcome.noSettlements ∧
      TSPWorker.run euclid insertionSort insertionSortAt (fun _ => some [0]) ⟨[], some sysO, 1, none⟩ =
        some ⟨[⟨"O", "Point of Origin", "", 0, 0⟩, ⟨"O", "Point of Origin", "", 0, 0⟩], 0⟩ :=
  ⟨rfl, by decide!⟩

/-! ### The cost function of the matrix (`TSPWorker::calculateDistance`) -/

theorem toInt64_nonneg {q : ℚ} (h : 0 ≤ q) : 0 ≤ toInt64 q :=
  Int.tdiv_nonneg (Rat.num_nonneg.2 h) (Int.ofNat_nonneg _)

/-- No cost that `calculateDistance` returns is negative, distances being non-negative; in
particular none is the `-1` or the `-2` marker of the matrix. -/
theorem calculateDistance_nonneg (distance : System → System → ℚ)
    (hd : ∀ a b, 0 ≤ distance a b) (w : TSPWorker) (frm dst : Nat) :
    0 ≤ w.calculateDistance distance frm dst := by
  unfold TSPWorker.calculateDistance
  cases w.router with
  | none => exact toInt64_nonneg (hd _ _)
  | some calculateRoute =>
    simp only
    split_ifs
    · exact Int.ofNat_nonneg _
    · decide

/-- A valid result of `calculateRoute`, the path finder being sound, has a route that is
not empty. -/
theorem calculateRoute_route_ne_nil (distanceTo : System → System → ℚ) (buffer : ℚ)
    (findPath : FindPath) (hsound : FindPathSound findPath)
    (r : AStarRouter) (begin_ end_ : String) (jumprange : ℚ)
    (hv : (r.calculateRoute distanceTo buffer findPath begin_ end_ jumprange).valid = true) :
    (r.calculateRoute distanceTo buffer findPath begin_ end_ jumprange).route ≠ [] := by
  cases ha : r.getSystemByName begin_ with
  | none =>
    rw [AStarRouter.calculateRoute, ha] at hv
    cases hv
  | some a =>
    cases hb : r.getSystemByName end_ with
    | none =>
      rw [AStarRouter.calculateRoute, ha, hb] at hv
      cases hv
    | some b =>
      rw [calculateRoute_eq_of distanceTo buffer findPath r begin_ end_ jumprange a b ha hb]
        at hv ⊢
      have hend := endpointsOK_create buffer r.systems a b jumprange
      generalize AStarCalculator.create buffer r.systems a b jumprange = c at hv hend ⊢
      obtain ⟨s, e, sol, hs, he, hcase⟩ := solve_valid_of distanceTo findPath hsound c hv
      obtain ⟨ss, hss, -⟩ := hend.1 s hs
      rcases hcase with hnone | ⟨hres, hroute, hhead⟩
      · rw [hss] at hnone
        cases hnone
      · obtain ⟨sv, -, k2, -⟩ :=
          route_systems distanceTo c s ss hss sol.reverse hroute e hhead
        rw [List.reverse_reverse] at k2
        rw [hres]
        intro hnil
        rw [hnil] at k2
        cases k2

/-- C11, as the code has it. With a router set, `calculateDistance from to` is the number
of locations of the route of the Path Result (`route().size()`, both ends counted: one more
than the number of jumps of a route that is not empty) when the Path Result is valid, and
the sentinel `INT64_MAX` when it is invalid; a route holding fewer than `INT64_MAX`
locations, the sentinel is returned exactly when the Path Result is invalid. -/
theorem calculateDistance_router (distance : System → System → ℚ) (w : TSPWorker)
    (calculateRoute : String → String → ℚ → AStarResult) (frm dst : Nat)
    (hr : w.router = some calculateRoute) :
    ((calculateRoute (w.systems.getD frm default).name (w.systems.getD dst default).name
        45).valid = true →
      w.calculateDistance distance frm dst =
        ((calculateRoute (w.systems.getD frm default).name (w.systems.getD dst default).name
          45).route.length : Int)) ∧
    ((calculateRoute (w.systems.getD frm default).name (w.systems.getD dst default).name
        45).valid = true →
      (calculateRoute (w.systems.getD frm default).name (w.systems.getD dst default).name
        45).route ≠ [] →
      w.calculateDistance distance frm dst =
        (jumpCount (calculateRoute (w.systems.getD frm default).name
          (w.systems.getD dst default).name 45).route : Int) + 1) ∧
    ((calculateRoute (w.systems.getD frm default).name (w.systems.getD dst default).name
        45).valid = false →
      w.calculateDistance distance frm dst = INT64_MAX) ∧
    (((calculateRoute (w.systems.getD frm default).name (w.systems.getD dst default).name
        45).route.length : Int) < INT64_MAX →
      (w.calculateDistance distance frm dst = INT64_MAX ↔
        (calculateRoute (w.systems.getD frm default).name (w.systems.getD dst default).name
          45).valid = false)) := by
  have hcd : w.calculateDistance distance frm dst =
      if (calculateRoute (w.systems.getD frm default).name (w.systems.getD dst default).name
        45).valid = true
      then ((calculateRoute (w.systems.getD frm default).name
        (w.systems.getD dst default).name 45).route.length : Int)
      else INT64_MAX := by
    unfold TSPWorker.calculateDistance
    rw [hr]
  generalize calculateRoute (w.systems.getD frm default).name
    (w.systems.getD dst default).name 45 = result at hcd ⊢
  rw [hcd]
  refine ⟨fun hv => by rw [if_pos hv], ?_, fun hv => by rw [if_neg (by simp [hv])], ?_⟩
  · intro hv hne
    rw [if_pos hv]
    have hpos : 0 < result.route.length := List.length_pos.2 hne
    unfold jumpCount
    omega
  · intro hlen
    cases hv : result.valid with
    | true =>
      rw [if_pos rfl]
      constructor
      · intro h
        omega
      · intro h
        cases h
    | false =>
      rw [if_neg (by simp)]
      exact ⟨fun _ => rfl, fun _ => rfl⟩

/-- C11 fails as stated: with the router of the catalog `A`, `B`, `C` of the first worked
example, the route from `A` to `B` within range `45` is `[A, B]`, one jump, and
`calculateDistance` returns `2`; so it does for every sound path finder that finds a
route. -/
theorem calculateDistance_router_counterexample :
    AStarRouter.calculateRoute euclid 40 astar ⟨[sysA, sysB, sysC]⟩ "A" "B" 45 =
        ⟨true, [sysA, sysB], 10⟩ ∧
      jumpCount [sysA, sysB] = 1 ∧
      TSPWorker.calculateDistance euclid ⟨[sysA, sysB, sysC], none, 3,
        some (AStarRouter.calculateRoute euclid 40 astar ⟨[sysA, sysB, sysC]⟩)⟩ 0 1 = 2 ∧
      (∀ (findPath : FindPath) (buffer : ℚ), FindPathSound findPath →
        (AStarRouter.calculateRoute euclid buffer findPath ⟨[sysA, sysB, sysC]⟩ "A" "B"
          45).valid = true →
        TSPWorker.calculateDistance euclid ⟨[sysA, sysB, sysC], none, 3,
            some (AStarRouter.calculateRoute euclid buffer findPath ⟨[sysA, sysB, sysC]⟩)⟩
            0 1 ≠
          (jumpCount (AStarRouter.calculateRoute euclid buffer findPath
            ⟨[sysA, sysB, sysC]⟩ "A" "B" 45).route : Int)) := by
  refine ⟨by decide!, by decide, by decide!, ?_⟩
  intro findPath buffer hsound hv
  have hne := calculateRoute_route_ne_nil euclid buffer findPath hsound
    ⟨[sysA, sysB, sysC]⟩ "A" "B" 45 hv
  have hcd : TSPWorker.calculateDistance euclid ⟨[sysA, sysB, sysC], none, 3,
      some (AStarRouter.calculateRoute euclid buffer findPath ⟨[sysA, sysB, sysC]⟩)⟩ 0 1 =
      ((AStarRouter.calculateRoute euclid buffer findPath ⟨[sysA, sysB, sysC]⟩ "A" "B"
        45).route.length : Int) := by
    show (if (AStarRouter.calculateRoute euclid buffer findPath ⟨[sysA, sysB, sysC]⟩ "A" "B"
        45).valid = true then _ else _) = _
    rw [if_pos hv]
    rfl
  rw [hcd]
  have hpos := List.length_pos.2 hne
  unfold jumpCount
  omega

/-- Instance of C11 as amended on the first worked example of the spec: the route from `A`
to `C` within range `45` is valid and `calculateDistance` returns the number of its
locations; for the unknown name `D` the Path Result is invalid and the sentinel is
returned. -/
theorem calculateDistance_router_witness :
    (AStarRouter.calculateRoute euclid 40 astar ⟨[sysA, sysB, sysC]⟩ "A" "C" 45).valid =
        true ∧
      TSPWorker.calculateDistance euclid ⟨[sysA, sysB, sysC], none, 3,
          some (AStarRouter.calculateRoute euclid 40 astar ⟨[sysA, sysB, sysC]⟩)⟩ 0 2 =
        ((AStarRouter.calculateRoute euclid 40 astar ⟨[sysA, sysB, sysC]⟩ "A" "C"
          45).route.length : Int) ∧
      TSPWorker.calculateDistance euclid ⟨[sysA, ⟨"D", [], 0, 0, 0⟩], none, 2,
          some (AStarRouter.calculateRoute euclid 40 astar ⟨[sysA, sysB, sysC]⟩)⟩ 0 1 =
        INT64_MAX :=
  ⟨by decide!,
    (calculateDistance_router euclid ⟨[sysA, sysB, sysC], none, 3,
      some (AStarRouter.calculateRoute euclid 40 astar ⟨[sysA, sysB, sysC]⟩)⟩
      (AStarRouter.calculateRoute euclid 40 astar ⟨[sysA, sysB, sysC]⟩) 0 2 rfl).1
      (by decide!),
    by decide!⟩

/-! ### The tasks `calculateDistanceMatrix` dispatches -/

theorem dispatched_eq (cost : Nat → Nat → Int) (sz : Nat) :
    dispatched cost sz = allFutures cost sz :=
  (dispatch_result cost sz).2

theorem length_filter_lt (a t : Nat) :
    ((List.range t).filter (fun b => decide (a < b))).length = t - (a + 1) := by
  induction t with
  | zero => simp
  | succ t ih =>
    rw [List.range_succ, List.filter_append, List.length_append, ih]
    by_cases h : a < t
    · simp [h]
      omega
    · simp [h]
      omega

theorem length_rowFutures (cost : Nat → Nat → Int) (a t : Nat) :
    (rowFutures cost a t).length = t - (a + 1) := by
  unfold rowFutures
  rw [List.length_map, length_filter_lt]

theorem length_rows (cost : Nat → Nat → Int) (sz f : Nat) (hf : f ≤ sz) :
    2 * ((List.range f).flatMap (fun a => rowFutures cost a sz)).length + f * (f + 1) =
      2 * f * sz := by
  induction f with
  | zero => simp
  | succ f ih =>
    have h := ih (by omega)
    rw [List.range_succ, List.flatMap_append, List.length_append]
    simp only [List.flatMap_singleton, length_rowFutures]
    have h2 : sz - (f + 1) + (f + 1) = sz := by omega
    nlinarith [h, h2]

theorem length_allFutures (cost : Nat → Nat → Int) (sz : Nat) :
    (allFutures cost sz).length = sz * (sz - 1) / 2 := by
  have h := length_rows cost sz sz le_rfl
  unfold allFutures
  cases sz with
  | zero => rfl
  | succ n =>
    simp only [Nat.add_sub_cancel] at h ⊢
    have h3 : (n + 1) * n = 2 * ((List.range (n + 1)).flatMap
        (fun a => rowFutures cost a (n + 1))).length := by nlinarith [h]
    rw [h3]
    omega

theorem map_snd_rowFutures (cost : Nat → Nat → Int) (a t : Nat) :
    (rowFutures cost a t).map Prod.snd =
      ((List.range t).filter (fun b => decide (a < b))).map (fun b => (a, b)) := by
  unfold rowFutures
  rw [List.map_map]
  rfl

theorem nodup_allFutures (cost : Nat → Nat → Int) (sz : Nat) :
    ((allFutures cost sz).map Prod.snd).Nodup := by
  unfold allFutures
  rw [List.map_flatMap, List.nodup_flatMap]
  constructor
  · intro a _
    rw [map_snd_rowFutures]
    refine List.Nodup.map ?_ ((List.nodup_range sz).filter _)
    intro b c hbc
    exact (Prod.mk.inj hbc).2
  · refine List.Pairwise.imp ?_ (List.nodup_range sz)
    intro a b hab
    simp only [Function.onFun, map_snd_rowFutures]
    rw [List.disjoint_left]
    intro p hp hq
    simp only [List.mem_map, List.mem_filter, List.mem_range, decide_eq_true_eq] at hp hq
    obtain ⟨x, -, rfl⟩ := hp
    obtain ⟨y, -, hy⟩ := hq
    exact hab (Prod.mk.inj hy).1.symm

theorem mem_pairs_allFutures (cost : Nat → Nat → Int) (sz i j : Nat) :
    (i, j) ∈ (allFutures cost sz).map Prod.snd ↔ i < j ∧ j < sz := by
  simp only [List.mem_map, mem_allFutures]
  constructor
  · rintro ⟨p, ⟨h1, h2, -⟩, hp⟩
    rw [hp] at h1 h2
    exact ⟨h1, h2⟩
  · rintro ⟨h1, h2⟩
    exact ⟨(cost i j, (i, j)), ⟨h1, h2, rfl⟩, rfl⟩

/-- C12. For a destination list of size `sz` and any cost function,
`calculateDistanceMatrix` dispatches `sz * (sz - 1) / 2` tasks, each for a pair `(i, j)` with
`i < j < sz` and computing the cost of that pair; no pair is dispatched twice, every pair
`i < j` is dispatched and its mirror `(j, i)` is not; the matrix returned is `sz × sz`, its diagonal cells
hold `0` and its cell `[i][j]` off the diagonal holds the cost of `(min i j, max i j)`, so
that no cell holds the `-1` or `-2` marker unless it is the cost computed for its pair. -/
theorem calculateDistanceMatrix_dispatch (calculateDistance : Nat → Nat → Int) (sz : Nat) :
    (dispatched calculateDistance sz).length = sz * (sz - 1) / 2 ∧
      (∀ p ∈ dispatched calculateDistance sz,
        p.2.1 < p.2.2 ∧ p.2.2 < sz ∧ p.1 = calculateDistance p.2.1 p.2.2) ∧
      ((dispatched calculateDistance sz).map Prod.snd).Nodup ∧
      (∀ i j, i < j → j < sz →
        (i, j) ∈ (dispatched calculateDistance sz).map Prod.snd ∧
        (j, i) ∉ (dispatched calculateDistance sz).map Prod.snd) ∧
      Grid (calculateDistanceMatrix calculateDistance sz) sz ∧
      (∀ i, i < sz → getCell (calculateDistanceMatrix calculateDistance sz) i i = 0) ∧
      (∀ i j, i < sz → j < sz → i ≠ j →
        getCell (calculateDistanceMatrix calculateDistance sz) i j =
          calculateDistance (min i j) (max i j)) ∧
      ((∀ a b, calculateDistance a b ≠ -1 ∧ calculateDistance a b ≠ -2) →
        ∀ i j, i < sz → j < sz →
          getCell (calculateDistanceMatrix calculateDistance sz) i j ≠ -1 ∧
          getCell (calculateDistanceMatrix calculateDistance sz) i j ≠ -2) := by
  have hcells := calculateDistanceMatrix_cells calculateDistance sz
  rw [dispatched_eq]
  refine ⟨length_allFutures _ _, fun p hp => (mem_allFutures _ _ p).1 hp,
    nodup_allFutures _ _, ?_, hcells.1, ?_, ?_, ?_⟩
  · intro i j hij hj
    refine ⟨(mem_pairs_allFutures _ _ i j).2 ⟨hij, hj⟩, ?_⟩
    intro hmem
    have := ((mem_pairs_allFutures _ _ j i).1 hmem).1
    omega
  · intro i hi
    rw [hcells.2 i i hi hi, if_pos rfl]
  · intro i j hi hj hne
    rw [hcells.2 i j hi hj, if_neg hne]
    by_cases hlt : i < j
    · rw [if_pos hlt, min_eq_left (le_of_lt hlt), max_eq_right (le_of_lt hlt)]
    · have hji : j ≤ i := by omega
      rw [if_neg hlt, min_eq_right hji, max_eq_left hji]
  · intro hcost i j hi hj
    rw [hcells.2 i j hi hj]
    split_ifs
    · exact ⟨by decide, by decide⟩
    · exact hcost i j
    · exact hcost j i

/-- Instance of C12: for three systems and the cost `10 * from + to` the tasks are those of
the pairs `(0,1)`, `(0,2)`, `(1,2)`, in this order. -/
theorem calculateDistanceMatrix_dispatch_witness :
    dispatched (fun a b => 10 * a + b) 3 = [(1, (0, 1)), (2, (0, 2)), (12, (1, 2))] ∧
      (dispatched (fun a b => 10 * a + b) 3).length = 3 * (3 - 1) / 2 ∧
      getCell (calculateDistanceMatrix (fun a b => 10 * a + b) 3) 2 1 = 12 :=
  ⟨by decide, (calculateDistanceMatrix_dispatch (fun a b => 10 * a + b) 3).1,
    by decide⟩

/-! ### Filtering -/

theorem filterSystem_fst (jumpClimbRequired : Nat) (f : FilterSettings)
    (st : List System × Nat) (system : System) :
    (filterSystem jumpClimbRequired f st system).1 = st.1 ∨
      ∃ planets, (filterSystem jumpClimbRequired f st system).1 =
        st.1 ++ [⟨system.name, planets, system.x, system.y, system.y⟩] := by
  unfold filterSystem
  simp only
  split_ifs
  · exact Or.inr ⟨_, rfl⟩
  · exact Or.inl rfl

theorem foldl_filterSystem (jumpClimbRequired : Nat) (f : FilterSettings)
    (systems : List System) (st : List System × Nat) :
    ∀ s ∈ (systems.foldl (filterSystem jumpClimbRequired f) st).1,
      s ∈ st.1 ∨ ∃ loaded ∈ systems,
        s.name = loaded.name ∧ s.x = loaded.x ∧ s.y = loaded.y ∧ s.z = loaded.y := by
  induction systems generalizing st with
  | nil => exact fun s hs => Or.inl hs
  | cons system rest ih =>
    intro s hs
    rw [List.foldl_cons] at hs
    rcases ih _ s hs with h | ⟨loaded, hl, h⟩
    · rcases filterSystem_fst jumpClimbRequired f st system with h1 | ⟨planets, h1⟩
      · rw [h1] at h
        exact Or.inl h
      · rw [h1] at h
        rcases List.mem_append.1 h with h2 | h2
        · exact Or.inl h2
        · simp only [List.mem_singleton] at h2
          subst h2
          exact Or.inr ⟨system, List.mem_cons_self _ _, rfl, rfl, rfl, rfl⟩
    · exact Or.inr ⟨loaded, List.mem_cons_of_mem _ hl, h⟩

/-- What `updateFilters` does to the location of a system: a filtered system has the name,
the `x` and the `y` of a loaded system, and its `z` is the `y` of that system. -/
theorem updateFilters_systems (jumpClimbRequired : Nat) (f : FilterSettings)
    (systems : List System) :
    ∀ s ∈ (updateFilters jumpClimbRequired f systems).1, ∃ loaded ∈ systems,
      s.name = loaded.name ∧ s.x = loaded.x ∧ s.y = loaded.y ∧ s.z = loaded.y := by
  intro s hs
  rcases foldl_filterSystem jumpClimbRequired f systems ([], 0) s hs with h | h
  · cases h
  · exact h

/-- C13 fails on the code. The loaded system `P1` of the second worked example lies at
`(3, 4, 0)` and its settlement matches the filter that admits small settlements; whatever
the jump-climb flag is, `updateFilters` puts `P1` into the filtered list at `(3, 4, 4)`: the
`z` coordinate is replaced by `y`. The filtered `P1` is `6` from the origin `O` where the
loaded one is `5`, and the tour `O`, `P1`, `O` planned over the filtered list has total
distance `12` where the tour over the loaded system has `10`. -/
theorem updateFilters_location :
    (∀ jumpClimbRequired : Nat,
      updateFilters jumpClimbRequired ⟨0, false, 0, 1⟩ [sysP1] =
        ([⟨"P1", [⟨"P1 a", [⟨"Base", 0, 1, 0⟩]⟩], 3, 4, 4⟩], 1)) ∧
      sysP1.name = "P1" ∧ sysP1.x = 3 ∧ sysP1.y = 4 ∧ sysP1.z = 0 ∧
      toInt64 (euclid sysO sysP1) = 5 ∧
      toInt64 (euclid sysO ⟨"P1", [⟨"P1 a", [⟨"Base", 0, 1, 0⟩]⟩], 3, 4, 4⟩) = 6 ∧
      (TSPWorker.run euclid insertionSort insertionSortAt visitInOrder
        ⟨[sysP1], some sysO, 1, none⟩).map RouteResult.totalDist = some 10 ∧
      (TSPWorker.run euclid insertionSort insertionSortAt visitInOrder
        ⟨(updateFilters 0 ⟨0, false, 0, 1⟩ [sysP1]).1, some sysO, 1, none⟩).map
          RouteResult.totalDist = some 12 := by
  refine ⟨?_, rfl, rfl, rfl, rfl, by decide!, by decide!, by decide!, by decide!⟩
  intro j
  simp [updateFilters, filterSystem, filterPlanets, filterSettlements, settlementMatches,
    sysP1]

end EDPathFinder
